import Mathlib

/-!
Verification of the `pdfe` maintenance scripts against their natural-language
specification.  The Python sources under `scripts/` are shallowly embedded:
file contents are lists of characters, each hand-written regular expression is
translated into a deterministic scanner that reproduces Python's leftmost /
greedy backtracking behaviour on the shapes of input the pattern can meet, and
the file-writing logic of each script is modelled as a pure decision function.
-/

set_option maxRecDepth 4000

abbrev Chars := List Char

/-- Python `\s` (ASCII range, as produced by the scripts' inputs). -/
def isWsChar (c : Char) : Bool :=
  c = ' ' || c = '\t' || c = '\n' || c = '\r' || c = '\x0b' || c = '\x0c'

/-- Python `\d` (ASCII digits). -/
def isDigitChar (c : Char) : Bool :=
  '0' ≤ c && c ≤ '9'

/-- Character class `[a-zA-Z_]`. -/
def isIdentHead (c : Char) : Bool :=
  ('a' ≤ c && c ≤ 'z') || ('A' ≤ c && c ≤ 'Z') || c = '_'

/-- Character class `[a-zA-Z0-9_]`. -/
def isIdentChar (c : Char) : Bool :=
  isIdentHead c || isDigitChar c

/-- Python's substring test `pat in hay`. -/
def containsSub (hay pat : Chars) : Bool :=
  match hay with
  | [] => pat.isEmpty
  | _ :: t => pat.isPrefixOf hay || containsSub t pat

/-- Occurrence test for `pat` at offset `i` of `s`. -/
def occursAt (s pat : Chars) (i : Nat) : Bool :=
  pat.isPrefixOf (s.drop i)

/-- Python `str.count` for a nonempty pattern (non-overlapping occurrences). -/
def countOccur (hay pat : Chars) : Nat :=
  match hay, pat with
  | _, [] => 0
  | [], _ => 0
  | c :: t, p :: ps =>
      if (p :: ps).isPrefixOf (c :: t) then 1 + countOccur (t.drop ps.length) (p :: ps)
      else countOccur t (p :: ps)
termination_by hay.length
decreasing_by
  all_goals simp only [List.length_drop, List.length_cons]
  all_goals omega

/-- Python `content.split('\n')`: always at least one piece, pieces newline-free. -/
def splitLines (s : Chars) : List Chars :=
  match s with
  | [] => [[]]
  | c :: t =>
      if c = '\n' then [] :: splitLines t
      else
        match splitLines t with
        | [] => [[c]]
        | l :: ls => (c :: l) :: ls

/-- Python `'\n'.join(pieces)`. -/
def joinNl (ls : List Chars) : Chars :=
  match ls with
  | [] => []
  | [l] => l
  | l :: ls => l ++ '\n' :: joinNl ls

theorem splitLines_ne_nil (s : Chars) : splitLines s ≠ [] := by
  cases s with
  | nil => simp [splitLines]
  | cons c t =>
      simp only [splitLines]
      split
      · simp
      · split <;> simp

theorem splitLines_no_nl (s : Chars) : ∀ l ∈ splitLines s, '\n' ∉ l := by
  induction s with
  | nil => intro l hl; simp [splitLines] at hl; simp [hl]
  | cons c t ih =>
      intro l hl
      by_cases h : c = '\n'
      · rw [show splitLines (c :: t) = [] :: splitLines t by simp [splitLines, h]] at hl
        simp at hl
        rcases hl with h1 | h2
        · simp [h1]
        · exact ih l h2
      · rcases hsp : splitLines t with _ | ⟨m, ms⟩
        · exact absurd hsp (splitLines_ne_nil t)
        · rw [show splitLines (c :: t) = (c :: m) :: ms by
            simp only [splitLines, h, if_false]; rw [hsp]] at hl
          simp at hl
          rcases hl with h1 | h2
          · subst h1
            have hm : '\n' ∉ m := ih m (by rw [hsp]; simp)
            simp only [List.mem_cons, not_or]
            exact ⟨fun hh => h hh.symm, hm⟩
          · exact ih l (by rw [hsp]; simp [h2])

theorem joinNl_splitLines (s : Chars) : joinNl (splitLines s) = s := by
  induction s with
  | nil => simp [splitLines, joinNl]
  | cons c t ih =>
      by_cases h : c = '\n'
      · rw [show splitLines (c :: t) = [] :: splitLines t by simp [splitLines, h]]
        rcases hsp : splitLines t with _ | ⟨m, ms⟩
        · exact absurd hsp (splitLines_ne_nil t)
        · rw [hsp] at ih
          simp only [joinNl]
          rw [ih, h]
          rfl
      · rcases hsp : splitLines t with _ | ⟨m, ms⟩
        · exact absurd hsp (splitLines_ne_nil t)
        · rw [show splitLines (c :: t) = (c :: m) :: ms by
            simp only [splitLines, h, if_false]; rw [hsp]]
          rw [hsp] at ih
          rcases ms with _ | ⟨m2, ms2⟩
          · simp only [joinNl] at ih ⊢
            rw [ih]
          · simp only [joinNl] at ih ⊢
            rw [List.cons_append, ih]

/-! ## The wiki page splitters

`split-pdf-spec.py`, `split-pdf-spec-v2.py`, `split-pdf-spec-v3.py`,
`split-pdf20-spec.py` and `split-pdf20-spec-v2.py` cut a large specification
text into pages by literal line ranges and wrap each page in generated
navigation.  A section table entry `(start_line, end_line, filename, title)`
is modelled by `SpecEntry`; a source document is a list of its lines (each
line keeping its trailing newline, as Python's `readlines` produces). -/

structure SpecEntry where
  start_line : Nat
  end_line : Nat
  filename : Chars
  title : Chars

namespace SplitPdfSpec

/-- Navigation line shared by header and footer of `write_wiki_page`
(`split-pdf-spec.py`): plain markdown links. -/
def nav_line (prev_page next_page : Option Chars) : Chars :=
  "> **Navigation**: ".toList
    ++ (match prev_page with
        | some p => "[← Previous](".toList ++ p ++ ")".toList
        | none => "← Previous".toList)
    ++ " | [Index](PDF-Spec-Index)".toList
    ++ (match next_page with
        | some n => " | [Next →](".toList ++ n ++ ")".toList
        | none => " | Next →".toList)

/-- The `nav_header` string built by `write_wiki_page` in `split-pdf-spec.py`,
mirroring its chain of `+=` concatenations. -/
def nav_header (title : Chars) (prev_page next_page : Option Chars) : Chars :=
  (((( "# ".toList ++ title ++ "\n\n".toList)
      ++ "> **Navigation**: ".toList)
      ++ (match prev_page with
          | some p => "[← Previous](".toList ++ p ++ ")".toList
          | none => "← Previous".toList))
      ++ " | [Index](PDF-Spec-Index)".toList)
      ++ (match next_page with
          | some n => " | [Next →](".toList ++ n ++ ")".toList
          | none => " | Next →".toList)
      ++ "\n\n---\n\n".toList

/-- The `nav_footer` string built by `write_wiki_page` in `split-pdf-spec.py`;
the navigation text is rebuilt by a second, independent chain of `+=`. -/
def nav_footer (prev_page next_page : Option Chars) : Chars :=
  ((( "\n\n---\n\n".toList
      ++ "> **Navigation**: ".toList)
      ++ (match prev_page with
          | some p => "[← Previous](".toList ++ p ++ ")".toList
          | none => "← Previous".toList))
      ++ " | [Index](PDF-Spec-Index)".toList)
      ++ (match next_page with
          | some n => " | [Next →](".toList ++ n ++ ")".toList
          | none => " | Next →".toList)
      ++ "\n".toList

/-- Bytes written to `WIKI_DIR/filename.md` by `write_wiki_page`. -/
def write_wiki_page (title content : Chars) (prev_page next_page : Option Chars) : Chars :=
  nav_header title prev_page next_page ++ content ++ nav_footer prev_page next_page

/-- Page body from `main` of `split-pdf-spec.py`:
`content = ''.join(lines[start-1:end-1])` (no explicit clamping; Python
slices clamp to the list length by themselves). -/
def page_content (lines : List Chars) (e : SpecEntry) : Chars :=
  (((lines.drop (e.start_line - 1)).take ((e.end_line - 1) - (e.start_line - 1)))).flatten

/-- Previous page name in `main`: `CHAPTERS[i-1][2] if i > 0 else None`. -/
def prev_of (table : List SpecEntry) (i : Nat) : Option Chars :=
  if 0 < i then (table.get? (i - 1)).map (fun e => e.filename) else none

/-- Next page name in `main`: `CHAPTERS[i+1][2] if i < len(CHAPTERS) - 1 else None`. -/
def next_of (table : List SpecEntry) (i : Nat) : Option Chars :=
  if i < table.length - 1 then (table.get? (i + 1)).map (fun e => e.filename) else none

/-- One iteration of the page loop in `main` of `split-pdf-spec.py`: the file
name and the bytes written for the `i`-th table entry. -/
def page_at (table : List SpecEntry) (lines : List Chars) (i : Nat) : Option (Chars × Chars) :=
  (table.get? i).map (fun e =>
    (e.filename,
      write_wiki_page e.title (page_content lines e) (prev_of table i) (next_of table i)))

/-- The `CHAPTERS` table of `split-pdf-spec.py`. -/
def CHAPTERS : List SpecEntry :=
  [ ⟨1, 196, "PDF-Spec-Front-Matter".toList, "PDF 1.7 Specification - Front Matter".toList⟩,
    ⟨196, 208, "PDF-Spec-01-Scope".toList, "PDF Spec Chapter 1: Scope".toList⟩,
    ⟨208, 228, "PDF-Spec-02-Conformance".toList, "PDF Spec Chapter 2: Conformance".toList⟩,
    ⟨228, 404, "PDF-Spec-03-Normative-References".toList, "PDF Spec Chapter 3: Normative References".toList⟩,
    ⟨404, 700, "PDF-Spec-04-Terms-and-Definitions".toList, "PDF Spec Chapter 4: Terms and Definitions".toList⟩,
    ⟨700, 710, "PDF-Spec-05-Notation".toList, "PDF Spec Chapter 5: Notation".toList⟩,
    ⟨710, 714, "PDF-Spec-06-Version-Designations".toList, "PDF Spec Chapter 6: Version Designations".toList⟩,
    ⟨714, 3316, "PDF-Spec-07-Syntax".toList, "PDF Spec Chapter 7: Syntax".toList⟩,
    ⟨3316, 6309, "PDF-Spec-08-Graphics".toList, "PDF Spec Chapter 8: Graphics".toList⟩,
    ⟨6309, 7917, "PDF-Spec-09-Text".toList, "PDF Spec Chapter 9: Text".toList⟩,
    ⟨7917, 8482, "PDF-Spec-10-Rendering".toList, "PDF Spec Chapter 10: Rendering".toList⟩,
    ⟨8482, 9591, "PDF-Spec-11-Transparency".toList, "PDF Spec Chapter 11: Transparency".toList⟩,
    ⟨9591, 12501, "PDF-Spec-12-Interactive-Features".toList, "PDF Spec Chapter 12: Interactive Features".toList⟩,
    ⟨12501, 13876, "PDF-Spec-13-Multimedia-Features".toList, "PDF Spec Chapter 13: Multimedia Features".toList⟩,
    ⟨13876, 16141, "PDF-Spec-14-Document-Interchange".toList, "PDF Spec Chapter 14: Document Interchange".toList⟩,
    ⟨16141, 18369, "PDF-Spec-Annexes".toList, "PDF Spec Annexes A-L".toList⟩ ]

end SplitPdfSpec

namespace SplitPdf20Spec

/-- Navigation line shared by header and footer of `write_wiki_page`
(`split-pdf20-spec.py`, `split-pdf20-spec-v2.py`, and equally
`split-pdf-spec-v2.py`/`-v3.py` with its `PDF-Spec-Index` target):
wiki-style `[[target|label]]` links. -/
def nav_line (index_page : Chars) (prev_page next_page : Option Chars) : Chars :=
  "> **Navigation**: ".toList
    ++ (match prev_page with
        | some p => "[[".toList ++ p ++ "|← Previous]]".toList
        | none => "← Previous".toList)
    ++ " | [[".toList ++ index_page ++ "|Index]]".toList
    ++ (match next_page with
        | some n => " | [[".toList ++ n ++ "|Next →]]".toList
        | none => " | Next →".toList)

/-- The `nav_header` of the wiki-link splitters, including the
`> **Part of**` line. -/
def nav_header (index_page title parent_page : Chars) (prev_page next_page : Option Chars) : Chars :=
  ((((( "# ".toList ++ title ++ "\n\n".toList)
      ++ ( "> **Part of**: [[".toList ++ parent_page ++ "]]\n\n".toList))
      ++ "> **Navigation**: ".toList)
      ++ (match prev_page with
          | some p => "[[".toList ++ p ++ "|← Previous]]".toList
          | none => "← Previous".toList))
      ++ ( " | [[".toList ++ index_page ++ "|Index]]".toList))
      ++ (match next_page with
          | some n => " | [[".toList ++ n ++ "|Next →]]".toList
          | none => " | Next →".toList)
      ++ "\n\n---\n\n".toList

/-- The `nav_footer` of the wiki-link splitters (independent rebuild). -/
def nav_footer (index_page : Chars) (prev_page next_page : Option Chars) : Chars :=
  ((( "\n\n---\n\n".toList
      ++ "> **Navigation**: ".toList)
      ++ (match prev_page with
          | some p => "[[".toList ++ p ++ "|← Previous]]".toList
          | none => "← Previous".toList))
      ++ ( " | [[".toList ++ index_page ++ "|Index]]".toList))
      ++ (match next_page with
          | some n => " | [[".toList ++ n ++ "|Next →]]".toList
          | none => " | Next →".toList)
      ++ "\n".toList

/-- Bytes written by `write_wiki_page` of the wiki-link splitters. -/
def write_wiki_page (index_page title content parent_page : Chars)
    (prev_page next_page : Option Chars) : Chars :=
  nav_header index_page title parent_page prev_page next_page ++ content
    ++ nav_footer index_page prev_page next_page

/-- Page body from `split_chapters` of `split-pdf20-spec.py` (and the
`split_file` helpers of `-v2`/`-v3`): `actual_end = min(end, total_lines)`
then `''.join(lines[start-1:actual_end-1])`. -/
def page_content (lines : List Chars) (e : SpecEntry) : Chars :=
  let actual_end := min e.end_line lines.length
  (((lines.drop (e.start_line - 1)).take ((actual_end - 1) - (e.start_line - 1)))).flatten

/-- Previous page name: `all_sections[i-1][2] if i > 0 else None`. -/
def prev_of (table : List SpecEntry) (i : Nat) : Option Chars :=
  if 0 < i then (table.get? (i - 1)).map (fun e => e.filename) else none

/-- Next page name: `all_sections[i+1][2] if i < len(all_sections) - 1 else None`. -/
def next_of (table : List SpecEntry) (i : Nat) : Option Chars :=
  if i < table.length - 1 then (table.get? (i + 1)).map (fun e => e.filename) else none

/-- One iteration of the loop in `split_chapters` of `split-pdf20-spec.py`. -/
def page_at (index_page parent_page : Chars) (table : List SpecEntry) (lines : List Chars)
    (i : Nat) : Option (Chars × Chars) :=
  (table.get? i).map (fun e =>
    (e.filename,
      write_wiki_page index_page e.title (page_content lines e) parent_page
        (prev_of table i) (next_of table i)))

end SplitPdf20Spec

/-! ## Decomposition lemmas for the generated navigation -/

theorem splitv1_nav_header_eq (title : Chars) (pp np : Option Chars) :
    SplitPdfSpec.nav_header title pp np =
      ( "# ".toList ++ title ++ "\n\n".toList)
        ++ SplitPdfSpec.nav_line pp np ++ "\n\n---\n\n".toList := by
  cases pp <;> cases np <;>
    simp [SplitPdfSpec.nav_header, SplitPdfSpec.nav_line, List.append_assoc]

theorem splitv1_nav_footer_eq (pp np : Option Chars) :
    SplitPdfSpec.nav_footer pp np =
      "\n\n---\n\n".toList ++ SplitPdfSpec.nav_line pp np ++ "\n".toList := by
  cases pp <;> cases np <;>
    simp [SplitPdfSpec.nav_footer, SplitPdfSpec.nav_line, List.append_assoc]

theorem split20_nav_header_eq (ix title parent : Chars) (pp np : Option Chars) :
    SplitPdf20Spec.nav_header ix title parent pp np =
      ( "# ".toList ++ title ++ "\n\n".toList
          ++ ( "> **Part of**: [[".toList ++ parent ++ "]]\n\n".toList))
        ++ SplitPdf20Spec.nav_line ix pp np ++ "\n\n---\n\n".toList := by
  cases pp <;> cases np <;>
    simp [SplitPdf20Spec.nav_header, SplitPdf20Spec.nav_line, List.append_assoc]

theorem split20_nav_footer_eq (ix : Chars) (pp np : Option Chars) :
    SplitPdf20Spec.nav_footer ix pp np =
      "\n\n---\n\n".toList ++ SplitPdf20Spec.nav_line ix pp np ++ "\n".toList := by
  cases pp <;> cases np <;>
    simp [SplitPdf20Spec.nav_footer, SplitPdf20Spec.nav_line, List.append_assoc]

/-- Trailing navigation chunk of the claimed v1 navigation line. -/
def c4_next_chunk_v1 (np : Option Chars) : Chars :=
  match np with
  | some n => " | [Next →](".toList ++ n ++ ")".toList
  | none => " | Next →".toList

/-- Trailing navigation chunk of the claimed wiki-link navigation line. -/
def c4_next_chunk_v20 (np : Option Chars) : Chars :=
  match np with
  | some n => " | [[".toList ++ n ++ "|Next →]]".toList
  | none => " | Next →".toList

/-- Body of the page that C2 claims: exactly lines `start` through
`min(end, L) - 1` of the source document, 1-indexed. -/
def c2_claimed_body (lines : List Chars) (e : SpecEntry) : Chars :=
  (((lines.drop (e.start_line - 1)).take
      ((min e.end_line lines.length - 1) - (e.start_line - 1)))).flatten

theorem take_glue (l : List Chars) (k1 k2 k3 d : Nat) (hd : d = k1) (hk : k1 + k2 = k3) :
    l.take k1 ++ (l.drop d).take k2 = l.take k3 := by
  rw [hd, ← hk, List.take_add]

/-- C2, counterexample: for the first entry `(1, 196, ...)` of the `CHAPTERS`
table of `split-pdf-spec.py` and a one-line source document, the written page
body is that whole line, while the claimed formula
`lines start .. min(end, L) - 1` gives the empty body. -/
theorem c2_counterexample :
    SplitPdfSpec.CHAPTERS.get? 0 =
      some ⟨1, 196, "PDF-Spec-Front-Matter".toList,
        "PDF 1.7 Specification - Front Matter".toList⟩
    ∧ SplitPdfSpec.page_content [ "only line\n".toList ]
        ⟨1, 196, "PDF-Spec-Front-Matter".toList,
          "PDF 1.7 Specification - Front Matter".toList⟩
      ≠ c2_claimed_body [ "only line\n".toList ]
        ⟨1, 196, "PDF-Spec-Front-Matter".toList,
          "PDF 1.7 Specification - Front Matter".toList⟩ := by
  constructor
  · rfl
  · decide

/-- C2 (amended): the body written for a table entry `(start, end, _, _)` over
a document of `L` lines is lines `start .. min(end - 1, L)` for
`split-pdf-spec.py` (which relies on Python slice clamping) and lines
`start .. min(end, L) - 1` for `split-pdf20-spec.py` (which clamps with
`actual_end = min(end, total_lines)`); the two agree whenever `end ≤ L`, and
in both scripts consecutive entries sharing a boundary line number produce
non-overlapping, contiguous pages. -/
theorem c2_page_bodies :
    (∀ (lines : List Chars) (e : SpecEntry), 1 ≤ e.start_line →
      SplitPdfSpec.page_content lines e =
        ((lines.drop (e.start_line - 1)).take
          (min (e.end_line - 1) lines.length - (e.start_line - 1))).flatten)
    ∧ (∀ (lines : List Chars) (e : SpecEntry),
        SplitPdf20Spec.page_content lines e = c2_claimed_body lines e)
    ∧ (∀ (lines : List Chars) (s m e : Nat) (f1 t1 f2 t2 f3 t3 : Chars),
        1 ≤ s → s ≤ m → m ≤ e →
        SplitPdfSpec.page_content lines ⟨s, m, f1, t1⟩
            ++ SplitPdfSpec.page_content lines ⟨m, e, f2, t2⟩
          = SplitPdfSpec.page_content lines ⟨s, e, f3, t3⟩)
    ∧ (∀ (lines : List Chars) (s m e : Nat) (f1 t1 f2 t2 f3 t3 : Chars),
        1 ≤ s → s ≤ m → m ≤ e →
        SplitPdf20Spec.page_content lines ⟨s, m, f1, t1⟩
            ++ SplitPdf20Spec.page_content lines ⟨m, e, f2, t2⟩
          = SplitPdf20Spec.page_content lines ⟨s, e, f3, t3⟩) := by
  refine ⟨?_, ?_, ?_, ?_⟩
  · intro lines e hs
    unfold SplitPdfSpec.page_content
    congr 1
    rw [List.take_eq_take]
    simp only [List.length_drop]
    omega
  · intro lines e
    rfl
  · intro lines s m e f1 t1 f2 t2 f3 t3 h1 h2 h3
    unfold SplitPdfSpec.page_content
    dsimp only
    rw [← List.flatten_append]
    congr 1
    have hdrop : lines.drop (m - 1) = (lines.drop (s - 1)).drop ((m - 1) - (s - 1)) := by
      rw [List.drop_drop]
      congr 1
      omega
    rw [hdrop]
    exact take_glue _ _ _ _ _ (by omega) (by omega)
  · intro lines s m e f1 t1 f2 t2 f3 t3 h1 h2 h3
    unfold SplitPdf20Spec.page_content
    dsimp only
    rw [← List.flatten_append]
    congr 1
    have hdrop : lines.drop (m - 1) = (lines.drop (s - 1)).drop ((m - 1) - (s - 1)) := by
      rw [List.drop_drop]
      congr 1
      omega
    rw [hdrop]
    rcases le_or_lt m lines.length with hm | hm
    · exact take_glue _ _ _ _ _ (by omega) (by omega)
    · have hk2 : (min e lines.length - 1) - (m - 1) = 0 := by omega
      have hk13 : (min m lines.length - 1) - (s - 1) = (min e lines.length - 1) - (s - 1) := by
        omega
      rw [hk2, hk13]
      simp

/-- C2 witness: the amended body formulas and the contiguity property applied
to a concrete two-line document and concrete table entries. -/
theorem c2_page_bodies_witness :
    SplitPdfSpec.page_content [ "a\n".toList, "b\n".toList ] ⟨1, 196, [], []⟩ =
      ((([ "a\n".toList, "b\n".toList ].drop (1 - 1)).take
        (min (196 - 1) ([ "a\n".toList, "b\n".toList ] : List Chars).length - (1 - 1)))).flatten
    ∧ SplitPdfSpec.page_content [ "a\n".toList, "b\n".toList ] ⟨1, 2, [], []⟩
        ++ SplitPdfSpec.page_content [ "a\n".toList, "b\n".toList ] ⟨2, 3, [], []⟩
      = SplitPdfSpec.page_content [ "a\n".toList, "b\n".toList ] ⟨1, 3, [], []⟩
    ∧ SplitPdf20Spec.page_content [ "a\n".toList, "b\n".toList ] ⟨1, 2, [], []⟩
        ++ SplitPdf20Spec.page_content [ "a\n".toList, "b\n".toList ] ⟨2, 3, [], []⟩
      = SplitPdf20Spec.page_content [ "a\n".toList, "b\n".toList ] ⟨1, 3, [], []⟩ :=
  ⟨c2_page_bodies.1 _ _ (by decide),
   c2_page_bodies.2.2.1 _ 1 2 3 [] [] [] [] [] [] (by decide) (by decide) (by decide),
   c2_page_bodies.2.2.2 _ 1 2 3 [] [] [] [] [] [] (by decide) (by decide) (by decide)⟩

/-- C4: every generated page is header, body, footer where the header and the
footer carry the same navigation line; the navigation line holds a Previous
link naming the preceding table entry's filename (plain text on the first
page), an Index link on every page, and a Next link naming the following
entry's filename (plain text on the last page). -/
theorem c4_navigation_links :
    (∀ (table : List SpecEntry) (lines : List Chars) (i : Nat) (e : SpecEntry),
        table.get? i = some e →
        SplitPdfSpec.page_at table lines i = some (e.filename,
          ( "# ".toList ++ e.title ++ "\n\n".toList)
            ++ SplitPdfSpec.nav_line (SplitPdfSpec.prev_of table i) (SplitPdfSpec.next_of table i)
            ++ "\n\n---\n\n".toList
            ++ SplitPdfSpec.page_content lines e
            ++ "\n\n---\n\n".toList
            ++ SplitPdfSpec.nav_line (SplitPdfSpec.prev_of table i) (SplitPdfSpec.next_of table i)
            ++ "\n".toList))
    ∧ (∀ (ix parent : Chars) (table : List SpecEntry) (lines : List Chars) (i : Nat)
          (e : SpecEntry),
        table.get? i = some e →
        SplitPdf20Spec.page_at ix parent table lines i = some (e.filename,
          ( "# ".toList ++ e.title ++ "\n\n".toList
              ++ ( "> **Part of**: [[".toList ++ parent ++ "]]\n\n".toList))
            ++ SplitPdf20Spec.nav_line ix (SplitPdf20Spec.prev_of table i)
                (SplitPdf20Spec.next_of table i)
            ++ "\n\n---\n\n".toList
            ++ SplitPdf20Spec.page_content lines e
            ++ "\n\n---\n\n".toList
            ++ SplitPdf20Spec.nav_line ix (SplitPdf20Spec.prev_of table i)
                (SplitPdf20Spec.next_of table i)
            ++ "\n".toList))
    ∧ (∀ (p : Chars) (np : Option Chars),
        SplitPdfSpec.nav_line (some p) np =
          "> **Navigation**: ".toList ++ "[← Previous](".toList ++ p ++ ")".toList
            ++ " | [Index](PDF-Spec-Index)".toList ++ c4_next_chunk_v1 np)
    ∧ (∀ np, SplitPdfSpec.nav_line none np =
          "> **Navigation**: ".toList ++ "← Previous".toList
            ++ " | [Index](PDF-Spec-Index)".toList ++ c4_next_chunk_v1 np)
    ∧ (∀ (ix p : Chars) (np : Option Chars),
        SplitPdf20Spec.nav_line ix (some p) np =
          "> **Navigation**: ".toList ++ "[[".toList ++ p ++ "|← Previous]]".toList
            ++ " | [[".toList ++ ix ++ "|Index]]".toList ++ c4_next_chunk_v20 np)
    ∧ (∀ (ix : Chars) (np : Option Chars), SplitPdf20Spec.nav_line ix none np =
          "> **Navigation**: ".toList ++ "← Previous".toList
            ++ " | [[".toList ++ ix ++ "|Index]]".toList ++ c4_next_chunk_v20 np)
    ∧ (∀ (table : List SpecEntry) (i : Nat), 0 < i →
        SplitPdfSpec.prev_of table i = (table.get? (i - 1)).map (fun e => e.filename)
          ∧ SplitPdf20Spec.prev_of table i = (table.get? (i - 1)).map (fun e => e.filename))
    ∧ (∀ (table : List SpecEntry),
        SplitPdfSpec.prev_of table 0 = none ∧ SplitPdf20Spec.prev_of table 0 = none)
    ∧ (∀ (table : List SpecEntry) (i : Nat), i + 1 = table.length →
        SplitPdfSpec.next_of table i = none ∧ SplitPdf20Spec.next_of table i = none)
    ∧ (∀ (table : List SpecEntry) (i : Nat), i + 1 < table.length →
        SplitPdfSpec.next_of table i = (table.get? (i + 1)).map (fun e => e.filename)
          ∧ SplitPdf20Spec.next_of table i = (table.get? (i + 1)).map (fun e => e.filename)) := by
  refine ⟨?_, ?_, ?_, ?_, ?_, ?_, ?_, ?_, ?_, ?_⟩
  · intro table lines i e h
    simp only [SplitPdfSpec.page_at, h, SplitPdfSpec.write_wiki_page,
      splitv1_nav_header_eq, splitv1_nav_footer_eq, List.append_assoc]
    rfl
  · intro ix parent table lines i e h
    simp only [SplitPdf20Spec.page_at, h, SplitPdf20Spec.write_wiki_page,
      split20_nav_header_eq, split20_nav_footer_eq, List.append_assoc]
    rfl
  · intro p np
    cases np <;> simp [SplitPdfSpec.nav_line, c4_next_chunk_v1, List.append_assoc]
  · intro np
    cases np <;> simp [SplitPdfSpec.nav_line, c4_next_chunk_v1, List.append_assoc]
  · intro ix p np
    cases np <;> simp [SplitPdf20Spec.nav_line, c4_next_chunk_v20, List.append_assoc]
  · intro ix np
    cases np <;> simp [SplitPdf20Spec.nav_line, c4_next_chunk_v20, List.append_assoc]
  · intro table i h
    constructor <;> simp [SplitPdfSpec.prev_of, SplitPdf20Spec.prev_of, h]
  · intro table
    constructor <;> simp [SplitPdfSpec.prev_of, SplitPdf20Spec.prev_of]
  · intro table i h
    constructor <;> simp [SplitPdfSpec.next_of, SplitPdf20Spec.next_of] <;> omega
  · intro table i h
    have hlt : i < table.length - 1 := by omega
    constructor <;> simp [SplitPdfSpec.next_of, SplitPdf20Spec.next_of, hlt]

/-- C4 witness: the page equation applied to the concrete `CHAPTERS` table of
`split-pdf-spec.py` at index 1, and the boundary facts at concrete indices. -/
theorem c4_navigation_links_witness :
    SplitPdfSpec.page_at SplitPdfSpec.CHAPTERS [] 1 =
      some ( "PDF-Spec-01-Scope".toList,
        ( "# ".toList ++ "PDF Spec Chapter 1: Scope".toList ++ "\n\n".toList)
          ++ SplitPdfSpec.nav_line (SplitPdfSpec.prev_of SplitPdfSpec.CHAPTERS 1)
              (SplitPdfSpec.next_of SplitPdfSpec.CHAPTERS 1)
          ++ "\n\n---\n\n".toList
          ++ SplitPdfSpec.page_content []
              ⟨196, 208, "PDF-Spec-01-Scope".toList, "PDF Spec Chapter 1: Scope".toList⟩
          ++ "\n\n---\n\n".toList
          ++ SplitPdfSpec.nav_line (SplitPdfSpec.prev_of SplitPdfSpec.CHAPTERS 1)
              (SplitPdfSpec.next_of SplitPdfSpec.CHAPTERS 1)
          ++ "\n".toList)
    ∧ SplitPdfSpec.prev_of SplitPdfSpec.CHAPTERS 0 = none :=
  ⟨c4_navigation_links.1 SplitPdfSpec.CHAPTERS [] 1
      ⟨196, 208, "PDF-Spec-01-Scope".toList, "PDF Spec Chapter 1: Scope".toList⟩ rfl,
   (c4_navigation_links.2.2.2.2.2.2.2.1 SplitPdfSpec.CHAPTERS).1⟩

/-! ## fix_redactarea_calls.py: build outcome and backup cleanup -/

namespace FixRedactareaCalls

/-- Outcome of the `subprocess.run(['dotnet', 'build'], ...)` call in `main`:
a completed process with its return code, `subprocess.TimeoutExpired`, or any
other exception. -/
inductive BuildOutcome where
  | completed (returncode : Int)
  | timedOut
  | raisedError
deriving DecidableEq

/-- The backup-cleanup step at the end of `main` in `fix_redactarea_calls.py`:
on `returncode == 0` every `*.cs.bak` under the test directory is unlinked;
the `else` branch and both `except` handlers leave all backups in place. -/
def backups_after_build (o : BuildOutcome) (backups : List Chars) : List Chars :=
  match o with
  | .completed rc =>
      if rc = 0 then backups.filter (fun b => !(( ".cs.bak".toList).isSuffixOf b))
      else backups
  | .timedOut => backups
  | .raisedError => backups

end FixRedactareaCalls

/-- C6: after the `dotnet build` step of `fix_redactarea_calls.py`, the
`.cs.bak` backups are deleted exactly when the build completes with return
code 0; on a non-zero exit, a timeout, or any other exception every backup is
preserved. -/
theorem c6_backup_cleanup :
    ∀ (o : FixRedactareaCalls.BuildOutcome) (backups : List Chars),
      (∀ b ∈ backups, (( ".cs.bak".toList).isSuffixOf b) = true) →
      ((o = .completed 0 → FixRedactareaCalls.backups_after_build o backups = [])
        ∧ (o ≠ .completed 0 → FixRedactareaCalls.backups_after_build o backups = backups)) := by
  intro o backups hb
  constructor
  · intro h
    subst h
    have hred : FixRedactareaCalls.backups_after_build (.completed 0) backups
        = backups.filter (fun b => !(( ".cs.bak".toList).isSuffixOf b)) := by
      simp [FixRedactareaCalls.backups_after_build]
    rw [hred, List.filter_eq_nil_iff]
    intro b hbmem
    simpa using hb b hbmem
  · intro h
    cases o with
    | completed rc =>
        have : rc ≠ 0 := by
          intro hrc
          exact h (by rw [hrc])
        simp [FixRedactareaCalls.backups_after_build, this]
    | timedOut => rfl
    | raisedError => rfl

/-- C6 witness: cleanup and preservation at a concrete backup list. -/
theorem c6_backup_cleanup_witness :
    FixRedactareaCalls.backups_after_build (.completed 0) [ "A.cs.bak".toList ] = []
    ∧ FixRedactareaCalls.backups_after_build .timedOut [ "A.cs.bak".toList ]
        = [ "A.cs.bak".toList ] :=
  ⟨(c6_backup_cleanup (.completed 0) [ "A.cs.bak".toList ] (by decide)).1 rfl,
   (c6_backup_cleanup .timedOut [ "A.cs.bak".toList ] (by decide)).2 (by decide)⟩

/-! ## Deterministic scanners for the scripts' regular expressions

Each hand-written pattern in the Python sources is anchored by a literal and
continues with character-class runs, so Python's backtracking collapses to a
deterministic parse; the combinators below reproduce it.  `searchFirst` is
`re.search`, `searchGreedy` handles a leading greedy `(.*)` group,
`scanSub`/`scanCount`/`scanCaptures` are `re.sub`/`re.findall`/`re.finditer`
over non-overlapping leftmost matches. -/

/-- Matching of a literal at the current position (rest after it on success). -/
def parseLit (lit s : Chars) : Option Chars :=
  if lit.isPrefixOf s then some (s.drop lit.length) else none

/-- Matching of `\s*` followed by a literal whose first character is not
whitespace: the greedy `\s*` eats the whole whitespace run and no backtracking
can recover, so this is `dropWhile` then a literal test. -/
def parseWsLit (lit s : Chars) : Option Chars :=
  let r := s.dropWhile (fun c => isWsChar c)
  if lit.isPrefixOf r then some (r.drop lit.length) else none

/-- Matching of `\s+` followed by a literal with a non-whitespace head:
at least one whitespace character, then as `parseWsLit`. -/
def parseWs1Lit (lit s : Chars) : Option Chars :=
  match s with
  | c :: t => if isWsChar c then parseWsLit lit t else none
  | [] => none

/-- Matching of `\s*(\d+)` followed by a non-digit: greedy whitespace run,
then the group is the nonempty maximal digit run. -/
def parseWsDigits (s : Chars) : Option (Chars × Chars) :=
  let r := s.dropWhile (fun c => isWsChar c)
  let d := r.takeWhile (fun c => isDigitChar c)
  if d.isEmpty then none else some (d, r.drop d.length)

/-- Matching of a nonempty greedy class run `([^X..]+)`: the group extends
exactly to the first stop character (stop characters are the characters the
class excludes). -/
def parseRunTo (isStop : Char → Bool) (s : Chars) : Option (Chars × Chars) :=
  let a := s.takeWhile (fun c => !(isStop c))
  if a.isEmpty then none else some (a, s.drop a.length)

/-- Matching of `\s*([^X..]+)` right before a pattern that starts with a stop
character: Python's greedy `\s*` takes the whole whitespace run `w`; when the
class run after `w` would be empty (a stop character follows at once), `\s*`
backtracks by one character and the group becomes that last whitespace
character.  The stop characters of the embedded patterns are never
whitespace, so no further backtracking is possible. -/
def parseWsRunTo (isStop : Char → Bool) (s : Chars) : Option (Chars × Chars) :=
  let w := s.takeWhile (fun c => isWsChar c)
  let r := s.dropWhile (fun c => isWsChar c)
  let a := r.takeWhile (fun c => !(isStop c))
  if a.isEmpty then
    match w.getLast? with
    | some c => if r.isEmpty then none else some ([c], r)
    | none => none
  else some (a, r.drop a.length)

/-- Matching of `([a-zA-Z_][a-zA-Z0-9_]*)`. -/
def parseIdent (s : Chars) : Option (Chars × Chars) :=
  match s with
  | c :: t =>
      if isIdentHead c then
        let r := t.takeWhile (fun c => isIdentChar c)
        some (c :: r, t.drop r.length)
      else none
  | [] => none

/-- Python `re.search`: try the anchored tail at each offset, leftmost first. -/
def searchFirst {α : Type} (t : Chars → Option α) : Chars → Option α
  | [] => t []
  | c :: s =>
      match t (c :: s) with
      | some a => some a
      | none => searchFirst t s

/-- A greedy `(.*)` group before an anchored pattern: the rightmost offset
whose tail matches wins, and the characters before it are the group. -/
def searchGreedy {α : Type} (t : Chars → Option α) : Chars → Option (Chars × α)
  | [] => (t []).map (fun a => (([] : Chars), a))
  | c :: s =>
      match searchGreedy t s with
      | some (f, a) => some (c :: f, a)
      | none => (t (c :: s)).map (fun a => (([] : Chars), a))

/-- Python `re.sub`: scan left to right; on a match emit the replacement and
continue after the matched span, else copy one character.  Matchers used here
always consume at least their literal anchor; the length guard only makes the
recursion structural. -/
def scanSub (m : Chars → Option (Chars × Chars)) : Chars → Chars
  | [] => []
  | c :: s =>
      match m (c :: s) with
      | some (r, rest) =>
          if _h : rest.length < s.length + 1 then r ++ scanSub m rest
          else r ++ rest
      | none => c :: scanSub m s
termination_by s => s.length
decreasing_by
  all_goals simp only [List.length_cons]
  all_goals omega

/-- Python `len(re.findall(..))`: number of non-overlapping matches. -/
def scanCount (m : Chars → Option (Chars × Chars)) : Chars → Nat
  | [] => 0
  | c :: s =>
      match m (c :: s) with
      | some (_, rest) =>
          if _h : rest.length < s.length + 1 then 1 + scanCount m rest
          else 1
      | none => scanCount m s
termination_by s => s.length
decreasing_by
  all_goals simp only [List.length_cons]
  all_goals omega

/-- Python `re.finditer` limited to its captures, in match order. -/
def scanCaptures (m : Chars → Option (Chars × Chars)) : Chars → List Chars
  | [] => []
  | c :: s =>
      match m (c :: s) with
      | some (g, rest) =>
          if _h : rest.length < s.length + 1 then g :: scanCaptures m rest
          else [g]
      | none => scanCaptures m s
termination_by s => s.length
decreasing_by
  all_goals simp only [List.length_cons]
  all_goals omega

theorem searchFirst_nil {α : Type} (t : Chars → Option α) : searchFirst t [] = t [] := by
  simp [searchFirst]

theorem searchFirst_cons_none {α : Type} {t : Chars → Option α} {c : Char} {s : Chars}
    (h : t (c :: s) = none) : searchFirst t (c :: s) = searchFirst t s := by
  simp [searchFirst, h]

theorem searchFirst_cons_some {α : Type} {t : Chars → Option α} {c : Char} {s : Chars} {a : α}
    (h : t (c :: s) = some a) : searchFirst t (c :: s) = some a := by
  simp [searchFirst, h]

theorem searchGreedy_nil {α : Type} (t : Chars → Option α) :
    searchGreedy t [] = (t []).map (fun a => (([] : Chars), a)) := by
  simp [searchGreedy]

theorem searchGreedy_cons_some {α : Type} {t : Chars → Option α} {c : Char} {s f : Chars} {a : α}
    (h : searchGreedy t s = some (f, a)) : searchGreedy t (c :: s) = some (c :: f, a) := by
  simp [searchGreedy, h]

theorem searchGreedy_cons_none {α : Type} {t : Chars → Option α} {c : Char} {s : Chars}
    (h : searchGreedy t s = none) :
    searchGreedy t (c :: s) = (t (c :: s)).map (fun a => (([] : Chars), a)) := by
  simp [searchGreedy, h]

theorem scanSub_nil (m : Chars → Option (Chars × Chars)) : scanSub m [] = [] := by
  simp [scanSub]

theorem scanSub_cons_none {m : Chars → Option (Chars × Chars)} {c : Char} {s : Chars}
    (h : m (c :: s) = none) : scanSub m (c :: s) = c :: scanSub m s := by
  rw [scanSub, h]

theorem scanSub_cons_some {m : Chars → Option (Chars × Chars)} {c : Char} {s r rest : Chars}
    (h : m (c :: s) = some (r, rest)) (hl : rest.length < s.length + 1) :
    scanSub m (c :: s) = r ++ scanSub m rest := by
  rw [scanSub, h]
  simp [hl]

theorem scanCount_nil (m : Chars → Option (Chars × Chars)) : scanCount m [] = 0 := by
  simp [scanCount]

theorem scanCount_cons_none {m : Chars → Option (Chars × Chars)} {c : Char} {s : Chars}
    (h : m (c :: s) = none) : scanCount m (c :: s) = scanCount m s := by
  rw [scanCount, h]

theorem scanCount_cons_some {m : Chars → Option (Chars × Chars)} {c : Char} {s r rest : Chars}
    (h : m (c :: s) = some (r, rest)) (hl : rest.length < s.length + 1) :
    scanCount m (c :: s) = 1 + scanCount m rest := by
  rw [scanCount, h]
  simp [hl]

theorem scanCaptures_nil (m : Chars → Option (Chars × Chars)) : scanCaptures m [] = [] := by
  simp [scanCaptures]

theorem scanCaptures_cons_none {m : Chars → Option (Chars × Chars)} {c : Char} {s : Chars}
    (h : m (c :: s) = none) : scanCaptures m (c :: s) = scanCaptures m s := by
  rw [scanCaptures, h]

theorem scanCaptures_cons_some {m : Chars → Option (Chars × Chars)} {c : Char} {s g rest : Chars}
    (h : m (c :: s) = some (g, rest)) (hl : rest.length < s.length + 1) :
    scanCaptures m (c :: s) = g :: scanCaptures m rest := by
  rw [scanCaptures, h]
  simp [hl]

theorem searchFirst_skip {α : Type} (t : Chars → Option α) (x y : Chars)
    (h : ∀ i, i < x.length → t (x.drop i ++ y) = none) :
    searchFirst t (x ++ y) = searchFirst t y := by
  induction x with
  | nil => rfl
  | cons c x' ih =>
      have h0 : t (c :: (x' ++ y)) = none := by
        have := h 0 (by simp)
        simpa using this
      rw [List.cons_append, searchFirst_cons_none h0]
      exact ih (fun i hi => by
        have := h (i + 1) (by simp; omega)
        simpa using this)

theorem searchFirst_none {α : Type} (t : Chars → Option α) (s : Chars)
    (h : ∀ i, i < s.length → t (s.drop i) = none) (hnil : t [] = none) :
    searchFirst t s = none := by
  induction s with
  | nil => rw [searchFirst_nil, hnil]
  | cons c s' ih =>
      have h0 : t (c :: s') = none := by
        have := h 0 (by simp)
        simpa using this
      rw [searchFirst_cons_none h0]
      exact ih (fun i hi => by
        have := h (i + 1) (by simp; omega)
        simpa using this)

theorem searchGreedy_none {α : Type} (t : Chars → Option α) (s : Chars)
    (h : ∀ i, i < s.length → t (s.drop i) = none) (hnil : t [] = none) :
    searchGreedy t s = none := by
  induction s with
  | nil => rw [searchGreedy_nil, hnil]; rfl
  | cons c s' ih =>
      have h0 : t (c :: s') = none := by
        have := h 0 (by simp)
        simpa using this
      have hrec : searchGreedy t s' = none :=
        ih (fun i hi => by
          have := h (i + 1) (by simp; omega)
          simpa using this)
      rw [searchGreedy_cons_none hrec, h0]
      rfl

theorem searchGreedy_here {α : Type} (t : Chars → Option α) (s : Chars) (a : α)
    (hs : t s = some a)
    (h : ∀ i, 0 < i → i < s.length → t (s.drop i) = none) (hnil : t [] = none) :
    searchGreedy t s = some ([], a) := by
  cases s with
  | nil => rw [searchGreedy_nil, hs]; rfl
  | cons c s' =>
      have hrec : searchGreedy t s' = none := by
        apply searchGreedy_none
        · intro i hi
          have := h (i + 1) (by omega) (by simp; omega)
          simpa using this
        · exact hnil
      rw [searchGreedy_cons_none hrec, hs]
      rfl

theorem searchGreedy_last {α : Type} (t : Chars → Option α) (x s : Chars) (a : α)
    (hs : t s = some a)
    (h : ∀ i, 0 < i → i < s.length → t (s.drop i) = none) (hnil : t [] = none) :
    searchGreedy t (x ++ s) = some (x, a) := by
  induction x with
  | nil => simpa using searchGreedy_here t s a hs h hnil
  | cons c x' ih =>
      rw [List.cons_append, searchGreedy_cons_some ih]

theorem scanSub_skip (m : Chars → Option (Chars × Chars)) (x y : Chars)
    (h : ∀ i, i < x.length → m (x.drop i ++ y) = none) :
    scanSub m (x ++ y) = x ++ scanSub m y := by
  induction x with
  | nil => rfl
  | cons c x' ih =>
      have h0 : m (c :: (x' ++ y)) = none := by
        have := h 0 (by simp)
        simpa using this
      rw [List.cons_append, scanSub_cons_none h0]
      rw [ih (fun i hi => by
        have := h (i + 1) (by simp; omega)
        simpa using this)]
      rfl

theorem scanSub_id (m : Chars → Option (Chars × Chars)) (s : Chars)
    (h : ∀ i, i < s.length → m (s.drop i) = none) :
    scanSub m s = s := by
  induction s with
  | nil => exact scanSub_nil m
  | cons c s' ih =>
      have h0 : m (c :: s') = none := by
        have := h 0 (by simp)
        simpa using this
      rw [scanSub_cons_none h0]
      rw [ih (fun i hi => by
        have := h (i + 1) (by simp; omega)
        simpa using this)]

theorem scanCount_skip (m : Chars → Option (Chars × Chars)) (x y : Chars)
    (h : ∀ i, i < x.length → m (x.drop i ++ y) = none) :
    scanCount m (x ++ y) = scanCount m y := by
  induction x with
  | nil => rfl
  | cons c x' ih =>
      have h0 : m (c :: (x' ++ y)) = none := by
        have := h 0 (by simp)
        simpa using this
      rw [List.cons_append, scanCount_cons_none h0]
      exact ih (fun i hi => by
        have := h (i + 1) (by simp; omega)
        simpa using this)

theorem scanCount_zero (m : Chars → Option (Chars × Chars)) (s : Chars)
    (h : ∀ i, i < s.length → m (s.drop i) = none) :
    scanCount m s = 0 := by
  induction s with
  | nil => exact scanCount_nil m
  | cons c s' ih =>
      have h0 : m (c :: s') = none := by
        have := h 0 (by simp)
        simpa using this
      rw [scanCount_cons_none h0]
      exact ih (fun i hi => by
        have := h (i + 1) (by simp; omega)
        simpa using this)

/-! ## Substring and prefix facts -/

theorem isPrefixOf_iff_take (pat s : Chars) :
    pat.isPrefixOf s = true ↔ s.take pat.length = pat := by
  induction pat generalizing s with
  | nil => simp
  | cons p ps ih =>
      cases s with
      | nil => simp
      | cons a t =>
          rw [List.isPrefixOf_cons₂]
          simp only [List.length_cons, List.take_succ_cons, List.cons.injEq]
          rw [Bool.and_eq_true, beq_iff_eq]
          constructor
          · rintro ⟨h1, h2⟩
            exact ⟨h1.symm, (ih t).mp h2⟩
          · rintro ⟨h1, h2⟩
            exact ⟨h1.symm, (ih t).mpr h2⟩

theorem isPrefixOf_self_append (pat y : Chars) : pat.isPrefixOf (pat ++ y) = true :=
  (isPrefixOf_iff_take pat (pat ++ y)).mpr (List.take_left pat y)

theorem isPrefixOf_append_left (pat x y : Chars) (h : pat.length ≤ x.length) :
    pat.isPrefixOf (x ++ y) = pat.isPrefixOf x := by
  rw [Bool.eq_iff_iff, isPrefixOf_iff_take, isPrefixOf_iff_take,
    List.take_append_of_le_length h]

theorem containsSub_iff (s pat : Chars) :
    containsSub s pat = true ↔ ∃ i, pat.isPrefixOf (s.drop i) = true := by
  induction s with
  | nil =>
      constructor
      · intro h
        refine ⟨0, ?_⟩
        have : pat = [] := by
          cases pat with
          | nil => rfl
          | cons p ps => simp [containsSub] at h
        simp [this]
      · rintro ⟨i, hi⟩
        simp only [List.drop_nil] at hi
        have : pat = [] := by
          cases pat with
          | nil => rfl
          | cons p ps => simp at hi
        simp [this, containsSub]
  | cons c t ih =>
      simp only [containsSub, Bool.or_eq_true]
      constructor
      · rintro (h | h)
        · exact ⟨0, by simpa using h⟩
        · obtain ⟨i, hi⟩ := ih.mp h
          exact ⟨i + 1, by simpa using hi⟩
      · rintro ⟨i, hi⟩
        cases i with
        | zero => exact Or.inl (by simpa using hi)
        | succ j => exact Or.inr (ih.mpr ⟨j, by simpa using hi⟩)

theorem not_containsSub_iff (s pat : Chars) :
    containsSub s pat = false ↔ ∀ i, pat.isPrefixOf (s.drop i) = false := by
  rw [Bool.eq_false_iff, Ne, containsSub_iff]
  push_neg
  constructor
  · intro h i
    exact Bool.eq_false_iff.mpr (h i)
  · intro h i
    exact Bool.eq_false_iff.mp (h i)

theorem containsSub_occ (x pat y : Chars) : containsSub (x ++ (pat ++ y)) pat = true := by
  rw [containsSub_iff]
  refine ⟨x.length, ?_⟩
  rw [List.drop_left]
  exact isPrefixOf_self_append pat y

/-! ## Shared pattern pieces of the redaction patchers -/

/-- The literal anchor `\.RedactArea\(` every call-site pattern starts with. -/
def anchorRA : Chars := ".RedactArea(".toList

/-- Tail of `(?:var|string)\s+(NAME)\s*=` for a fixed variable name, used by
`find_path_variable` in `fix_redactarea_calls.py` and
`fix_redactarea_phase2.py`: keyword alternation (`var` first), at least one
whitespace character, the literal name, optional whitespace, `=`. -/
def varDeclTail (name : Chars) (s : Chars) : Option Unit := do
  let r1 ←
    match parseLit ( "var".toList) s with
    | some r => some r
    | none => parseLit ( "string".toList) s
  let r2 ← parseWs1Lit name r1
  let _ ← parseWsLit ( "=".toList) r2
  pure ()

/-- Offset just after the last occurrence of `pat` in `s`, if any (the end of
a greedy `.*pat`). -/
def lastOccEnd (s pat : Chars) : Option Nat :=
  match s with
  | [] => none
  | c :: t =>
      match lastOccEnd t pat with
      | some n => some (n + 1)
      | none => if pat.isPrefixOf (c :: t) then some pat.length else none

/-- Tail of `(?:var|string)\s+(NAME)\s*=.*NEEDLE`: as `varDeclTail` followed
by `.*NEEDLE`, whose dot cannot cross a newline, so the needle must occur in
the rest of the line holding the `=`. -/
def varDeclNeedleTail (name needle : Chars) (s : Chars) : Option Unit := do
  let r1 ←
    match parseLit ( "var".toList) s with
    | some r => some r
    | none => parseLit ( "string".toList) s
  let r2 ← parseWs1Lit name r1
  let r3 ← parseWsLit ( "=".toList) r2
  if containsSub (r3.takeWhile (fun c => c ≠ '\n')) needle then pure () else none

/-- Tail of `PdfReader\.Open\(\s*([a-zA-Z_][a-zA-Z0-9_]*)\s*,`, shared by all
five redaction patchers.  Returns the captured identifier and the rest after
the comma (the match end, for `finditer`). -/
def pdfReaderOpenIdent (s : Chars) : Option (Chars × Chars) := do
  let r1 ← parseLit ( "PdfReader.Open(".toList) s
  let (v, r2) ← parseIdent (r1.dropWhile (fun c => isWsChar c))
  let r3 ← parseWsLit ( ",".toList) r2
  pure (v, r3)

/-! ## fix_redactarea_calls.py -/

namespace FixRedactareaCalls

/-- Tail of the fallback pattern
`(?:var|string)\s+([a-zA-Z_]*[Pp]ath[a-zA-Z_]*)\s*=`: after the keyword and
whitespace the group is forced to be the whole maximal `[a-zA-Z_]` run, the
run must contain `Path` or `path`, and `\s*=` must follow it. -/
def varDeclPathTail (s : Chars) : Option Chars := do
  let r1 ←
    match parseLit ( "var".toList) s with
    | some r => some r
    | none => parseLit ( "string".toList) s
  match r1 with
  | [] => none
  | c :: t =>
      if isWsChar c then
        let r2 := t.dropWhile (fun c => isWsChar c)
        let run := r2.takeWhile (fun c => isIdentHead c)
        if run.isEmpty then none
        else if containsSub run ( "Path".toList) || containsSub run ( "path".toList) then
          match parseWsLit ( "=".toList) (r2.drop run.length) with
          | some _ => some run
          | none => none
        else none
      else none

/-- `find_path_variable` of `fix_redactarea_calls.py`: the six preference
patterns in order, then the `[Pp]ath` fallback regex, then `"pdfPath"`. -/
def find_path_variable (content : Chars) : Chars :=
  match searchFirst (varDeclTail ( "pdfPath".toList)) content with
  | some _ => "pdfPath".toList
  | none =>
  match searchFirst (varDeclTail ( "inputPath".toList)) content with
  | some _ => "inputPath".toList
  | none =>
  match searchFirst (varDeclTail ( "filePath".toList)) content with
  | some _ => "filePath".toList
  | none =>
  match searchFirst (varDeclTail ( "testPath".toList)) content with
  | some _ => "testPath".toList
  | none =>
  match searchFirst (varDeclNeedleTail ( "path".toList) ( ".pdf".toList)) content with
  | some _ => "path".toList
  | none =>
  match searchFirst pdfReaderOpenIdent content with
  | some (v, _) => v
  | none =>
  match searchFirst varDeclPathTail content with
  | some v => v
  | none => "pdfPath".toList

/-- Pattern 1 of `fix_redactarea_calls`:
`\.RedactArea\(\s*([^,]+),\s*([^,]+),\s*renderDpi:\s*(\d+)\s*\)` with
replacement `.RedactArea(\1, \2, {path_var}, renderDpi: \3)`. -/
def callsP1 (pv : Chars) (s : Chars) : Option (Chars × Chars) := do
  let r1 ← parseLit anchorRA s
  let (a1, r2) ← parseWsRunTo (fun c => c = ',') r1
  let r3 ← parseLit ( ",".toList) r2
  let (a2, r4) ← parseWsRunTo (fun c => c = ',') r3
  let r5 ← parseLit ( ",".toList) r4
  let r6 ← parseWsLit ( "renderDpi:".toList) r5
  let (d, r7) ← parseWsDigits r6
  let r8 ← parseWsLit ( ")".toList) r7
  pure ( ".RedactArea(".toList ++ a1 ++ ", ".toList ++ a2 ++ ", ".toList ++ pv
      ++ ", renderDpi: ".toList ++ d ++ ")".toList, r8)

/-- Pattern 2 of `fix_redactarea_calls`:
`\.RedactArea\(\s*([^,]+),\s*([^,]+),\s*(\d+)\s*\)` with replacement
`.RedactArea(\1, \2, {path_var}, \3)`. -/
def callsP2 (pv : Chars) (s : Chars) : Option (Chars × Chars) := do
  let r1 ← parseLit anchorRA s
  let (a1, r2) ← parseWsRunTo (fun c => c = ',') r1
  let r3 ← parseLit ( ",".toList) r2
  let (a2, r4) ← parseWsRunTo (fun c => c = ',') r3
  let r5 ← parseLit ( ",".toList) r4
  let (d, r6) ← parseWsDigits r5
  let r7 ← parseWsLit ( ")".toList) r6
  pure ( ".RedactArea(".toList ++ a1 ++ ", ".toList ++ a2 ++ ", ".toList ++ pv
      ++ ", ".toList ++ d ++ ")".toList, r7)

/-- One iteration of the pattern loop in `fix_redactarea_calls`: count the
matches, substitute, re-count on the substituted text, and keep the new
content only when `fixes_made = before - after` is positive. -/
def apply_pattern (m : Chars → Option (Chars × Chars)) (content : Chars) : Chars × Nat :=
  let before := scanCount m content
  if 0 < before then
    let after := scanSub m content
    let afterCount := scanCount m after
    if 0 < before - afterCount then (after, before - afterCount)
    else (content, 0)
  else (content, 0)

/-- The content transformation of `fix_redactarea_calls` for a given detected
path variable: pattern 1 then pattern 2, each behind the count guard. -/
def fix_core (pv content : Chars) : Chars × Nat :=
  let s1 := apply_pattern (callsP1 pv) content
  let s2 := apply_pattern (callsP2 pv) s1.1
  (s2.1, s1.2 + s2.2)

/-- `fix_redactarea_calls` on a file's content: detect the path variable,
then run the guarded pattern loop. -/
def fix_redactarea_calls (content : Chars) : Chars × Nat :=
  fix_core (find_path_variable content) content

/-- The write decision of `fix_redactarea_calls`: when the transformed content
equals the original nothing is written; otherwise the original content goes to
the `.bak` backup first and the new content to the source file. -/
def write_decision (content : Chars) : Option (Chars × Chars) :=
  if (fix_redactarea_calls content).1 = content then none
  else some (content, (fix_redactarea_calls content).1)

end FixRedactareaCalls

/-! ## fix_all_redactarea_final.py -/

namespace FixAllRedactareaFinal

/-- The candidate names of the declaration patterns of `find_path_variables`
(`pdfPath|inputPath|filePath|testPath|path`), in alternation order. -/
def altNames : List Chars :=
  [ "pdfPath".toList, "inputPath".toList, "filePath".toList,
    "testPath".toList, "path".toList ]

/-- Continuation `\s*=\s*.*\.pdf` after a captured name: optional whitespace,
`=`, then a whitespace run that may cross newlines (`\s` matches newlines but
`.` does not), then `.pdf` must occur in the rest of the line the run ends in;
the greedy `.*` puts the match end after the last `.pdf` of that line. -/
def declPdfCont (s : Chars) : Option Chars := do
  let r3 ← parseWsLit ( "=".toList) s
  let r4 := r3.dropWhile (fun c => isWsChar c)
  let line := r4.takeWhile (fun c => c ≠ '\n')
  match lastOccEnd line ( ".pdf".toList) with
  | some n => some (r4.drop n)
  | none => none

/-- Alternation `(pdfPath|inputPath|filePath|testPath|path)` followed by
`declPdfCont`: Python tries the alternatives left to right, and moves to the
next alternative when the continuation after a literal match fails. -/
def tryAltNames (names : List Chars) (s : Chars) : Option (Chars × Chars) :=
  match names with
  | [] => none
  | n :: rest =>
      match parseLit n s with
      | some r =>
          match declPdfCont r with
          | some restAfter => some (n, restAfter)
          | none => tryAltNames rest s
      | none => tryAltNames rest s

/-- Matcher for `KW\s+(pdfPath|inputPath|filePath|testPath|path)\s*=\s*.*\.pdf`
(`KW` is `var` or `string`), as used by `re.finditer` in
`find_path_variables`. -/
def finalDeclTail (kw : Chars) (s : Chars) : Option (Chars × Chars) := do
  let r1 ← parseLit kw s
  match r1 with
  | [] => none
  | c :: t =>
      if isWsChar c then tryAltNames altNames (t.dropWhile (fun c => isWsChar c))
      else none

/-- The `found_vars` list of `find_path_variables`: the captures of the four
`finditer` loops in pattern order, filtered by the
`not in ['redactedPath', 'outputPath', 'output']` check.  The third source
pattern captures a string literal and its loop appends nothing
(`group_idx is None`), so it is omitted. -/
def found_vars (content : Chars) : List Chars :=
  ((scanCaptures (finalDeclTail ( "var".toList)) content)
      ++ scanCaptures (finalDeclTail ( "string".toList)) content
      ++ scanCaptures pdfReaderOpenIdent content).filter
    (fun v => !(v = "redactedPath".toList || v = "outputPath".toList || v = "output".toList))

/-- `find_path_variables` of `fix_all_redactarea_final.py`: prefer
`pdfPath`, `inputPath`, `filePath`, `testPath` in that order, else the first
found variable, else the `'pdfPath'` fallback. -/
def find_path_variables (content : Chars) : Chars :=
  match found_vars content with
  | [] => "pdfPath".toList
  | v0 :: _ =>
      if "pdfPath".toList ∈ found_vars content then "pdfPath".toList
      else if "inputPath".toList ∈ found_vars content then "inputPath".toList
      else if "filePath".toList ∈ found_vars content then "filePath".toList
      else if "testPath".toList ∈ found_vars content then "testPath".toList
      else v0

/-- Tail of fix_file pattern 1 after the greedy `(.*)` front:
`\.RedactArea\(([^,]+),\s*([^,]+),\s*renderDpi:\s*(\d+)\)` with the final
`(.*)` group being the whole rest of the line. -/
def finalTail1 (s : Chars) : Option (Chars × Chars × Chars × Chars) := do
  let r1 ← parseLit anchorRA s
  let (a1, r2) ← parseRunTo (fun c => c = ',') r1
  let r3 ← parseLit ( ",".toList) r2
  let (a2, r4) ← parseWsRunTo (fun c => c = ',') r3
  let r5 ← parseLit ( ",".toList) r4
  let r6 ← parseWsLit ( "renderDpi:".toList) r5
  let (d, r7) ← parseWsDigits r6
  let r8 ← parseLit ( ")".toList) r7
  pure (a1, a2, d, r8)

/-- Tail of fix_file pattern 2:
`\.RedactArea\(([^,]+),\s*([^,]+),\s*(\d+)\)(.*)`. -/
def finalTail2 (s : Chars) : Option (Chars × Chars × Chars × Chars) := do
  let r1 ← parseLit anchorRA s
  let (a1, r2) ← parseRunTo (fun c => c = ',') r1
  let r3 ← parseLit ( ",".toList) r2
  let (a2, r4) ← parseWsRunTo (fun c => c = ',') r3
  let r5 ← parseLit ( ",".toList) r4
  let (d, r6) ← parseWsDigits r5
  let r7 ← parseLit ( ")".toList) r6
  pure (a1, a2, d, r7)

/-- Tail of fix_file pattern 3:
`\.RedactArea\(([^,]+),\s*([^)]+)\);(.*)`. -/
def finalTail3 (s : Chars) : Option (Chars × Chars × Chars) := do
  let r1 ← parseLit anchorRA s
  let (a1, r2) ← parseRunTo (fun c => c = ',') r1
  let r3 ← parseLit ( ",".toList) r2
  let (a2, r4) ← parseWsRunTo (fun c => c = ')') r3
  let r5 ← parseLit ( ");".toList) r4
  pure (a1, a2, r5)

/-- The per-line transformation of `fix_file` in
`fix_all_redactarea_final.py`, for a given detected path variable: the
line-level guards, the already-fixed skip, then the three patterns in order;
the second component is the number of fixes reported for the line. -/
def fix_line (pv : Chars) (line : Chars) : Chars × Nat :=
  if containsSub line ( "RedactArea(".toList)
      && !containsSub line ( "void RedactArea".toList)
      && !containsSub line ( "//".toList) then
    if containsSub line (( ", ".toList ++ pv) ++ ",".toList)
        || containsSub line (( ", ".toList ++ pv) ++ ")".toList) then
      (line, 0)
    else
      match searchGreedy finalTail1 line with
      | some (front, a1, a2, d, tl) =>
          (front ++ ".RedactArea(".toList ++ a1 ++ ", ".toList ++ a2 ++ ", ".toList ++ pv
            ++ ", renderDpi: ".toList ++ d ++ ")".toList ++ tl, 1)
      | none =>
      match searchGreedy finalTail2 line with
      | some (front, a1, a2, d, tl) =>
          (front ++ ".RedactArea(".toList ++ a1 ++ ", ".toList ++ a2 ++ ", ".toList ++ pv
            ++ ", ".toList ++ d ++ ")".toList ++ tl, 1)
      | none =>
      match searchGreedy finalTail3 line with
      | some (front, a1, a2, tl) =>
          if containsSub a2 ( ",".toList) && countOccur a2 ( ",".toList) = 0 then
            (front ++ ".RedactArea(".toList ++ a1 ++ ", ".toList ++ a2 ++ ", ".toList ++ pv
              ++ ");".toList ++ tl, 1)
          else (line, 0)
      | none => (line, 0)
  else (line, 0)

/-- `fix_file` of `fix_all_redactarea_final.py` on a file's content: detect
the path variable, map the line transformation over `content.split('\n')`,
rejoin with newlines, and total the fixes. -/
def fix_file (content : Chars) : Chars × Nat :=
  let pv := find_path_variables content
  let lines := splitLines content
  (joinNl (lines.map (fun l => (fix_line pv l).1)),
    (lines.map (fun l => (fix_line pv l).2)).sum)

/-- The write decision of `fix_file`: on `fixes == 0` nothing is written;
otherwise the original content goes to the `.final.bak` backup and the
rejoined lines to the source file. -/
def write_decision (content : Chars) : Option (Chars × Chars) :=
  if (fix_file content).2 = 0 then none
  else some (content, (fix_file content).1)

end FixAllRedactareaFinal

/-! ## Shared pieces of the phase 2/3/4 path-variable finders -/

/-- Python `str.strip()` on ASCII whitespace. -/
def pyStrip (s : Chars) : Chars :=
  ((s.dropWhile (fun c => isWsChar c)).reverse.dropWhile (fun c => isWsChar c)).reverse

/-- Python `str.lower()`. -/
def pyLower (s : Chars) : Chars :=
  s.map Char.toLower

/-- The acceptance check of the phase 2/3/4 finders:
`'redacted' not in var.lower() and 'output' not in var.lower()`. -/
def acceptableVar (v : Chars) : Bool :=
  !(containsSub (pyLower v) ( "redacted".toList) || containsSub (pyLower v) ( "output".toList))

/-- The `for pattern in patterns` loop shared by the phase 2/3/4 finders:
each entry is the `re.search` capture of one pattern; an accepted capture is
returned, a rejected (`continue`) or missing one falls through, and an
exhausted loop yields the fallback. -/
def findVarLoop (cands : List (Option Chars)) (fallback : Chars) : Chars :=
  match cands with
  | [] => fallback
  | c :: rest =>
      match c with
      | some v => if acceptableVar v then v else findVarLoop rest fallback
      | none => findVarLoop rest fallback

/-- Alternation `(N1|N2|..)\s*=` after the declaration keyword: Python tries
the alternatives left to right and moves on when the `\s*=` continuation
fails after a literal match. -/
def tryAltEq (names : List Chars) (s : Chars) : Option Chars :=
  match names with
  | [] => none
  | n :: rest =>
      match parseLit n s with
      | some r =>
          match parseWsLit ( "=".toList) r with
          | some _ => some n
          | none => tryAltEq rest s
      | none => tryAltEq rest s

/-- Matcher for `KW\s+(N1|N2|..)\s*=` (`KW` being `var` or `string`), used by
the phase 3 and phase 4 finders. -/
def declAltEqTail (kw : Chars) (names : List Chars) (s : Chars) : Option Chars := do
  let r1 ← parseLit kw s
  match r1 with
  | [] => none
  | c :: t =>
      if isWsChar c then tryAltEq names (t.dropWhile (fun c => isWsChar c))
      else none

/-! ## fix_redactarea_phase2.py -/

namespace FixRedactareaPhase2

/-- The six pattern captures of phase 2's `find_path_variable`, in loop
order. -/
def pattern_captures (content : Chars) : List (Option Chars) :=
  [ (searchFirst (varDeclTail ( "pdfPath".toList)) content).map
      (fun _ => "pdfPath".toList),
    (searchFirst (varDeclTail ( "inputPath".toList)) content).map
      (fun _ => "inputPath".toList),
    (searchFirst (varDeclTail ( "filePath".toList)) content).map
      (fun _ => "filePath".toList),
    (searchFirst (varDeclTail ( "testPath".toList)) content).map
      (fun _ => "testPath".toList),
    (searchFirst (varDeclNeedleTail ( "redactedPath".toList) ( "Save".toList)) content).map
      (fun _ => "redactedPath".toList),
    (searchFirst pdfReaderOpenIdent content).map (fun p => p.1) ]

/-- `find_path_variable` of `fix_redactarea_phase2.py`: six patterns in
order; a capture whose lower-cased name holds `redacted` or `output` is
skipped (the `continue` moves to the next pattern), and the fallback is
`"pdfPath"`. -/
def find_path_variable (content : Chars) : Chars :=
  findVarLoop (pattern_captures content) ( "pdfPath".toList)

/-- The phase-2 call pattern
`\.RedactArea\(\s*([^,]+),\s*([^,)]+)\s*\)(?!,)` with its replacement
`.RedactArea({arg1.strip()}, {arg2.strip()}, {path_var})`. -/
def phase2Matcher (pv : Chars) (s : Chars) : Option (Chars × Chars) := do
  let r1 ← parseLit anchorRA s
  let (a1, r2) ← parseWsRunTo (fun c => c = ',') r1
  let r3 ← parseLit ( ",".toList) r2
  let (a2, r4) ← parseWsRunTo (fun c => c = ',' || c = ')') r3
  let r5 ← parseLit ( ")".toList) r4
  match r5 with
  | ',' :: _ => none
  | _ =>
      pure ( ".RedactArea(".toList ++ pyStrip a1 ++ ", ".toList ++ pyStrip a2
        ++ ", ".toList ++ pv ++ ")".toList, r5)

/-- `fix_file` of phase 2 as a write decision: with no match it returns
before writing anything; otherwise the original content goes to the
`.phase2.bak` backup and every match is replaced.  The source splices the
replacements from the last match to the first over spans found on the
original content; since the spans do not overlap this equals the
left-to-right rebuild of `scanSub`. -/
def fix_file_write (content : Chars) : Option (Chars × Chars × Nat) :=
  let pv := find_path_variable content
  let n := scanCount (phase2Matcher pv) content
  if n = 0 then none
  else some (content, scanSub (phase2Matcher pv) content, n)

/-- Tail of the error-line pattern `([^:]+\.cs)\(\d+,\d+\):` of phase 2's
`main`: the colon-free run from the current offset must end with
`NAME.cs(D1,D2)` right before its terminating colon, and the capture is
everything up to that `(`; the greedy `[^:]+\.cs` forces the `.cs` that sits
immediately before the parenthesised pair. -/
def extractCsTail (s : Chars) : Option Chars :=
  let R := s.takeWhile (fun c => c ≠ ':')
  match s.drop R.length with
  | ':' :: _ =>
      match R.reverse with
      | ')' :: rr =>
          let d2 := rr.takeWhile (fun c => isDigitChar c)
          if d2.isEmpty then none
          else
            match rr.drop d2.length with
            | ',' :: rr2 =>
                let d1 := rr2.takeWhile (fun c => isDigitChar c)
                if d1.isEmpty then none
                else
                  match rr2.drop d1.length with
                  | '(' :: rb =>
                      let B := rb.reverse
                      if (( ".cs".toList).isSuffixOf B) && 4 ≤ B.length then some B
                      else none
                  | _ => none
            | _ => none
      | _ => none
  | _ => none

/-- The file-selection loop of phase 2's `main`: keep the captured `.cs`
names of the stderr lines that contain both `error CS7036` and `RedactArea`;
`error_files` is a set, modelled as first-occurrence deduplication (the
`sorted()` of the processing loop only fixes an order). -/
def error_files (stderr : Chars) : List Chars :=
  ((splitLines stderr).filter (fun l =>
      containsSub l ( "error CS7036".toList) && containsSub l ( "RedactArea".toList))).foldl
    (fun acc l =>
      match searchFirst extractCsTail l with
      | some f => if f ∈ acc then acc else acc ++ [f]
      | none => acc) []

end FixRedactareaPhase2

/-! ## fix_redactarea_phase3.py -/

namespace FixRedactareaPhase3

/-- Candidate names of the phase-3 finder. -/
def names3 : List Chars :=
  [ "testPdf".toList, "pdfPath".toList, "inputPath".toList, "filePath".toList ]

/-- The three pattern captures of phase 3's `find_path_var`, in loop order. -/
def pattern_captures (content : Chars) : List (Option Chars) :=
  [ searchFirst (declAltEqTail ( "var".toList) names3) content,
    searchFirst (declAltEqTail ( "string".toList) names3) content,
    (searchFirst pdfReaderOpenIdent content).map (fun p => p.1) ]

/-- `find_path_var` of `fix_redactarea_phase3.py`. -/
def find_path_var (content : Chars) : Chars :=
  findVarLoop (pattern_captures content) ( "pdfPath".toList)

/-- The shared group `(\.RedactArea\([^,]+,\s*new Rect\([^)]+\))` of the
three phase-3 patterns; the replacements reuse the matched text, so the
whitespace matched by the inner `\s*` is carried along. -/
def p3Group1 (s : Chars) : Option (Chars × Chars) := do
  let r1 ← parseLit anchorRA s
  let (a1, r2) ← parseRunTo (fun c => c = ',') r1
  let r3 ← parseLit ( ",".toList) r2
  let w := r3.takeWhile (fun c => isWsChar c)
  let r4 ← parseLit ( "new Rect(".toList) (r3.dropWhile (fun c => isWsChar c))
  let (inner, r5) ← parseRunTo (fun c => c = ')') r4
  let r6 ← parseLit ( ")".toList) r5
  pure (anchorRA ++ a1 ++ ",".toList ++ w ++ "new Rect(".toList ++ inner ++ ")".toList, r6)

/-- Phase-3 pattern 1: `(group1),\s*renderDpi:\s*(\d+)\)` replaced by
`\1, {path_var}, renderDpi: \2)`. -/
def p3m1 (pv : Chars) (s : Chars) : Option (Chars × Chars) := do
  let (g1, r6) ← p3Group1 s
  let r7 ← parseLit ( ",".toList) r6
  let r8 ← parseWsLit ( "renderDpi:".toList) r7
  let (d, r9) ← parseWsDigits r8
  let r10 ← parseLit ( ")".toList) r9
  pure (g1 ++ ", ".toList ++ pv ++ ", renderDpi: ".toList ++ d ++ ")".toList, r10)

/-- Phase-3 pattern 2: `(group1)\);(\s*//)` replaced by `\1, {path_var});\2`. -/
def p3m2 (pv : Chars) (s : Chars) : Option (Chars × Chars) := do
  let (g1, r6) ← p3Group1 s
  let r7 ← parseLit ( ");".toList) r6
  let w2 := r7.takeWhile (fun c => isWsChar c)
  let r8 ← parseLit ( "//".toList) (r7.dropWhile (fun c => isWsChar c))
  pure (g1 ++ ", ".toList ++ pv ++ ");".toList ++ w2 ++ "//".toList, r8)

/-- Phase-3 pattern 3: `(group1)\);` replaced by `\1, {path_var});`. -/
def p3m3 (pv : Chars) (s : Chars) : Option (Chars × Chars) := do
  let (g1, r6) ← p3Group1 s
  let r7 ← parseLit ( ");".toList) r6
  pure (g1 ++ ", ".toList ++ pv ++ ");".toList, r7)

/-- `fix_content` of `fix_redactarea_phase3.py`: the three substitutions in
sequence. -/
def fix_content (content : Chars) : Chars :=
  let pv := find_path_var content
  scanSub (p3m3 pv) (scanSub (p3m2 pv) (scanSub (p3m1 pv) content))

/-- The write decision of phase 3's `main`: only a changed result is
written, the original going to the `.p3.bak` backup first. -/
def write_decision (content : Chars) : Option (Chars × Chars) :=
  if fix_content content = content then none
  else some (content, fix_content content)

end FixRedactareaPhase3

/-! ## fix_redactarea_phase4.py -/

namespace FixRedactareaPhase4

/-- Candidate names of the phase-4 finder. -/
def names4 : List Chars :=
  [ "testPdf".toList, "pdfPath".toList, "inputPath".toList, "filePath".toList,
    "inputPdf".toList ]

/-- The three pattern captures of phase 4's `find_path_var`, in loop order. -/
def pattern_captures (content : Chars) : List (Option Chars) :=
  [ searchFirst (declAltEqTail ( "var".toList) names4) content,
    searchFirst (declAltEqTail ( "string".toList) names4) content,
    (searchFirst pdfReaderOpenIdent content).map (fun p => p.1) ]

/-- `find_path_var` of `fix_redactarea_phase4.py` (fallback `testPdf`). -/
def find_path_var (content : Chars) : Chars :=
  findVarLoop (pattern_captures content) ( "testPdf".toList)

/-- Tail of phase-4 pattern 1:
`\.RedactArea\(([^,]+),\s*([^,]+),\s*([^,]+),\s*renderDpi:\s*(\d+)\)(.*)`. -/
def p4t1 (s : Chars) : Option (Chars × Chars × Chars × Chars × Chars) := do
  let r1 ← parseLit anchorRA s
  let (a1, r2) ← parseRunTo (fun c => c = ',') r1
  let r3 ← parseLit ( ",".toList) r2
  let (a2, r4) ← parseWsRunTo (fun c => c = ',') r3
  let r5 ← parseLit ( ",".toList) r4
  let (a3, r6) ← parseWsRunTo (fun c => c = ',') r5
  let r7 ← parseLit ( ",".toList) r6
  let r8 ← parseWsLit ( "renderDpi:".toList) r7
  let (d, r9) ← parseWsDigits r8
  let r10 ← parseLit ( ")".toList) r9
  pure (a1, a2, a3, d, r10)

/-- Tail of phase-4 pattern 2 (double `renderDpi:` from over-fixing):
`\.RedactArea\(([^,]+),\s*([^,]+),\s*([^,]+),\s*renderDpi:\s*(\d+),\s*renderDpi:\s*(\d+)\)(.*)`. -/
def p4t2 (s : Chars) : Option (Chars × Chars × Chars × Chars × Chars × Chars) := do
  let r1 ← parseLit anchorRA s
  let (a1, r2) ← parseRunTo (fun c => c = ',') r1
  let r3 ← parseLit ( ",".toList) r2
  let (a2, r4) ← parseWsRunTo (fun c => c = ',') r3
  let r5 ← parseLit ( ",".toList) r4
  let (a3, r6) ← parseWsRunTo (fun c => c = ',') r5
  let r7 ← parseLit ( ",".toList) r6
  let r8 ← parseWsLit ( "renderDpi:".toList) r7
  let (d1, r9) ← parseWsDigits r8
  let r10 ← parseLit ( ",".toList) r9
  let r11 ← parseWsLit ( "renderDpi:".toList) r10
  let (d2, r12) ← parseWsDigits r11
  let r13 ← parseLit ( ")".toList) r12
  pure (a1, a2, a3, d1, d2, r13)

/-- Tail of phase-4 pattern 3 (bare `renderDpi` without colon):
`\.RedactArea\(([^,]+),\s*([^,]+),\s*([^,]+),\s*renderDpi,\s*(\d+)\)(.*)`. -/
def p4t3 (s : Chars) : Option (Chars × Chars × Chars × Chars × Chars) := do
  let r1 ← parseLit anchorRA s
  let (a1, r2) ← parseRunTo (fun c => c = ',') r1
  let r3 ← parseLit ( ",".toList) r2
  let (a2, r4) ← parseWsRunTo (fun c => c = ',') r3
  let r5 ← parseLit ( ",".toList) r4
  let (a3, r6) ← parseWsRunTo (fun c => c = ',') r5
  let r7 ← parseLit ( ",".toList) r6
  let r8 ← parseWsLit ( "renderDpi,".toList) r7
  let (d, r9) ← parseWsDigits r8
  let r10 ← parseLit ( ")".toList) r9
  pure (a1, a2, a3, d, r10)

/-- Tail of phase-4 pattern 4: `\.RedactArea\(([^,]+),\s*([^)]+)\);(.*)`. -/
def p4t4 (s : Chars) : Option (Chars × Chars × Chars) := do
  let r1 ← parseLit anchorRA s
  let (a1, r2) ← parseRunTo (fun c => c = ',') r1
  let r3 ← parseLit ( ",".toList) r2
  let (a2, r4) ← parseWsRunTo (fun c => c = ')') r3
  let r5 ← parseLit ( ");".toList) r4
  pure (a1, a2, r5)

/-- Tail of phase-4 pattern 5:
`\.RedactMatches\(([^,]+),\s*([^,]+),\s*([^)]+)\)(.*)`. -/
def p4t5 (s : Chars) : Option (Chars × Chars × Chars × Chars) := do
  let r1 ← parseLit ( ".RedactMatches(".toList) s
  let (a1, r2) ← parseRunTo (fun c => c = ',') r1
  let r3 ← parseLit ( ",".toList) r2
  let (a2, r4) ← parseWsRunTo (fun c => c = ',') r3
  let r5 ← parseLit ( ",".toList) r4
  let (a3, r6) ← parseWsRunTo (fun c => c = ')') r5
  let r7 ← parseLit ( ")".toList) r6
  pure (a1, a2, a3, r7)

/-- The per-line body of `fix_content` in `fix_redactarea_phase4.py`: each
pattern is searched on the original line and overwrites `fixed_line`;
pattern 4 is gated on `'renderDpi' not in line and path_var not in line` and
a comma-free second argument, pattern 5 on the `BatchRedactService` /
`RedactMatches` / `new RedactionOptions` checks and a comma-free third
argument. -/
def fix_line (pv : Chars) (line : Chars) : Chars :=
  let fl0 := line
  let fl1 :=
    match searchGreedy p4t1 line with
    | some (front, a1, a2, _a3, d, tl) =>
        front ++ ".RedactArea(".toList ++ a1 ++ ", ".toList ++ a2 ++ ", ".toList ++ pv
          ++ ", renderDpi: ".toList ++ d ++ ")".toList ++ tl
    | none => fl0
  let fl2 :=
    match searchGreedy p4t2 line with
    | some (front, a1, a2, a3, d1, _d2, tl) =>
        front ++ ".RedactArea(".toList ++ a1 ++ ", ".toList ++ a2 ++ ", ".toList ++ a3
          ++ ", renderDpi: ".toList ++ d1 ++ ")".toList ++ tl
    | none => fl1
  let fl3 :=
    match searchGreedy p4t3 line with
    | some (front, a1, a2, a3, d, tl) =>
        front ++ ".RedactArea(".toList ++ a1 ++ ", ".toList ++ a2 ++ ", ".toList ++ a3
          ++ ", renderDpi: ".toList ++ d ++ ")".toList ++ tl
    | none => fl2
  let fl4 :=
    match searchGreedy p4t4 line with
    | some (front, a1, a2, tl) =>
        if !containsSub line ( "renderDpi".toList) && !containsSub line pv then
          if countOccur a2 ( ",".toList) = 0 then
            front ++ ".RedactArea(".toList ++ a1 ++ ", ".toList ++ a2 ++ ", ".toList ++ pv
              ++ ");".toList ++ tl
          else fl3
        else fl3
    | none => fl3
  let fl5 :=
    if containsSub line ( "BatchRedactService".toList)
        && containsSub line ( "RedactMatches".toList)
        && !containsSub line ( "new RedactionOptions".toList) then
      match searchGreedy p4t5 line with
      | some (front, a1, a2, a3, tl) =>
          if countOccur a3 ( ",".toList) = 0 then
            front ++ ".RedactMatches(".toList ++ a1 ++ ", ".toList ++ a2 ++ ", ".toList
              ++ a3 ++ ", new RedactionOptions \x7b UseGlyphLevelRedaction = true \x7d)".toList
              ++ tl
          else fl4
      | none => fl4
    else fl4
  fl5

/-- `fix_content` of phase 4: the line transformation over
`content.split('\n')`, rejoined. -/
def fix_content (content : Chars) : Chars :=
  let pv := find_path_var content
  joinNl ((splitLines content).map (fun l => fix_line pv l))

/-- The write decision of phase 4's `main`: only a changed result is
written, the original going to the `.p4.bak` backup first. -/
def write_decision (content : Chars) : Option (Chars × Chars) :=
  if fix_content content = content then none
  else some (content, fix_content content)

end FixRedactareaPhase4

/-! ## C8: idempotence of the final fixer's line transformation -/

theorem countOccur_singleton_pos (s : Chars) (c : Char)
    (h : containsSub s [c] = true) : 0 < countOccur s [c] := by
  induction s with
  | nil => simp [containsSub] at h
  | cons a t ih =>
      rw [containsSub, Bool.or_eq_true] at h
      rcases h with h1 | h2
      · simp only [countOccur]
        rw [if_pos h1]
        omega
      · cases hp : ([c].isPrefixOf (a :: t)) with
        | true =>
            simp only [countOccur]
            rw [if_pos hp]
            omega
        | false =>
            simp only [countOccur]
            rw [if_neg (by simp [hp])]
            simpa using ih h2

theorem contains_mid (X pv Y : Chars) :
    containsSub (X ++ ", ".toList ++ pv ++ ",".toList ++ Y)
      (( ", ".toList ++ pv) ++ ",".toList) = true := by
  have h := containsSub_occ X (( ", ".toList ++ pv) ++ ",".toList) Y
  simpa [List.append_assoc] using h

/-- C8: the per-line fixer of `fix_all_redactarea_final.py` is idempotent:
applied to its own output it reports zero fixes and changes nothing, because
a rewritten line always contains `, {path_var},` and is skipped, an
unchanged line is decided the same way again, and the third pattern's
contradictory guard never fires. -/
theorem c8_fix_line_idempotent :
    (∀ (pv line : Chars),
      FixAllRedactareaFinal.fix_line pv (FixAllRedactareaFinal.fix_line pv line).1
        = ((FixAllRedactareaFinal.fix_line pv line).1, 0))
    ∧ (∀ (pv : Chars) (lines : List Chars),
      ((lines.map (fun l => (FixAllRedactareaFinal.fix_line pv l).1)).map
          (fun l => (FixAllRedactareaFinal.fix_line pv l).1)
        = lines.map (fun l => (FixAllRedactareaFinal.fix_line pv l).1))
      ∧ ((lines.map (fun l => (FixAllRedactareaFinal.fix_line pv l).1)).map
          (fun l => (FixAllRedactareaFinal.fix_line pv l).2)).sum = 0) := by
  have skipline : ∀ (pv l' : Chars),
      containsSub l' (( ", ".toList ++ pv) ++ ",".toList) = true →
      FixAllRedactareaFinal.fix_line pv l' = (l', 0) := by
    intro pv l' hc
    simp only [FixAllRedactareaFinal.fix_line]
    cases hB' : (containsSub l' ( "RedactArea(".toList)
        && !containsSub l' ( "void RedactArea".toList)
        && !containsSub l' ( "//".toList)) with
    | false => simp
    | true =>
        have hsk : (containsSub l' (( ", ".toList ++ pv) ++ ",".toList)
            || containsSub l' (( ", ".toList ++ pv) ++ ")".toList)) = true := by
          rw [hc]; simp
        rw [hsk]
        simp
  have key : ∀ (pv line : Chars),
      FixAllRedactareaFinal.fix_line pv (FixAllRedactareaFinal.fix_line pv line).1
        = ((FixAllRedactareaFinal.fix_line pv line).1, 0) := by
    intro pv line
    cases hB : (containsSub line ( "RedactArea(".toList)
        && !containsSub line ( "void RedactArea".toList)
        && !containsSub line ( "//".toList)) with
    | false =>
        have h1 : FixAllRedactareaFinal.fix_line pv line = (line, 0) := by
          simp only [FixAllRedactareaFinal.fix_line]
          rw [hB]
          simp
        rw [h1]
        exact h1
    | true =>
        cases hskip : (containsSub line (( ", ".toList ++ pv) ++ ",".toList)
            || containsSub line (( ", ".toList ++ pv) ++ ")".toList)) with
        | true =>
            have h1 : FixAllRedactareaFinal.fix_line pv line = (line, 0) := by
              simp only [FixAllRedactareaFinal.fix_line]
              rw [hB, hskip]
              simp
            rw [h1]
            exact h1
        | false =>
            rcases hm1 : searchGreedy FixAllRedactareaFinal.finalTail1 line with _ |
              ⟨front, a1, a2, d, tl⟩
            · rcases hm2 : searchGreedy FixAllRedactareaFinal.finalTail2 line with _ |
                ⟨front, a1, a2, d, tl⟩
              · rcases hm3 : searchGreedy FixAllRedactareaFinal.finalTail3 line with _ |
                  ⟨front, a1, a2, tl⟩
                · have h1 : FixAllRedactareaFinal.fix_line pv line = (line, 0) := by
                    simp only [FixAllRedactareaFinal.fix_line]
                    rw [hB, hskip, hm1, hm2, hm3]
                    rfl
                  rw [h1]
                  exact h1
                · have hccf : (containsSub a2 ( ",".toList)
                      && decide (countOccur a2 ( ",".toList) = 0)) = false := by
                    cases hcb : containsSub a2 ( ",".toList) with
                    | false => simp
                    | true =>
                        have hpos := countOccur_singleton_pos a2 ',' hcb
                        simp only [Bool.true_and, decide_eq_false_iff_not]
                        intro h0
                        have h0' : 0 < countOccur a2 ( ",".toList) := hpos
                        omega
                  have h1 : FixAllRedactareaFinal.fix_line pv line = (line, 0) := by
                    simp only [FixAllRedactareaFinal.fix_line]
                    rw [hB, hskip, hm1, hm2, hm3]
                    show (if (containsSub a2 ( ",".toList)
                        && decide (countOccur a2 ( ",".toList) = 0)) = true
                      then (front ++ ".RedactArea(".toList ++ a1 ++ ", ".toList ++ a2
                        ++ ", ".toList ++ pv ++ ");".toList ++ tl, 1)
                      else (line, 0)) = (line, 0)
                    rw [hccf]
                    rfl
                  rw [h1]
                  exact h1
              · have h1 : FixAllRedactareaFinal.fix_line pv line =
                    (front ++ ".RedactArea(".toList ++ a1 ++ ", ".toList ++ a2 ++ ", ".toList
                      ++ pv ++ ", ".toList ++ d ++ ")".toList ++ tl, 1) := by
                  simp only [FixAllRedactareaFinal.fix_line]
                  rw [hB, hskip, hm1, hm2]
                  rfl
                rw [h1]
                apply skipline
                have h := contains_mid
                  (front ++ ".RedactArea(".toList ++ a1 ++ ", ".toList ++ a2) pv
                  ( " ".toList ++ d ++ ")".toList ++ tl)
                have hsp : ( ", ".toList : Chars) = ",".toList ++ " ".toList := rfl
                rw [hsp]
                simpa [List.append_assoc] using h
            · have h1 : FixAllRedactareaFinal.fix_line pv line =
                  (front ++ ".RedactArea(".toList ++ a1 ++ ", ".toList ++ a2 ++ ", ".toList
                    ++ pv ++ ", renderDpi: ".toList ++ d ++ ")".toList ++ tl, 1) := by
                simp only [FixAllRedactareaFinal.fix_line]
                rw [hB, hskip, hm1]
                rfl
              rw [h1]
              apply skipline
              have h := contains_mid
                (front ++ ".RedactArea(".toList ++ a1 ++ ", ".toList ++ a2) pv
                ( " renderDpi: ".toList ++ d ++ ")".toList ++ tl)
              have hsp : ( ", renderDpi: ".toList : Chars)
                  = ",".toList ++ " renderDpi: ".toList := rfl
              rw [hsp]
              simpa [List.append_assoc] using h
  refine ⟨key, ?_⟩
  intro pv lines
  constructor
  · rw [List.map_map]
    apply List.map_congr_left
    intro l _
    simp only [Function.comp_apply]
    rw [key pv l]
  · rw [List.map_map]
    have hz : ∀ l ∈ lines,
        ((fun l => (FixAllRedactareaFinal.fix_line pv l).2) ∘
          (fun l => (FixAllRedactareaFinal.fix_line pv l).1)) l = 0 := by
      intro l _
      simp only [Function.comp_apply]
      rw [key pv l]
    rw [List.map_congr_left hz]
    simp

/-! ## C10: the phase 2/3/4 path-variable finders -/

theorem searchFirst_some_ex {α : Type} (t : Chars → Option α) :
    ∀ s : Chars, ∀ a : α, searchFirst t s = some a → ∃ u : Chars, t u = some a := by
  intro s
  induction s with
  | nil =>
      intro a h
      exact ⟨[], by simpa [searchFirst] using h⟩
  | cons c s ih =>
      intro a h
      cases ht : t (c :: s) with
      | some b =>
          rw [searchFirst_cons_some ht] at h
          exact ⟨c :: s, by rw [ht, h]⟩
      | none =>
          rw [searchFirst_cons_none ht] at h
          exact ih a h

theorem isIdentHead_isIdentChar (c : Char) (h : isIdentHead c = true) :
    isIdentChar c = true := by
  simp [isIdentChar, h]

theorem parseIdent_shape (s v r : Chars) (h : parseIdent s = some (v, r)) :
    v ≠ [] ∧ v.all isIdentChar = true := by
  cases s with
  | nil => simp [parseIdent] at h
  | cons c t =>
      by_cases hc : isIdentHead c = true
      · simp only [parseIdent, hc, if_pos, Option.some_inj, Prod.mk.injEq] at h
        obtain ⟨h1, -⟩ := h
        subst h1
        refine ⟨by simp, ?_⟩
        simp only [List.all_cons, Bool.and_eq_true]
        refine ⟨isIdentHead_isIdentChar c hc, ?_⟩
        rw [List.all_eq_true]
        intro x hx
        exact List.mem_takeWhile_imp hx
      · simp [parseIdent, hc] at h

theorem pdfReaderOpenIdent_shape (s v r : Chars)
    (h : pdfReaderOpenIdent s = some (v, r)) :
    v ≠ [] ∧ v.all isIdentChar = true := by
  replace h : Option.bind (parseLit ( "PdfReader.Open(".toList) s)
      (fun r1 => Option.bind (parseIdent (r1.dropWhile (fun c => isWsChar c)))
        (fun d => Option.bind (parseWsLit ( ",".toList) d.2)
          (fun r3 => some (d.1, r3)))) = some (v, r) := h
  rw [Option.bind_eq_some] at h
  obtain ⟨r1, -, h⟩ := h
  rw [Option.bind_eq_some] at h
  obtain ⟨d, hd, h⟩ := h
  rw [Option.bind_eq_some] at h
  obtain ⟨r3, -, h⟩ := h
  rw [Option.some_inj, Prod.mk.injEq] at h
  obtain ⟨h1, -⟩ := h
  obtain ⟨dv, dr⟩ := d
  rw [← h1]
  exact parseIdent_shape _ _ _ hd

theorem tryAltEq_mem (names : List Chars) (s v : Chars)
    (h : tryAltEq names s = some v) : v ∈ names := by
  induction names with
  | nil => simp [tryAltEq] at h
  | cons n rest ih =>
      rw [tryAltEq] at h
      split at h
      · split at h
        · cases h
          exact List.mem_cons_self _ _
        · exact List.mem_cons_of_mem _ (ih h)
      · exact List.mem_cons_of_mem _ (ih h)

theorem declAltEqTail_mem (kw : Chars) (names : List Chars) (s v : Chars)
    (h : declAltEqTail kw names s = some v) : v ∈ names := by
  replace h : Option.bind (parseLit kw s)
      (fun r1 =>
        match r1 with
        | [] => none
        | c :: t =>
            if isWsChar c then tryAltEq names (t.dropWhile (fun c => isWsChar c))
            else none) = some v := h
  rw [Option.bind_eq_some] at h
  obtain ⟨r1, -, h2⟩ := h
  cases r1 with
  | nil => simp at h2
  | cons c t =>
      by_cases hc : isWsChar c = true
      · simp only [hc, if_pos] at h2
        exact tryAltEq_mem _ _ _ h2
      · simp [hc] at h2

theorem findVarLoop_cases (cands : List (Option Chars)) (fb : Chars) :
    findVarLoop cands fb = fb ∨
      ∃ v, some v ∈ cands ∧ acceptableVar v = true ∧ findVarLoop cands fb = v := by
  induction cands with
  | nil => exact Or.inl rfl
  | cons c rest ih =>
      cases c with
      | none =>
          rcases ih with h | ⟨v, hm, ha, hr⟩
          · exact Or.inl (by simpa [findVarLoop] using h)
          · exact Or.inr ⟨v, List.mem_cons_of_mem _ hm, ha, by simpa [findVarLoop] using hr⟩
      | some w =>
          by_cases hw : acceptableVar w = true
          · exact Or.inr ⟨w, List.mem_cons_self _ _, hw, by simp [findVarLoop, hw]⟩
          · rcases ih with h | ⟨v, hm, ha, hr⟩
            · exact Or.inl (by simpa [findVarLoop, hw] using h)
            · exact Or.inr ⟨v, List.mem_cons_of_mem _ hm, ha,
                by simpa [findVarLoop, hw] using hr⟩

theorem findVarLoop_fallback (cands : List (Option Chars)) (fb : Chars)
    (h : ∀ v, some v ∈ cands → acceptableVar v = false) :
    findVarLoop cands fb = fb := by
  induction cands with
  | nil => rfl
  | cons c rest ih =>
      cases c with
      | none =>
          rw [findVarLoop]
          exact ih (fun v hv => h v (List.mem_cons_of_mem _ hv))
      | some w =>
          rw [findVarLoop]
          rw [h w (List.mem_cons_self _ _)]
          simp only [Bool.false_eq_true, if_false]
          exact ih (fun v hv => h v (List.mem_cons_of_mem _ hv))

theorem phase2_capture_shape (content v : Chars)
    (h : some v ∈ FixRedactareaPhase2.pattern_captures content) :
    v ≠ [] ∧ v.all isIdentChar = true := by
  simp only [FixRedactareaPhase2.pattern_captures, List.mem_cons,
    List.not_mem_nil, or_false] at h
  rcases h with h | h | h | h | h | h
  · obtain ⟨a, -, hv⟩ := Option.map_eq_some'.mp h.symm
    rw [← hv]; exact ⟨by decide, by decide⟩
  · obtain ⟨a, -, hv⟩ := Option.map_eq_some'.mp h.symm
    rw [← hv]; exact ⟨by decide, by decide⟩
  · obtain ⟨a, -, hv⟩ := Option.map_eq_some'.mp h.symm
    rw [← hv]; exact ⟨by decide, by decide⟩
  · obtain ⟨a, -, hv⟩ := Option.map_eq_some'.mp h.symm
    rw [← hv]; exact ⟨by decide, by decide⟩
  · obtain ⟨a, -, hv⟩ := Option.map_eq_some'.mp h.symm
    rw [← hv]; exact ⟨by decide, by decide⟩
  · obtain ⟨p, hp, hv⟩ := Option.map_eq_some'.mp h.symm
    obtain ⟨u, hu⟩ := searchFirst_some_ex _ content p hp
    obtain ⟨pv, pr⟩ := p
    rw [← hv]
    exact pdfReaderOpenIdent_shape u pv pr hu

theorem phase3_capture_shape (content v : Chars)
    (h : some v ∈ FixRedactareaPhase3.pattern_captures content) :
    v ≠ [] ∧ v.all isIdentChar = true := by
  simp only [FixRedactareaPhase3.pattern_captures, List.mem_cons,
    List.not_mem_nil, or_false] at h
  rcases h with h | h | h
  · obtain ⟨u, hu⟩ := searchFirst_some_ex _ content v h.symm
    have hm := declAltEqTail_mem _ _ _ _ hu
    fin_cases hm <;> exact ⟨by decide, by decide⟩
  · obtain ⟨u, hu⟩ := searchFirst_some_ex _ content v h.symm
    have hm := declAltEqTail_mem _ _ _ _ hu
    fin_cases hm <;> exact ⟨by decide, by decide⟩
  · obtain ⟨p, hp, hv⟩ := Option.map_eq_some'.mp h.symm
    obtain ⟨u, hu⟩ := searchFirst_some_ex _ content p hp
    obtain ⟨pv, pr⟩ := p
    rw [← hv]
    exact pdfReaderOpenIdent_shape u pv pr hu

theorem phase4_capture_shape (content v : Chars)
    (h : some v ∈ FixRedactareaPhase4.pattern_captures content) :
    v ≠ [] ∧ v.all isIdentChar = true := by
  simp only [FixRedactareaPhase4.pattern_captures, List.mem_cons,
    List.not_mem_nil, or_false] at h
  rcases h with h | h | h
  · obtain ⟨u, hu⟩ := searchFirst_some_ex _ content v h.symm
    have hm := declAltEqTail_mem _ _ _ _ hu
    fin_cases hm <;> exact ⟨by decide, by decide⟩
  · obtain ⟨u, hu⟩ := searchFirst_some_ex _ content v h.symm
    have hm := declAltEqTail_mem _ _ _ _ hu
    fin_cases hm <;> exact ⟨by decide, by decide⟩
  · obtain ⟨p, hp, hv⟩ := Option.map_eq_some'.mp h.symm
    obtain ⟨u, hu⟩ := searchFirst_some_ex _ content p hp
    obtain ⟨pv, pr⟩ := p
    rw [← hv]
    exact pdfReaderOpenIdent_shape u pv pr hu

/-- C10: for every input content the path-variable finders of phases 2, 3
and 4 return a non-empty identifier (every character in the class
`[a-zA-Z0-9_]`) whose lower-cased name contains neither `redacted` nor
`output`; and whenever every pattern capture is unacceptable (so no
candidate pattern yields an acceptable variable) they return their fixed
fallbacks: `pdfPath` for phases 2 and 3, `testPdf` for phase 4. -/
theorem c10_path_variable_finders :
    (∀ content : Chars,
        FixRedactareaPhase2.find_path_variable content ≠ []
        ∧ (FixRedactareaPhase2.find_path_variable content).all isIdentChar = true
        ∧ acceptableVar (FixRedactareaPhase2.find_path_variable content) = true)
    ∧ (∀ content : Chars,
        FixRedactareaPhase3.find_path_var content ≠ []
        ∧ (FixRedactareaPhase3.find_path_var content).all isIdentChar = true
        ∧ acceptableVar (FixRedactareaPhase3.find_path_var content) = true)
    ∧ (∀ content : Chars,
        FixRedactareaPhase4.find_path_var content ≠ []
        ∧ (FixRedactareaPhase4.find_path_var content).all isIdentChar = true
        ∧ acceptableVar (FixRedactareaPhase4.find_path_var content) = true)
    ∧ (∀ content : Chars,
        (∀ v, some v ∈ FixRedactareaPhase2.pattern_captures content →
          acceptableVar v = false) →
        FixRedactareaPhase2.find_path_variable content = "pdfPath".toList)
    ∧ (∀ content : Chars,
        (∀ v, some v ∈ FixRedactareaPhase3.pattern_captures content →
          acceptableVar v = false) →
        FixRedactareaPhase3.find_path_var content = "pdfPath".toList)
    ∧ (∀ content : Chars,
        (∀ v, some v ∈ FixRedactareaPhase4.pattern_captures content →
          acceptableVar v = false) →
        FixRedactareaPhase4.find_path_var content = "testPdf".toList) := by
  refine ⟨?_, ?_, ?_, ?_, ?_, ?_⟩
  · intro content
    rw [FixRedactareaPhase2.find_path_variable]
    rcases findVarLoop_cases (FixRedactareaPhase2.pattern_captures content)
        ( "pdfPath".toList) with h | ⟨v, hm, ha, hr⟩
    · rw [h]; exact ⟨by decide, by decide, by decide⟩
    · rw [hr]
      obtain ⟨h1, h2⟩ := phase2_capture_shape content v hm
      exact ⟨h1, h2, ha⟩
  · intro content
    rw [FixRedactareaPhase3.find_path_var]
    rcases findVarLoop_cases (FixRedactareaPhase3.pattern_captures content)
        ( "pdfPath".toList) with h | ⟨v, hm, ha, hr⟩
    · rw [h]; exact ⟨by decide, by decide, by decide⟩
    · rw [hr]
      obtain ⟨h1, h2⟩ := phase3_capture_shape content v hm
      exact ⟨h1, h2, ha⟩
  · intro content
    rw [FixRedactareaPhase4.find_path_var]
    rcases findVarLoop_cases (FixRedactareaPhase4.pattern_captures content)
        ( "testPdf".toList) with h | ⟨v, hm, ha, hr⟩
    · rw [h]; exact ⟨by decide, by decide, by decide⟩
    · rw [hr]
      obtain ⟨h1, h2⟩ := phase4_capture_shape content v hm
      exact ⟨h1, h2, ha⟩
  · intro content h
    rw [FixRedactareaPhase2.find_path_variable]
    exact findVarLoop_fallback _ _ h
  · intro content h
    rw [FixRedactareaPhase3.find_path_var]
    exact findVarLoop_fallback _ _ h
  · intro content h
    rw [FixRedactareaPhase4.find_path_var]
    exact findVarLoop_fallback _ _ h

/-- C10 witness: the theorem applied at concrete contents.  The empty content
matches no pattern, so the fallback clauses apply; a content declaring
`var pdfPath =` exercises the acceptance clauses. -/
theorem c10_path_variable_finders_witness :
    FixRedactareaPhase2.find_path_variable ( "var pdfPath = x".toList) ≠ []
    ∧ acceptableVar (FixRedactareaPhase2.find_path_variable
        ( "var pdfPath = x".toList)) = true
    ∧ FixRedactareaPhase2.find_path_variable [] = "pdfPath".toList
    ∧ FixRedactareaPhase3.find_path_var [] = "pdfPath".toList
    ∧ FixRedactareaPhase4.find_path_var [] = "testPdf".toList := by
  have h := c10_path_variable_finders
  have hemp2 : ∀ v, some v ∈ FixRedactareaPhase2.pattern_captures [] →
      acceptableVar v = false := by
    intro v hv
    rw [show FixRedactareaPhase2.pattern_captures []
      = [none, none, none, none, none, none] from rfl] at hv
    simp at hv
  have hemp3 : ∀ v, some v ∈ FixRedactareaPhase3.pattern_captures [] →
      acceptableVar v = false := by
    intro v hv
    rw [show FixRedactareaPhase3.pattern_captures [] = [none, none, none] from rfl] at hv
    simp at hv
  have hemp4 : ∀ v, some v ∈ FixRedactareaPhase4.pattern_captures [] →
      acceptableVar v = false := by
    intro v hv
    rw [show FixRedactareaPhase4.pattern_captures [] = [none, none, none] from rfl] at hv
    simp at hv
  exact ⟨(h.1 ( "var pdfPath = x".toList)).1, (h.1 ( "var pdfPath = x".toList)).2.2,
    h.2.2.2.1 [] hemp2, h.2.2.2.2.1 [] hemp3, h.2.2.2.2.2 [] hemp4⟩

/-! ## C7: declaration lines and dot-anchored rewriting -/

theorem callsP1_no_anchor (pv s : Chars) (h : anchorRA.isPrefixOf s = false) :
    FixRedactareaCalls.callsP1 pv s = none := by
  unfold FixRedactareaCalls.callsP1
  rw [show parseLit anchorRA s = none by simp [parseLit, h]]
  rfl

theorem callsP2_no_anchor (pv s : Chars) (h : anchorRA.isPrefixOf s = false) :
    FixRedactareaCalls.callsP2 pv s = none := by
  unfold FixRedactareaCalls.callsP2
  rw [show parseLit anchorRA s = none by simp [parseLit, h]]
  rfl

theorem phase2Matcher_no_anchor (pv s : Chars) (h : anchorRA.isPrefixOf s = false) :
    FixRedactareaPhase2.phase2Matcher pv s = none := by
  unfold FixRedactareaPhase2.phase2Matcher
  rw [show parseLit anchorRA s = none by simp [parseLit, h]]
  rfl

theorem p3Group1_no_anchor (s : Chars) (h : anchorRA.isPrefixOf s = false) :
    FixRedactareaPhase3.p3Group1 s = none := by
  unfold FixRedactareaPhase3.p3Group1
  rw [show parseLit anchorRA s = none by simp [parseLit, h]]
  rfl

theorem p3m1_no_anchor (pv s : Chars) (h : anchorRA.isPrefixOf s = false) :
    FixRedactareaPhase3.p3m1 pv s = none := by
  unfold FixRedactareaPhase3.p3m1
  rw [p3Group1_no_anchor s h]
  rfl

theorem p3m2_no_anchor (pv s : Chars) (h : anchorRA.isPrefixOf s = false) :
    FixRedactareaPhase3.p3m2 pv s = none := by
  unfold FixRedactareaPhase3.p3m2
  rw [p3Group1_no_anchor s h]
  rfl

theorem p3m3_no_anchor (pv s : Chars) (h : anchorRA.isPrefixOf s = false) :
    FixRedactareaPhase3.p3m3 pv s = none := by
  unfold FixRedactareaPhase3.p3m3
  rw [p3Group1_no_anchor s h]
  rfl

theorem p4t1_no_anchor (s : Chars) (h : anchorRA.isPrefixOf s = false) :
    FixRedactareaPhase4.p4t1 s = none := by
  unfold FixRedactareaPhase4.p4t1
  rw [show parseLit anchorRA s = none by simp [parseLit, h]]
  rfl

theorem p4t2_no_anchor (s : Chars) (h : anchorRA.isPrefixOf s = false) :
    FixRedactareaPhase4.p4t2 s = none := by
  unfold FixRedactareaPhase4.p4t2
  rw [show parseLit anchorRA s = none by simp [parseLit, h]]
  rfl

theorem p4t3_no_anchor (s : Chars) (h : anchorRA.isPrefixOf s = false) :
    FixRedactareaPhase4.p4t3 s = none := by
  unfold FixRedactareaPhase4.p4t3
  rw [show parseLit anchorRA s = none by simp [parseLit, h]]
  rfl

theorem p4t4_no_anchor (s : Chars) (h : anchorRA.isPrefixOf s = false) :
    FixRedactareaPhase4.p4t4 s = none := by
  unfold FixRedactareaPhase4.p4t4
  rw [show parseLit anchorRA s = none by simp [parseLit, h]]
  rfl

theorem p4t5_no_anchor (s : Chars)
    (h : (( ".RedactMatches(".toList : Chars)).isPrefixOf s = false) :
    FixRedactareaPhase4.p4t5 s = none := by
  unfold FixRedactareaPhase4.p4t5
  rw [show parseLit ( ".RedactMatches(".toList) s = none by
    unfold parseLit; rw [h]; rfl]
  rfl

theorem finalTail1_no_anchor (s : Chars) (h : anchorRA.isPrefixOf s = false) :
    FixAllRedactareaFinal.finalTail1 s = none := by
  unfold FixAllRedactareaFinal.finalTail1
  rw [show parseLit anchorRA s = none by unfold parseLit; rw [h]; rfl]
  rfl

theorem finalTail2_no_anchor (s : Chars) (h : anchorRA.isPrefixOf s = false) :
    FixAllRedactareaFinal.finalTail2 s = none := by
  unfold FixAllRedactareaFinal.finalTail2
  rw [show parseLit anchorRA s = none by unfold parseLit; rw [h]; rfl]
  rfl

theorem finalTail3_no_anchor (s : Chars) (h : anchorRA.isPrefixOf s = false) :
    FixAllRedactareaFinal.finalTail3 s = none := by
  unfold FixAllRedactareaFinal.finalTail3
  rw [show parseLit anchorRA s = none by unfold parseLit; rw [h]; rfl]
  rfl

/-- C7 counterexample: the claim says lines containing `void RedactArea` are
left byte-for-byte unchanged by every patcher, but only the final fixer has
that guard; phase 4's per-line transformation patches a declaration-marked
line that also carries a matching call. -/
theorem c7_counterexample :
    containsSub ( "void RedactArea x.RedactArea(a, b, c, renderDpi: 7);".toList)
      ( "void RedactArea".toList) = true
    ∧ FixRedactareaPhase4.fix_content
        ( "void RedactArea x.RedactArea(a, b, c, renderDpi: 7);".toList)
      ≠ "void RedactArea x.RedactArea(a, b, c, renderDpi: 7);".toList := by
  constructor
  · decide
  · decide

/-- C7 (amended): the guards the claim describes hold in the final fixer,
whose per-line transformation leaves every line containing `void RedactArea`
or `//` unchanged with zero fixes; and every patcher's rewriting is anchored
at a dot-prefixed occurrence: content (or a line) without the substring
`.RedactArea(` — and, for phase 4, without `.RedactMatches(` — is left
unchanged by the final fixer's line transformation (whose outer guard tests
the un-dotted `RedactArea(`, so its three patterns' `.RedactArea(` anchors
carry this case), the calls fixer, the phase-2 substitution and match count,
the phase-3 substitutions, and the phase-4 line transformation. -/
theorem c7_call_site_guards :
    (∀ pv line : Chars, containsSub line ( "void RedactArea".toList) = true →
        FixAllRedactareaFinal.fix_line pv line = (line, 0))
    ∧ (∀ pv line : Chars, containsSub line ( "//".toList) = true →
        FixAllRedactareaFinal.fix_line pv line = (line, 0))
    ∧ (∀ pv line : Chars, containsSub line anchorRA = false →
        FixAllRedactareaFinal.fix_line pv line = (line, 0))
    ∧ (∀ pv content : Chars, containsSub content anchorRA = false →
        FixRedactareaCalls.fix_core pv content = (content, 0))
    ∧ (∀ pv content : Chars, containsSub content anchorRA = false →
        scanSub (FixRedactareaPhase2.phase2Matcher pv) content = content
        ∧ scanCount (FixRedactareaPhase2.phase2Matcher pv) content = 0)
    ∧ (∀ content : Chars, containsSub content anchorRA = false →
        FixRedactareaPhase3.fix_content content = content)
    ∧ (∀ pv line : Chars, containsSub line anchorRA = false →
        containsSub line ( ".RedactMatches(".toList) = false →
        FixRedactareaPhase4.fix_line pv line = line) := by
  refine ⟨?_, ?_, ?_, ?_, ?_, ?_, ?_⟩
  · intro pv line h
    have hc : (containsSub line ( "RedactArea(".toList)
        && !containsSub line ( "void RedactArea".toList)
        && !containsSub line ( "//".toList)) = false := by
      rw [h]; simp
    unfold FixAllRedactareaFinal.fix_line
    rw [hc]
    rfl
  · intro pv line h
    have hc : (containsSub line ( "RedactArea(".toList)
        && !containsSub line ( "void RedactArea".toList)
        && !containsSub line ( "//".toList)) = false := by
      rw [h]; simp
    unfold FixAllRedactareaFinal.fix_line
    rw [hc]
    rfl
  · intro pv line h
    have hp := (not_containsSub_iff line anchorRA).mp h
    have g1 : searchGreedy FixAllRedactareaFinal.finalTail1 line = none :=
      searchGreedy_none _ _ (fun i _ => finalTail1_no_anchor _ (hp i))
        (finalTail1_no_anchor [] (by decide))
    have g2 : searchGreedy FixAllRedactareaFinal.finalTail2 line = none :=
      searchGreedy_none _ _ (fun i _ => finalTail2_no_anchor _ (hp i))
        (finalTail2_no_anchor [] (by decide))
    have g3 : searchGreedy FixAllRedactareaFinal.finalTail3 line = none :=
      searchGreedy_none _ _ (fun i _ => finalTail3_no_anchor _ (hp i))
        (finalTail3_no_anchor [] (by decide))
    cases hB : (containsSub line ( "RedactArea(".toList)
        && !containsSub line ( "void RedactArea".toList)
        && !containsSub line ( "//".toList)) with
    | false =>
        simp only [FixAllRedactareaFinal.fix_line]
        rw [hB]
        simp
    | true =>
        cases hskip : (containsSub line (( ", ".toList ++ pv) ++ ",".toList)
            || containsSub line (( ", ".toList ++ pv) ++ ")".toList)) with
        | true =>
            simp only [FixAllRedactareaFinal.fix_line]
            rw [hB, hskip]
            simp
        | false =>
            simp only [FixAllRedactareaFinal.fix_line]
            rw [hB, hskip, g1, g2, g3]
            rfl
  · intro pv content h
    have hp := (not_containsSub_iff content anchorRA).mp h
    have h1 : scanCount (FixRedactareaCalls.callsP1 pv) content = 0 :=
      scanCount_zero _ _ (fun i _ => callsP1_no_anchor pv _ (hp i))
    have h2 : scanCount (FixRedactareaCalls.callsP2 pv) content = 0 :=
      scanCount_zero _ _ (fun i _ => callsP2_no_anchor pv _ (hp i))
    simp [FixRedactareaCalls.fix_core, FixRedactareaCalls.apply_pattern, h1, h2]
  · intro pv content h
    have hp := (not_containsSub_iff content anchorRA).mp h
    exact ⟨scanSub_id _ _ (fun i _ => phase2Matcher_no_anchor pv _ (hp i)),
      scanCount_zero _ _ (fun i _ => phase2Matcher_no_anchor pv _ (hp i))⟩
  · intro content h
    have hp := (not_containsSub_iff content anchorRA).mp h
    have e1 : scanSub (FixRedactareaPhase3.p3m1 (FixRedactareaPhase3.find_path_var content))
        content = content :=
      scanSub_id _ _ (fun i _ => p3m1_no_anchor _ _ (hp i))
    have e2 : scanSub (FixRedactareaPhase3.p3m2 (FixRedactareaPhase3.find_path_var content))
        content = content :=
      scanSub_id _ _ (fun i _ => p3m2_no_anchor _ _ (hp i))
    have e3 : scanSub (FixRedactareaPhase3.p3m3 (FixRedactareaPhase3.find_path_var content))
        content = content :=
      scanSub_id _ _ (fun i _ => p3m3_no_anchor _ _ (hp i))
    simp only [FixRedactareaPhase3.fix_content]
    rw [e1, e2, e3]
  · intro pv line h hm
    have hp := (not_containsSub_iff line anchorRA).mp h
    have hpm := (not_containsSub_iff line ( ".RedactMatches(".toList)).mp hm
    have g1 : searchGreedy FixRedactareaPhase4.p4t1 line = none :=
      searchGreedy_none _ _ (fun i _ => p4t1_no_anchor _ (hp i))
        (p4t1_no_anchor [] (by decide))
    have g2 : searchGreedy FixRedactareaPhase4.p4t2 line = none :=
      searchGreedy_none _ _ (fun i _ => p4t2_no_anchor _ (hp i))
        (p4t2_no_anchor [] (by decide))
    have g3 : searchGreedy FixRedactareaPhase4.p4t3 line = none :=
      searchGreedy_none _ _ (fun i _ => p4t3_no_anchor _ (hp i))
        (p4t3_no_anchor [] (by decide))
    have g4 : searchGreedy FixRedactareaPhase4.p4t4 line = none :=
      searchGreedy_none _ _ (fun i _ => p4t4_no_anchor _ (hp i))
        (p4t4_no_anchor [] (by decide))
    have g5 : searchGreedy FixRedactareaPhase4.p4t5 line = none :=
      searchGreedy_none _ _ (fun i _ => p4t5_no_anchor _ (hpm i))
        (p4t5_no_anchor [] (by decide))
    simp [FixRedactareaPhase4.fix_line, g1, g2, g3, g4, g5]

/-- C7 witness: the amended guards applied at concrete lines. -/
theorem c7_call_site_guards_witness :
    containsSub ( "void RedactArea(Page p);".toList) ( "void RedactArea".toList) = true
    ∧ FixAllRedactareaFinal.fix_line ( "pdfPath".toList) ( "void RedactArea(Page p);".toList)
      = ( "void RedactArea(Page p);".toList, 0)
    ∧ containsSub ( "// a comment".toList) ( "//".toList) = true
    ∧ FixAllRedactareaFinal.fix_line ( "pdfPath".toList) ( "// a comment".toList)
      = ( "// a comment".toList, 0)
    ∧ containsSub ( "int x = 1;".toList) anchorRA = false
    ∧ FixAllRedactareaFinal.fix_line ( "pdfPath".toList) ( "int x = 1;".toList)
      = ( "int x = 1;".toList, 0)
    ∧ FixRedactareaCalls.fix_core ( "pdfPath".toList) ( "int x = 1;".toList)
      = ( "int x = 1;".toList, 0)
    ∧ scanSub (FixRedactareaPhase2.phase2Matcher ( "pdfPath".toList)) ( "int x = 1;".toList)
      = "int x = 1;".toList
    ∧ FixRedactareaPhase3.fix_content ( "int x = 1;".toList) = "int x = 1;".toList
    ∧ containsSub ( "int x = 1;".toList) ( ".RedactMatches(".toList) = false
    ∧ FixRedactareaPhase4.fix_line ( "testPdf".toList) ( "int x = 1;".toList)
      = "int x = 1;".toList := by
  have h := c7_call_site_guards
  exact ⟨by decide,
    h.1 ( "pdfPath".toList) ( "void RedactArea(Page p);".toList) (by decide),
    by decide,
    h.2.1 ( "pdfPath".toList) ( "// a comment".toList) (by decide),
    by decide,
    h.2.2.1 ( "pdfPath".toList) ( "int x = 1;".toList) (by decide),
    h.2.2.2.1 ( "pdfPath".toList) ( "int x = 1;".toList) (by decide),
    (h.2.2.2.2.1 ( "pdfPath".toList) ( "int x = 1;".toList) (by decide)).1,
    h.2.2.2.2.2.1 ( "int x = 1;".toList) (by decide),
    by decide,
    h.2.2.2.2.2.2 ( "testPdf".toList) ( "int x = 1;".toList) (by decide) (by decide)⟩

/-! ## C5: file selection from the build errors in phase 2 -/

theorem dedupStep_mem (g : Chars → Option Chars) (acc : List Chars) (l x : Chars) :
    (x ∈ match g l with
      | some f => if f ∈ acc then acc else acc ++ [f]
      | none => acc) ↔ x ∈ acc ∨ g l = some x := by
  cases hgl : g l with
  | none => simp
  | some f =>
      show (x ∈ if f ∈ acc then acc else acc ++ [f]) ↔ x ∈ acc ∨ some f = some x
      by_cases hf : f ∈ acc
      · rw [if_pos hf]
        constructor
        · exact Or.inl
        · rintro (h | h)
          · exact h
          · rw [Option.some_inj] at h
            rw [← h]
            exact hf
      · rw [if_neg hf]
        simp only [List.mem_append, List.mem_singleton, Option.some_inj]
        constructor
        · rintro (h | h)
          · exact Or.inl h
          · exact Or.inr h.symm
        · rintro (h | h)
          · exact Or.inl h
          · exact Or.inr h.symm

theorem dedupFold_mem (g : Chars → Option Chars) (L : List Chars) :
    ∀ acc x, (x ∈ L.foldl (fun acc l =>
        match g l with
        | some f => if f ∈ acc then acc else acc ++ [f]
        | none => acc) acc) ↔ x ∈ acc ∨ ∃ l ∈ L, g l = some x := by
  induction L with
  | nil => intro acc x; simp
  | cons l L ih =>
      intro acc x
      rw [List.foldl_cons, ih, dedupStep_mem]
      simp only [List.mem_cons]
      constructor
      · rintro (⟨h | h⟩ | ⟨l', hl', hg⟩)
        · exact Or.inl h
        · exact Or.inr ⟨l, Or.inl rfl, h⟩
        · exact Or.inr ⟨l', Or.inr hl', hg⟩
      · rintro (h | ⟨l', hl' | hl', hg⟩)
        · exact Or.inl (Or.inl h)
        · exact Or.inl (Or.inr (hl' ▸ hg))
        · exact Or.inr ⟨l', hl', hg⟩

theorem dedupFold_nodup (g : Chars → Option Chars) (L : List Chars) :
    ∀ acc : List Chars, acc.Nodup → (L.foldl (fun acc l =>
        match g l with
        | some f => if f ∈ acc then acc else acc ++ [f]
        | none => acc) acc).Nodup := by
  induction L with
  | nil => intro acc h; exact h
  | cons l L ih =>
      intro acc h
      rw [List.foldl_cons]
      apply ih
      cases hgl : g l with
      | none => exact h
      | some f =>
          show (if f ∈ acc then acc else acc ++ [f]).Nodup
          by_cases hf : f ∈ acc
          · simpa [hf] using h
          · rw [if_neg hf, List.nodup_append]
            exact ⟨h, List.nodup_singleton f, by
              intro a ha hb
              rw [List.mem_singleton] at hb
              exact hf (hb ▸ ha)⟩

theorem extractCsTail_some (s f : Chars)
    (h : FixRedactareaPhase2.extractCsTail s = some f) :
    ( ".cs".toList : Chars).isSuffixOf f = true ∧ 4 ≤ f.length := by
  unfold FixRedactareaPhase2.extractCsTail at h
  dsimp only at h
  split at h
  · split at h
    · split at h
      · exact absurd h (by simp)
      · split at h
        · split at h
          · exact absurd h (by simp)
          · split at h
            · split at h
              · rw [Option.some_inj] at h
                rename_i hcond
                rw [Bool.and_eq_true, decide_eq_true_eq] at hcond
                rw [← h]
                exact ⟨hcond.1, hcond.2⟩
              · exact absurd h (by simp)
            · exact absurd h (by simp)
        · exact absurd h (by simp)
    · exact absurd h (by simp)
  · exact absurd h (by simp)

/-- C5: phase 2 processes exactly the `.cs` files named in build-error lines.
A file name is in the processing set exactly when some stderr line holding
both `error CS7036` and `RedactArea` captures it under the
`([^:]+\.cs)\(\d+,\d+\):` pattern; the set holds no duplicates (each file is
patched once), and every member ends in `.cs`. -/
theorem c5_error_file_selection :
    (∀ stderr f : Chars,
        f ∈ FixRedactareaPhase2.error_files stderr ↔
          ∃ l ∈ splitLines stderr,
            containsSub l ( "error CS7036".toList) = true
            ∧ containsSub l ( "RedactArea".toList) = true
            ∧ searchFirst FixRedactareaPhase2.extractCsTail l = some f)
    ∧ (∀ stderr : Chars, (FixRedactareaPhase2.error_files stderr).Nodup)
    ∧ (∀ stderr f : Chars, f ∈ FixRedactareaPhase2.error_files stderr →
        ( ".cs".toList : Chars).isSuffixOf f = true) := by
  have hmem : ∀ stderr f : Chars,
      f ∈ FixRedactareaPhase2.error_files stderr ↔
        ∃ l ∈ splitLines stderr,
          containsSub l ( "error CS7036".toList) = true
          ∧ containsSub l ( "RedactArea".toList) = true
          ∧ searchFirst FixRedactareaPhase2.extractCsTail l = some f := by
    intro stderr f
    have base := dedupFold_mem
      (fun l => searchFirst FixRedactareaPhase2.extractCsTail l)
      ((splitLines stderr).filter (fun l =>
        containsSub l ( "error CS7036".toList)
          && containsSub l ( "RedactArea".toList))) [] f
    constructor
    · intro hf
      rcases base.mp hf with h | ⟨l, hl, hg⟩
      · exact absurd h (List.not_mem_nil f)
      · rw [List.mem_filter, Bool.and_eq_true] at hl
        exact ⟨l, hl.1, hl.2.1, hl.2.2, hg⟩
    · rintro ⟨l, hl, h1, h2, hg⟩
      refine base.mpr (Or.inr ⟨l, List.mem_filter.mpr ⟨hl, ?_⟩, hg⟩)
      rw [Bool.and_eq_true]
      exact ⟨h1, h2⟩
  refine ⟨hmem, ?_, ?_⟩
  · intro stderr
    exact dedupFold_nodup
      (fun l => searchFirst FixRedactareaPhase2.extractCsTail l)
      ((splitLines stderr).filter (fun l =>
        containsSub l ( "error CS7036".toList)
          && containsSub l ( "RedactArea".toList))) [] List.nodup_nil
  · intro stderr f hf
    rcases (hmem stderr f).mp hf with ⟨l, -, -, -, hg⟩
    obtain ⟨u, hu⟩ := searchFirst_some_ex _ l f hg
    exact (extractCsTail_some u f hu).1

/-- C5 witness: the selection theorem applied to a concrete stderr with one
matching error line. -/
theorem c5_error_file_selection_witness :
    ( "W/A.cs".toList ∈ FixRedactareaPhase2.error_files
      ( "W/A.cs(3,14): error CS7036: no argument for RedactArea".toList))
    ∧ ( ".cs".toList : Chars).isSuffixOf ( "W/A.cs".toList) = true := by
  have hin : ( "W/A.cs".toList) ∈ FixRedactareaPhase2.error_files
      ( "W/A.cs(3,14): error CS7036: no argument for RedactArea".toList) := by
    decide
  exact ⟨hin, c5_error_file_selection.2.2
    ( "W/A.cs(3,14): error CS7036: no argument for RedactArea".toList)
    ( "W/A.cs".toList) hin⟩

/-! ## C9: write decisions, backups, and difference of the written content -/

theorem countOccur_cons_single (t : Chars) (c d : Char) :
    countOccur (d :: t) [c] = (if c = d then 1 else 0) + countOccur t [c] := by
  rw [countOccur]
  by_cases h : c = d
  · rw [if_pos h]
    rw [show ([c].isPrefixOf (d :: t)) = true by
      rw [h]; simp [List.isPrefixOf]]
    simp
  · rw [if_neg h]
    rw [show ([c].isPrefixOf (d :: t)) = false by
      simp [List.isPrefixOf]; exact fun hc => absurd hc h]
    simp

theorem countOccur_append_single (X Y : Chars) (c : Char) :
    countOccur (X ++ Y) [c] = countOccur X [c] + countOccur Y [c] := by
  induction X with
  | nil => simp [countOccur]
  | cons d X ih =>
      rw [List.cons_append, countOccur_cons_single, countOccur_cons_single, ih]
      omega

theorem countOccur_zero_of_not_mem (t : Chars) (c : Char) (h : c ∉ t) :
    countOccur t [c] = 0 := by
  induction t with
  | nil => simp [countOccur]
  | cons d t ih =>
      rw [countOccur_cons_single]
      rw [List.mem_cons] at h
      push_neg at h
      rw [if_neg h.1, ih h.2]

theorem containsSub_single_of_mem (t : Chars) (c : Char) (h : c ∈ t) :
    containsSub t [c] = true := by
  induction t with
  | nil => exact absurd h (List.not_mem_nil c)
  | cons d t ih =>
      rw [containsSub, Bool.or_eq_true]
      rw [List.mem_cons] at h
      rcases h with h | h
      · exact Or.inl (by simp [List.isPrefixOf, h])
      · exact Or.inr (ih h)

theorem not_mem_of_countOccur_zero (t : Chars) (c : Char)
    (h : countOccur t [c] = 0) : c ∉ t := by
  intro hc
  have := countOccur_singleton_pos t c (containsSub_single_of_mem t c hc)
  omega

theorem scanCount_cons_some_big {m : Chars → Option (Chars × Chars)} {c : Char}
    {s r rest : Chars} (h : m (c :: s) = some (r, rest))
    (hl : ¬ rest.length < s.length + 1) : scanCount m (c :: s) = 1 := by
  rw [scanCount, h]
  simp [hl]

theorem scanSub_of_scanCount_zero (m : Chars → Option (Chars × Chars)) :
    ∀ s : Chars, scanCount m s = 0 → scanSub m s = s := by
  intro s
  induction s with
  | nil => intro h; exact scanSub_nil m
  | cons c s ih =>
      intro h
      cases hm : m (c :: s) with
      | some p =>
          obtain ⟨r, rest⟩ := p
          by_cases hg : rest.length < s.length + 1
          · rw [scanCount_cons_some hm hg] at h
            omega
          · rw [scanCount_cons_some_big hm hg] at h
            omega
      | none =>
          rw [scanCount_cons_none hm] at h
          rw [scanSub_cons_none hm, ih h]

theorem joinNl_count (ls : List Chars) (h : ls ≠ []) :
    countOccur (joinNl ls) ['\n']
      = (ls.length - 1) + (ls.map (fun l => countOccur l ['\n'])).sum := by
  induction ls with
  | nil => exact absurd rfl h
  | cons l ls ih =>
      cases ls with
      | nil => simp [joinNl]
      | cons l2 ls2 =>
          rw [show joinNl (l :: l2 :: ls2) = l ++ '\n' :: joinNl (l2 :: ls2) from rfl]
          rw [countOccur_append_single, countOccur_cons_single]
          rw [ih (by simp)]
          have hone : (if ('\n' : Char) = '\n' then (1 : Nat) else 0) = 1 := if_pos rfl
          rw [hone]
          simp only [List.length_cons, List.map_cons, List.sum_cons]
          omega

theorem clean_sep_inj (a b u v : Chars) (ha : '\n' ∉ a) (hb : '\n' ∉ b)
    (h : a ++ '\n' :: u = b ++ '\n' :: v) : a = b ∧ u = v := by
  induction a generalizing b with
  | nil =>
      cases b with
      | nil => simpa using h
      | cons y b' =>
          rw [List.nil_append, List.cons_append, List.cons.injEq] at h
          exfalso
          apply hb
          rw [← h.1]
          exact List.mem_cons_self _ _
  | cons x a' ih =>
      cases b with
      | nil =>
          rw [List.cons_append, List.nil_append, List.cons.injEq] at h
          exfalso
          apply ha
          rw [h.1]
          exact List.mem_cons_self _ _
      | cons y b' =>
          rw [List.cons_append, List.cons_append, List.cons.injEq] at h
          obtain ⟨h1, h2⟩ := h
          obtain ⟨h3, h4⟩ := ih b' (fun hm => ha (List.mem_cons_of_mem x hm))
            (fun hm => hb (List.mem_cons_of_mem y hm)) h2
          exact ⟨by rw [h1, h3], h4⟩

theorem joinNl_inj_clean : ∀ ls1 ls2 : List Chars,
    (∀ l ∈ ls1, '\n' ∉ l) → (∀ l ∈ ls2, '\n' ∉ l) →
    ls1.length = ls2.length → joinNl ls1 = joinNl ls2 → ls1 = ls2 := by
  intro ls1
  induction ls1 with
  | nil =>
      intro ls2 _ _ hlen _
      cases ls2 with
      | nil => rfl
      | cons b ls2 => simp at hlen
  | cons a ls1 ih =>
      intro ls2 h1 h2 hlen hj
      cases ls2 with
      | nil => simp at hlen
      | cons b ls2 =>
          cases ls1 with
          | nil =>
              cases ls2 with
              | nil =>
                  rw [show joinNl [a] = a from rfl, show joinNl [b] = b from rfl] at hj
                  rw [hj]
              | cons c ls2 => simp at hlen
          | cons a2 ls1' =>
              cases ls2 with
              | nil => simp at hlen
              | cons b2 ls2' =>
                  rw [show joinNl (a :: a2 :: ls1') = a ++ '\n' :: joinNl (a2 :: ls1')
                      from rfl,
                    show joinNl (b :: b2 :: ls2') = b ++ '\n' :: joinNl (b2 :: ls2')
                      from rfl] at hj
                  obtain ⟨hab, hrest⟩ := clean_sep_inj _ _ _ _
                    (h1 a (List.mem_cons_self a _)) (h2 b (List.mem_cons_self b _)) hj
                  have := ih (b2 :: ls2')
                    (fun l hl => h1 l (List.mem_cons_of_mem a hl))
                    (fun l hl => h2 l (List.mem_cons_of_mem b hl))
                    (by simpa using hlen) hrest
                  rw [hab, this]

theorem contains_mid_paren (X pv Y : Chars) :
    containsSub (X ++ ", ".toList ++ pv ++ ")".toList ++ Y)
      (( ", ".toList ++ pv) ++ ")".toList) = true := by
  have h := containsSub_occ X (( ", ".toList ++ pv) ++ ")".toList) Y
  simpa [List.append_assoc] using h

theorem fix_line_fst_eq (pv line : Chars)
    (h : (FixAllRedactareaFinal.fix_line pv line).1 = line) :
    FixAllRedactareaFinal.fix_line pv line = (line, 0) := by
  cases hB : (containsSub line ( "RedactArea(".toList)
      && !containsSub line ( "void RedactArea".toList)
      && !containsSub line ( "//".toList)) with
  | false =>
      simp only [FixAllRedactareaFinal.fix_line]
      rw [hB]
      simp
  | true =>
      cases hskip : (containsSub line (( ", ".toList ++ pv) ++ ",".toList)
          || containsSub line (( ", ".toList ++ pv) ++ ")".toList)) with
      | true =>
          simp only [FixAllRedactareaFinal.fix_line]
          rw [hB, hskip]
          simp
      | false =>
          have hsk1 : containsSub line (( ", ".toList ++ pv) ++ ",".toList) = false := by
            cases hx : containsSub line (( ", ".toList ++ pv) ++ ",".toList) with
            | false => rfl
            | true => rw [hx] at hskip; simp at hskip
          have hsk2 : containsSub line (( ", ".toList ++ pv) ++ ")".toList) = false := by
            cases hx : containsSub line (( ", ".toList ++ pv) ++ ")".toList) with
            | false => rfl
            | true => rw [hx] at hskip; simp at hskip
          rcases hm1 : searchGreedy FixAllRedactareaFinal.finalTail1 line with _ |
            ⟨front, a1, a2, d, tl⟩
          · rcases hm2 : searchGreedy FixAllRedactareaFinal.finalTail2 line with _ |
              ⟨front, a1, a2, d, tl⟩
            · rcases hm3 : searchGreedy FixAllRedactareaFinal.finalTail3 line with _ |
                ⟨front, a1, a2, tl⟩
              · simp only [FixAllRedactareaFinal.fix_line]
                rw [hB, hskip, hm1, hm2, hm3]
                rfl
              · have hccf : (containsSub a2 ( ",".toList)
                    && decide (countOccur a2 ( ",".toList) = 0)) = false := by
                  cases hcb : containsSub a2 ( ",".toList) with
                  | false => simp
                  | true =>
                      have hpos := countOccur_singleton_pos a2 ',' hcb
                      simp only [Bool.true_and, decide_eq_false_iff_not]
                      intro h0
                      have h0' : 0 < countOccur a2 ( ",".toList) := hpos
                      omega
                simp only [FixAllRedactareaFinal.fix_line]
                rw [hB, hskip, hm1, hm2, hm3]
                show (if (containsSub a2 ( ",".toList)
                    && decide (countOccur a2 ( ",".toList) = 0)) = true
                  then (front ++ ".RedactArea(".toList ++ a1 ++ ", ".toList ++ a2
                    ++ ", ".toList ++ pv ++ ");".toList ++ tl, 1)
                  else (line, 0)) = (line, 0)
                rw [hccf]
                rfl
            · exfalso
              have h1 : (FixAllRedactareaFinal.fix_line pv line).1 =
                  front ++ ".RedactArea(".toList ++ a1 ++ ", ".toList ++ a2 ++ ", ".toList
                    ++ pv ++ ", ".toList ++ d ++ ")".toList ++ tl := by
                simp only [FixAllRedactareaFinal.fix_line]
                rw [hB, hskip, hm1, hm2]
                rfl
              have hcm : containsSub line (( ", ".toList ++ pv) ++ ",".toList) = true := by
                rw [← h, h1]
                have hx := contains_mid
                  (front ++ ".RedactArea(".toList ++ a1 ++ ", ".toList ++ a2) pv
                  ( " ".toList ++ d ++ ")".toList ++ tl)
                have hsp : ( ", ".toList : Chars) = ",".toList ++ " ".toList := rfl
                rw [hsp]
                simpa [List.append_assoc] using hx
              rw [hsk1] at hcm
              exact Bool.false_ne_true hcm
          · exfalso
            have h1 : (FixAllRedactareaFinal.fix_line pv line).1 =
                front ++ ".RedactArea(".toList ++ a1 ++ ", ".toList ++ a2 ++ ", ".toList
                  ++ pv ++ ", renderDpi: ".toList ++ d ++ ")".toList ++ tl := by
              simp only [FixAllRedactareaFinal.fix_line]
              rw [hB, hskip, hm1]
              rfl
            have hcm : containsSub line (( ", ".toList ++ pv) ++ ",".toList) = true := by
              rw [← h, h1]
              have hx := contains_mid
                (front ++ ".RedactArea(".toList ++ a1 ++ ", ".toList ++ a2) pv
                ( " renderDpi: ".toList ++ d ++ ")".toList ++ tl)
              have hsp : ( ", renderDpi: ".toList : Chars)
                  = ",".toList ++ " renderDpi: ".toList := rfl
              rw [hsp]
              simpa [List.append_assoc] using hx
            rw [hsk1] at hcm
            exact Bool.false_ne_true hcm

theorem map_eq_self_mem (f : Chars → Chars) : ∀ l : List Chars,
    l.map f = l → ∀ x ∈ l, f x = x := by
  intro l
  induction l with
  | nil => intro _ x hx; exact absurd hx (List.not_mem_nil x)
  | cons a l ih =>
      intro h x hx
      rw [List.map_cons, List.cons.injEq] at h
      rcases List.mem_cons.mp hx with hx | hx
      · rw [hx, h.1]
      · exact ih h.2 x hx

theorem fix_file_fst_eq (content : Chars)
    (h : (FixAllRedactareaFinal.fix_file content).1 = content) :
    (FixAllRedactareaFinal.fix_file content).2 = 0 := by
  simp only [FixAllRedactareaFinal.fix_file] at h ⊢
  have hclean : ∀ l ∈ splitLines content, '\n' ∉ l := splitLines_no_nl content
  have hne := splitLines_ne_nil content
  have hjc : joinNl (splitLines content) = content := joinNl_splitLines content
  have hlen : ((splitLines content).map
      (fun l => (FixAllRedactareaFinal.fix_line
        (FixAllRedactareaFinal.find_path_variables content) l).1)).length
      = (splitLines content).length := List.length_map _ _
  have hmapne : ((splitLines content).map
      (fun l => (FixAllRedactareaFinal.fix_line
        (FixAllRedactareaFinal.find_path_variables content) l).1)) ≠ [] := by
    intro hx
    rw [hx] at hlen
    exact hne (List.length_eq_zero.mp hlen.symm)
  have hcount1 := joinNl_count _ hmapne
  have hcount2 := joinNl_count _ hne
  have hsum0 : ((splitLines content).map (fun l => countOccur l ['\n'])).sum = 0 := by
    apply List.sum_eq_zero
    intro x hx
    obtain ⟨l, hl, hlx⟩ := List.mem_map.mp hx
    rw [← hlx]
    exact countOccur_zero_of_not_mem _ _ (hclean l hl)
  have heq : (((splitLines content).map
        (fun l => (FixAllRedactareaFinal.fix_line
          (FixAllRedactareaFinal.find_path_variables content) l).1)).map
        (fun l => countOccur l ['\n'])).sum
      = ((splitLines content).map (fun l => countOccur l ['\n'])).sum := by
    have := hcount1.symm.trans (by rw [h, hjc] : countOccur (joinNl
      ((splitLines content).map (fun l => (FixAllRedactareaFinal.fix_line
        (FixAllRedactareaFinal.find_path_variables content) l).1))) ['\n']
      = countOccur (joinNl (splitLines content)) ['\n'])
    rw [hcount2] at this
    rw [hlen] at this
    omega
  have hmapsum0 : (((splitLines content).map
      (fun l => (FixAllRedactareaFinal.fix_line
        (FixAllRedactareaFinal.find_path_variables content) l).1)).map
      (fun l => countOccur l ['\n'])).sum = 0 := by
    rw [heq, hsum0]
  have hmapclean : ∀ l ∈ (splitLines content).map
      (fun l => (FixAllRedactareaFinal.fix_line
        (FixAllRedactareaFinal.find_path_variables content) l).1), '\n' ∉ l := by
    intro l hl
    apply not_mem_of_countOccur_zero
    exact (List.sum_eq_zero_iff.mp hmapsum0) (countOccur l ['\n'])
      (List.mem_map_of_mem _ hl)
  have hmapeq : (splitLines content).map
      (fun l => (FixAllRedactareaFinal.fix_line
        (FixAllRedactareaFinal.find_path_variables content) l).1)
      = splitLines content := by
    apply joinNl_inj_clean _ _ hmapclean hclean hlen
    rw [h, hjc]
  have hlines : ∀ l ∈ splitLines content,
      (FixAllRedactareaFinal.fix_line
        (FixAllRedactareaFinal.find_path_variables content) l).1 = l :=
    map_eq_self_mem _ _ hmapeq
  apply List.sum_eq_zero
  intro x hx
  obtain ⟨l, hl, hlx⟩ := List.mem_map.mp hx
  rw [← hlx]
  rw [fix_line_fst_eq _ _ (hlines l hl)]

theorem apply_pattern_zero_snd (m : Chars → Option (Chars × Chars)) (content : Chars)
    (h : (FixRedactareaCalls.apply_pattern m content).2 = 0) :
    (FixRedactareaCalls.apply_pattern m content).1 = content := by
  simp only [FixRedactareaCalls.apply_pattern] at h ⊢
  by_cases h1 : 0 < scanCount m content
  · rw [if_pos h1] at h ⊢
    by_cases h2 : 0 < scanCount m content - scanCount m (scanSub m content)
    · rw [if_pos h2] at h
      simp only at h
      omega
    · rw [if_neg h2]
  · rw [if_neg h1]

theorem apply_pattern_no_match (m : Chars → Option (Chars × Chars)) (content : Chars)
    (h : scanCount m content = 0) :
    FixRedactareaCalls.apply_pattern m content = (content, 0) := by
  simp only [FixRedactareaCalls.apply_pattern]
  rw [h]
  simp

theorem fix_core_snd_zero (pv content : Chars)
    (h : (FixRedactareaCalls.fix_core pv content).2 = 0) :
    (FixRedactareaCalls.fix_core pv content).1 = content := by
  simp only [FixRedactareaCalls.fix_core] at h ⊢
  have h1 : (FixRedactareaCalls.apply_pattern (FixRedactareaCalls.callsP1 pv) content).2
      = 0 := by omega
  have e1 := apply_pattern_zero_snd _ _ h1
  rw [e1] at h ⊢
  have h2 : (FixRedactareaCalls.apply_pattern (FixRedactareaCalls.callsP2 pv) content).2
      = 0 := by omega
  exact apply_pattern_zero_snd _ _ h2

theorem parseLit_decomp (lit s r : Chars) (h : parseLit lit s = some r) :
    s = lit ++ r := by
  unfold parseLit at h
  split at h
  · rw [Option.some_inj] at h
    rename_i hp
    rw [← (isPrefixOf_iff_take lit s).mp hp, ← h]
    exact (List.take_append_drop lit.length s).symm
  · exact absurd h (by simp)

theorem parseWsRunTo_decomp (isStop : Char → Bool) (s a r : Chars)
    (hstop : isStop ',' = true)
    (h : parseWsRunTo isStop s = some (a, r)) :
    ∃ pre, s = pre ++ r ∧ countOccur pre [','] = 0 := by
  unfold parseWsRunTo at h
  dsimp only at h
  split at h
  · split at h
    · split at h
      · exact absurd h (by simp)
      · rw [Option.some_inj, Prod.mk.injEq] at h
        refine ⟨s.takeWhile (fun c => isWsChar c), ?_, ?_⟩
        · rw [← h.2]
          exact (List.takeWhile_append_dropWhile ..).symm
        · apply countOccur_zero_of_not_mem
          intro hc
          have := List.mem_takeWhile_imp hc
          simp [isWsChar] at this
    · exact absurd h (by simp)
  · rw [Option.some_inj, Prod.mk.injEq] at h
    set D := s.dropWhile (fun c => isWsChar c) with hD
    set A := D.takeWhile (fun c => !(isStop c)) with hA
    have hpre : A <+: D := by
      rw [hA]
      exact List.takeWhile_prefix _
    obtain ⟨t, ht⟩ := hpre
    refine ⟨s.takeWhile (fun c => isWsChar c) ++ A, ?_, ?_⟩
    · rw [← h.2, List.append_assoc]
      rw [show D.drop A.length = t by
        rw [← ht]
        exact List.drop_left A t]
      rw [ht, hD]
      exact (List.takeWhile_append_dropWhile ..).symm
    · apply countOccur_zero_of_not_mem
      intro hc
      rw [List.mem_append] at hc
      rcases hc with hc | hc
      · have := List.mem_takeWhile_imp hc
        simp [isWsChar] at this
      · rw [hA] at hc
        have := List.mem_takeWhile_imp hc
        rw [hstop] at this
        simp at this


theorem phase2Matcher_span (pv : Chars) : ∀ s repl rest : Chars,
    FixRedactareaPhase2.phase2Matcher pv s = some (repl, rest) →
    ∃ span : Chars, span ≠ [] ∧ s = span ++ rest
      ∧ countOccur span [','] < countOccur repl [','] := by
  intro s repl rest h
  replace h : Option.bind (parseLit anchorRA s) (fun r1 =>
      Option.bind (parseWsRunTo (fun c => c = ',') r1) (fun d1 =>
        Option.bind (parseLit ( ",".toList) d1.2) (fun r3 =>
          Option.bind (parseWsRunTo (fun c => c = ',' || c = ')') r3) (fun d2 =>
            Option.bind (parseLit ( ")".toList) d2.2) (fun r5 =>
              match r5 with
              | ',' :: _ => none
              | _ => some ( ".RedactArea(".toList ++ pyStrip d1.1 ++ ", ".toList
                  ++ pyStrip d2.1 ++ ", ".toList ++ pv ++ ")".toList, r5))))))
      = some (repl, rest) := h
  rw [Option.bind_eq_some] at h
  obtain ⟨r1, h1, h⟩ := h
  rw [Option.bind_eq_some] at h
  obtain ⟨d1, h2, h⟩ := h
  rw [Option.bind_eq_some] at h
  obtain ⟨r3, h3, h⟩ := h
  rw [Option.bind_eq_some] at h
  obtain ⟨d2, h4, h⟩ := h
  rw [Option.bind_eq_some] at h
  obtain ⟨r5, h5, h⟩ := h
  obtain ⟨a1, r2⟩ := d1
  obtain ⟨a2, r4⟩ := d2
  split at h
  · exact absurd h (by simp)
  · rw [Option.some_inj, Prod.mk.injEq] at h
    obtain ⟨hrepl, hrest⟩ := h
    have hd1 : s = anchorRA ++ r1 := parseLit_decomp _ _ _ h1
    obtain ⟨p1, hp1, hc1⟩ :=
      parseWsRunTo_decomp (fun c => c = ',') r1 a1 r2 (by decide) h2
    have hd3 : r2 = ",".toList ++ r3 := parseLit_decomp _ _ _ h3
    obtain ⟨p2, hp2, hc2⟩ :=
      parseWsRunTo_decomp (fun c => c = ',' || c = ')') r3 a2 r4 (by decide) h4
    have hd5 : r4 = ")".toList ++ r5 := parseLit_decomp _ _ _ h5
    refine ⟨anchorRA ++ p1 ++ ",".toList ++ p2 ++ ")".toList, ?_, ?_, ?_⟩
    · intro hsp
      have := congrArg List.length hsp
      simp [anchorRA] at this
    · rw [hd1, hp1, hd3, hp2, hd5, ← hrest]
      simp [List.append_assoc]
    · have c_anchor : countOccur anchorRA [','] = 0 :=
        countOccur_zero_of_not_mem _ _ (by decide)
      have c_comma : countOccur ( ",".toList) [','] = 1 := by
        rw [show ( ",".toList : Chars) = [','] from rfl, countOccur_cons_single]
        rw [if_pos rfl, countOccur_zero_of_not_mem _ _ (List.not_mem_nil ',')]
      have c_cs : countOccur ( ", ".toList) [','] = 1 := by
        rw [show ( ", ".toList : Chars) = [',', ' '] from rfl, countOccur_cons_single]
        rw [if_pos rfl, countOccur_zero_of_not_mem _ _ (by decide)]
      have c_paren : countOccur ( ")".toList) [','] = 0 :=
        countOccur_zero_of_not_mem _ _ (by decide)
      have c_lit : countOccur ( ".RedactArea(".toList) [','] = 0 :=
        countOccur_zero_of_not_mem _ _ (by decide)
      have hspan : countOccur
          (anchorRA ++ p1 ++ ",".toList ++ p2 ++ ")".toList) [','] = 1 := by
        rw [countOccur_append_single, countOccur_append_single,
          countOccur_append_single, countOccur_append_single]
        rw [c_anchor, c_comma, c_paren, hc1, hc2]
      have hr : countOccur repl [','] =
          countOccur ( ".RedactArea(".toList) [','] + countOccur (pyStrip a1) [',']
            + countOccur ( ", ".toList) [','] + countOccur (pyStrip a2) [',']
            + countOccur ( ", ".toList) [','] + countOccur pv [',']
            + countOccur ( ")".toList) [','] := by
        rw [← hrepl]
        rw [countOccur_append_single, countOccur_append_single,
          countOccur_append_single, countOccur_append_single,
          countOccur_append_single, countOccur_append_single]
      rw [hspan, hr, c_lit, c_cs, c_paren]
      omega

theorem scanSub_count_ge (m : Chars → Option (Chars × Chars)) (c0 : Char)
    (hm : ∀ s r rest, m s = some (r, rest) →
      ∃ span, span ≠ [] ∧ s = span ++ rest
        ∧ countOccur span [c0] ≤ countOccur r [c0]) :
    ∀ s : Chars, countOccur s [c0] ≤ countOccur (scanSub m s) [c0] := by
  have H : ∀ n : Nat, ∀ s : Chars, s.length ≤ n →
      countOccur s [c0] ≤ countOccur (scanSub m s) [c0] := by
    intro n
    induction n with
    | zero =>
        intro s hs
        cases s with
        | nil => rw [scanSub_nil]
        | cons c t => simp at hs
    | succ n ih =>
        intro s hs
        cases s with
        | nil => rw [scanSub_nil]
        | cons c t =>
            cases hmc : m (c :: t) with
            | none =>
                rw [scanSub_cons_none hmc, countOccur_cons_single,
                  countOccur_cons_single]
                have ht : t.length ≤ n := by
                  simp only [List.length_cons] at hs
                  omega
                have := ih t ht
                omega
            | some p =>
                obtain ⟨r, rest⟩ := p
                simp only [List.length_cons] at hs
                obtain ⟨span, hne, hsp, hcnt⟩ := hm _ _ _ hmc
                have hlen : rest.length ≤ t.length := by
                  have hl := congrArg List.length hsp
                  simp only [List.length_cons, List.length_append] at hl
                  cases span with
                  | nil => exact absurd rfl hne
                  | cons a b =>
                      simp only [List.length_cons] at hl
                      omega
                rw [scanSub_cons_some hmc (by omega), countOccur_append_single]
                have hc2 : countOccur (c :: t) [c0]
                    = countOccur span [c0] + countOccur rest [c0] := by
                  rw [hsp, countOccur_append_single]
                have := ih rest (by omega)
                omega
  exact fun s => H s.length s le_rfl

theorem scanSub_count_gt (m : Chars → Option (Chars × Chars)) (c0 : Char)
    (hm : ∀ s r rest, m s = some (r, rest) →
      ∃ span, span ≠ [] ∧ s = span ++ rest
        ∧ countOccur span [c0] < countOccur r [c0]) :
    ∀ s : Chars, 0 < scanCount m s →
      countOccur s [c0] < countOccur (scanSub m s) [c0] := by
  have hmw : ∀ s r rest, m s = some (r, rest) →
      ∃ span, span ≠ [] ∧ s = span ++ rest
        ∧ countOccur span [c0] ≤ countOccur r [c0] := by
    intro s r rest hx
    obtain ⟨span, hne, hsp, hcnt⟩ := hm s r rest hx
    exact ⟨span, hne, hsp, Nat.le_of_lt hcnt⟩
  have H : ∀ n : Nat, ∀ s : Chars, s.length ≤ n → 0 < scanCount m s →
      countOccur s [c0] < countOccur (scanSub m s) [c0] := by
    intro n
    induction n with
    | zero =>
        intro s hs hpos
        cases s with
        | nil => rw [scanCount_nil] at hpos; omega
        | cons c t => simp at hs
    | succ n ih =>
        intro s hs hpos
        cases s with
        | nil => rw [scanCount_nil] at hpos; omega
        | cons c t =>
            cases hmc : m (c :: t) with
            | none =>
                rw [scanCount_cons_none hmc] at hpos
                rw [scanSub_cons_none hmc, countOccur_cons_single,
                  countOccur_cons_single]
                have ht : t.length ≤ n := by
                  simp only [List.length_cons] at hs
                  omega
                have := ih t ht hpos
                omega
            | some p =>
                obtain ⟨r, rest⟩ := p
                simp only [List.length_cons] at hs
                obtain ⟨span, hne, hsp, hcnt⟩ := hm _ _ _ hmc
                have hlen : rest.length ≤ t.length := by
                  have hl := congrArg List.length hsp
                  simp only [List.length_cons, List.length_append] at hl
                  cases span with
                  | nil => exact absurd rfl hne
                  | cons a b =>
                      simp only [List.length_cons] at hl
                      omega
                rw [scanSub_cons_some hmc (by omega), countOccur_append_single]
                have hc2 : countOccur (c :: t) [c0]
                    = countOccur span [c0] + countOccur rest [c0] := by
                  rw [hsp, countOccur_append_single]
                have hrest := scanSub_count_ge m c0 hmw rest
                omega
  exact fun s hpos => H s.length s le_rfl hpos

theorem phase2_sub_changes (pv content : Chars)
    (h : 0 < scanCount (FixRedactareaPhase2.phase2Matcher pv) content) :
    scanSub (FixRedactareaPhase2.phase2Matcher pv) content ≠ content := by
  intro he
  have := scanSub_count_gt (FixRedactareaPhase2.phase2Matcher pv) ','
    (phase2Matcher_span pv) content h
  rw [he] at this
  omega

/-- C9: each patcher's write decision.  A write always carries the original
content to the backup component, happens only when the transformation
changed something — which requires at least one pattern match — and a run
where nothing matches writes neither file.  For the calls fixer and the
final fixer the match evidence is a positive fix count; for phase 2 it is a
positive (and reported) match count, whose substitution strictly increases
the comma count and therefore changes the content; for phases 3 and 4 a
write refutes the all-patterns-unmatched condition. -/
theorem c9_write_decisions :
    (∀ content b new : Chars,
        FixRedactareaCalls.write_decision content = some (b, new) →
        b = content ∧ new ≠ content
          ∧ 0 < (FixRedactareaCalls.fix_redactarea_calls content).2)
    ∧ (∀ content : Chars,
        scanCount (FixRedactareaCalls.callsP1
          (FixRedactareaCalls.find_path_variable content)) content = 0 →
        scanCount (FixRedactareaCalls.callsP2
          (FixRedactareaCalls.find_path_variable content)) content = 0 →
        FixRedactareaCalls.write_decision content = none)
    ∧ (∀ content b new : Chars,
        FixAllRedactareaFinal.write_decision content = some (b, new) →
        b = content ∧ new ≠ content ∧ 0 < (FixAllRedactareaFinal.fix_file content).2)
    ∧ (∀ content : Chars,
        (∀ l ∈ splitLines content,
          (FixAllRedactareaFinal.fix_line
            (FixAllRedactareaFinal.find_path_variables content) l).2 = 0) →
        FixAllRedactareaFinal.write_decision content = none)
    ∧ (∀ content b new : Chars, ∀ n : Nat,
        FixRedactareaPhase2.fix_file_write content = some (b, new, n) →
        b = content ∧ new ≠ content ∧ 0 < n
          ∧ n = scanCount (FixRedactareaPhase2.phase2Matcher
              (FixRedactareaPhase2.find_path_variable content)) content)
    ∧ (∀ content : Chars,
        scanCount (FixRedactareaPhase2.phase2Matcher
          (FixRedactareaPhase2.find_path_variable content)) content = 0 →
        FixRedactareaPhase2.fix_file_write content = none)
    ∧ (∀ content b new : Chars,
        FixRedactareaPhase3.write_decision content = some (b, new) →
        b = content ∧ new ≠ content
          ∧ ¬(scanCount (FixRedactareaPhase3.p3m1
                (FixRedactareaPhase3.find_path_var content)) content = 0
              ∧ scanCount (FixRedactareaPhase3.p3m2
                (FixRedactareaPhase3.find_path_var content)) content = 0
              ∧ scanCount (FixRedactareaPhase3.p3m3
                (FixRedactareaPhase3.find_path_var content)) content = 0))
    ∧ (∀ content : Chars,
        scanCount (FixRedactareaPhase3.p3m1
          (FixRedactareaPhase3.find_path_var content)) content = 0 →
        scanCount (FixRedactareaPhase3.p3m2
          (FixRedactareaPhase3.find_path_var content)) content = 0 →
        scanCount (FixRedactareaPhase3.p3m3
          (FixRedactareaPhase3.find_path_var content)) content = 0 →
        FixRedactareaPhase3.write_decision content = none)
    ∧ (∀ content b new : Chars,
        FixRedactareaPhase4.write_decision content = some (b, new) →
        b = content ∧ new ≠ content
          ∧ ¬(∀ l ∈ splitLines content,
              FixRedactareaPhase4.fix_line
                (FixRedactareaPhase4.find_path_var content) l = l))
    ∧ (∀ content : Chars,
        (∀ l ∈ splitLines content,
          FixRedactareaPhase4.fix_line
            (FixRedactareaPhase4.find_path_var content) l = l) →
        FixRedactareaPhase4.write_decision content = none) := by
  have hfix3 : ∀ content : Chars,
      scanCount (FixRedactareaPhase3.p3m1
        (FixRedactareaPhase3.find_path_var content)) content = 0 →
      scanCount (FixRedactareaPhase3.p3m2
        (FixRedactareaPhase3.find_path_var content)) content = 0 →
      scanCount (FixRedactareaPhase3.p3m3
        (FixRedactareaPhase3.find_path_var content)) content = 0 →
      FixRedactareaPhase3.fix_content content = content := by
    intro content z1 z2 z3
    simp only [FixRedactareaPhase3.fix_content]
    rw [scanSub_of_scanCount_zero _ _ z1, scanSub_of_scanCount_zero _ _ z2,
      scanSub_of_scanCount_zero _ _ z3]
  have hfix4 : ∀ content : Chars,
      (∀ l ∈ splitLines content,
        FixRedactareaPhase4.fix_line
          (FixRedactareaPhase4.find_path_var content) l = l) →
      FixRedactareaPhase4.fix_content content = content := by
    intro content hall
    simp only [FixRedactareaPhase4.fix_content]
    rw [List.map_congr_left hall]
    rw [show (splitLines content).map (fun l => l) = splitLines content by simp]
    exact joinNl_splitLines content
  refine ⟨?_, ?_, ?_, ?_, ?_, ?_, ?_, ?_, ?_, ?_⟩
  · intro content b new h
    simp only [FixRedactareaCalls.write_decision] at h
    by_cases hc : (FixRedactareaCalls.fix_redactarea_calls content).1 = content
    · rw [if_pos hc] at h
      exact absurd h (by simp)
    · rw [if_neg hc] at h
      rw [Option.some_inj, Prod.mk.injEq] at h
      obtain ⟨hb, hnew⟩ := h
      refine ⟨hb.symm, ?_, ?_⟩
      · rw [← hnew]
        exact hc
      · by_contra h0
        push_neg at h0
        have h2 : (FixRedactareaCalls.fix_redactarea_calls content).2 = 0 := by omega
        exact hc (fix_core_snd_zero (FixRedactareaCalls.find_path_variable content)
          content h2)
  · intro content h1 h2
    have e1 := apply_pattern_no_match _ _ h1
    have e : FixRedactareaCalls.fix_redactarea_calls content = (content, 0) := by
      simp only [FixRedactareaCalls.fix_redactarea_calls, FixRedactareaCalls.fix_core]
      rw [e1]
      simp only
      rw [apply_pattern_no_match _ _ h2]
      rfl
    simp [FixRedactareaCalls.write_decision, e]
  · intro content b new h
    simp only [FixAllRedactareaFinal.write_decision] at h
    by_cases hc : (FixAllRedactareaFinal.fix_file content).2 = 0
    · rw [if_pos hc] at h
      exact absurd h (by simp)
    · rw [if_neg hc] at h
      rw [Option.some_inj, Prod.mk.injEq] at h
      obtain ⟨hb, hnew⟩ := h
      refine ⟨hb.symm, ?_, by omega⟩
      intro hx
      rw [← hnew] at hx
      exact hc (fix_file_fst_eq content hx)
  · intro content hall
    have hz : (FixAllRedactareaFinal.fix_file content).2 = 0 := by
      simp only [FixAllRedactareaFinal.fix_file]
      apply List.sum_eq_zero
      intro x hx
      obtain ⟨l, hl, hlx⟩ := List.mem_map.mp hx
      rw [← hlx]
      exact hall l hl
    simp [FixAllRedactareaFinal.write_decision, hz]
  · intro content b new n h
    simp only [FixRedactareaPhase2.fix_file_write] at h
    by_cases hc : scanCount (FixRedactareaPhase2.phase2Matcher
        (FixRedactareaPhase2.find_path_variable content)) content = 0
    · rw [if_pos hc] at h
      exact absurd h (by simp)
    · rw [if_neg hc] at h
      rw [Option.some_inj, Prod.mk.injEq, Prod.mk.injEq] at h
      obtain ⟨hb, hnew, hn⟩ := h
      refine ⟨hb.symm, ?_, by omega, hn.symm⟩
      rw [← hnew]
      exact phase2_sub_changes _ _ (by omega)
  · intro content hc
    simp only [FixRedactareaPhase2.fix_file_write]
    rw [if_pos hc]
  · intro content b new h
    simp only [FixRedactareaPhase3.write_decision] at h
    by_cases hc : FixRedactareaPhase3.fix_content content = content
    · rw [if_pos hc] at h
      exact absurd h (by simp)
    · rw [if_neg hc] at h
      rw [Option.some_inj, Prod.mk.injEq] at h
      obtain ⟨hb, hnew⟩ := h
      refine ⟨hb.symm, ?_, ?_⟩
      · rw [← hnew]
        exact hc
      · rintro ⟨z1, z2, z3⟩
        exact hc (hfix3 content z1 z2 z3)
  · intro content z1 z2 z3
    simp [FixRedactareaPhase3.write_decision, hfix3 content z1 z2 z3]
  · intro content b new h
    simp only [FixRedactareaPhase4.write_decision] at h
    by_cases hc : FixRedactareaPhase4.fix_content content = content
    · rw [if_pos hc] at h
      exact absurd h (by simp)
    · rw [if_neg hc] at h
      rw [Option.some_inj, Prod.mk.injEq] at h
      obtain ⟨hb, hnew⟩ := h
      refine ⟨hb.symm, ?_, ?_⟩
      · rw [← hnew]
        exact hc
      · intro hall
        exact hc (hfix4 content hall)
  · intro content hall
    simp [FixRedactareaPhase4.write_decision, hfix4 content hall]

/-- C9 witness: the no-match clauses applied at the empty content, and the
phase-2 write clause applied at a content with exactly one match. -/
theorem c9_write_decisions_witness :
    FixRedactareaCalls.write_decision [] = none
    ∧ FixAllRedactareaFinal.write_decision [] = none
    ∧ FixRedactareaPhase2.fix_file_write [] = none
    ∧ FixRedactareaPhase3.write_decision [] = none
    ∧ FixRedactareaPhase4.write_decision [] = none
    ∧ FixRedactareaPhase2.fix_file_write ( ".RedactArea(a, b)".toList)
        = some ( ".RedactArea(a, b)".toList, ".RedactArea(a, b, pdfPath)".toList, 1)
    ∧ ".RedactArea(a, b, pdfPath)".toList ≠ ( ".RedactArea(a, b)".toList : Chars) := by
  have h := c9_write_decisions
  have hall4 : ∀ l ∈ splitLines ([] : Chars),
      FixRedactareaPhase4.fix_line (FixRedactareaPhase4.find_path_var []) l = l := by
    intro l hl
    rw [show splitLines ([] : Chars) = [[]] from rfl] at hl
    rw [List.mem_singleton] at hl
    rw [hl]
    rfl
  have hall2 : ∀ l ∈ splitLines ([] : Chars),
      (FixAllRedactareaFinal.fix_line
        (FixAllRedactareaFinal.find_path_variables []) l).2 = 0 := by
    intro l hl
    rw [show splitLines ([] : Chars) = [[]] from rfl] at hl
    rw [List.mem_singleton] at hl
    rw [hl]
    rfl
  have hm0 : FixRedactareaPhase2.phase2Matcher ( "pdfPath".toList)
      ('.' :: "RedactArea(a, b)".toList)
      = some ( ".RedactArea(a, b, pdfPath)".toList, []) := rfl
  have hcnt : scanCount (FixRedactareaPhase2.phase2Matcher ( "pdfPath".toList))
      ( ".RedactArea(a, b)".toList) = 1 := by
    rw [show ( ".RedactArea(a, b)".toList : Chars)
      = '.' :: "RedactArea(a, b)".toList from rfl]
    rw [scanCount_cons_some hm0 (by decide), scanCount_nil]
  have hsub : scanSub (FixRedactareaPhase2.phase2Matcher ( "pdfPath".toList))
      ( ".RedactArea(a, b)".toList) = ".RedactArea(a, b, pdfPath)".toList := by
    rw [show ( ".RedactArea(a, b)".toList : Chars)
      = '.' :: "RedactArea(a, b)".toList from rfl]
    rw [scanSub_cons_some hm0 (by decide), scanSub_nil, List.append_nil]
  have hw : FixRedactareaPhase2.fix_file_write ( ".RedactArea(a, b)".toList)
      = some ( ".RedactArea(a, b)".toList, ".RedactArea(a, b, pdfPath)".toList, 1) := by
    simp only [FixRedactareaPhase2.fix_file_write]
    rw [show FixRedactareaPhase2.find_path_variable ( ".RedactArea(a, b)".toList)
      = "pdfPath".toList from rfl]
    rw [hcnt, hsub]
    rfl
  refine ⟨h.2.1 [] (scanCount_nil _) (scanCount_nil _),
    h.2.2.2.1 [] hall2,
    h.2.2.2.2.2.1 [] (scanCount_nil _),
    h.2.2.2.2.2.2.2.1 [] (scanCount_nil _) (scanCount_nil _) (scanCount_nil _),
    h.2.2.2.2.2.2.2.2.2 [] hall4,
    hw,
    (h.2.2.2.2.1 ( ".RedactArea(a, b)".toList) ( ".RedactArea(a, b)".toList)
      ( ".RedactArea(a, b, pdfPath)".toList) 1 hw).2.1⟩

/-! ## C1: the structured call-site rewrite -/

theorem takeWhile_all_append (p : Char → Bool) (w x : Chars)
    (hw : ∀ c ∈ w, p c = true) (hx : ∀ c, x.head? = some c → p c = false) :
    (w ++ x).takeWhile p = w := by
  induction w with
  | nil =>
      cases x with
      | nil => rfl
      | cons c t =>
          rw [List.nil_append, List.takeWhile_cons, hx c rfl]
          rfl
  | cons a w ih =>
      rw [List.cons_append, List.takeWhile_cons, hw a (List.mem_cons_self a w)]
      rw [ih (fun c hc => hw c (List.mem_cons_of_mem a hc)) ]
      rfl

theorem dropWhile_all_append (p : Char → Bool) (w x : Chars)
    (hw : ∀ c ∈ w, p c = true) (hx : ∀ c, x.head? = some c → p c = false) :
    (w ++ x).dropWhile p = x := by
  induction w with
  | nil =>
      cases x with
      | nil => rfl
      | cons c t =>
          rw [List.nil_append, List.dropWhile_cons, hx c rfl]
          rfl
  | cons a w ih =>
      rw [List.cons_append, List.dropWhile_cons, hw a (List.mem_cons_self a w)]
      rw [ih (fun c hc => hw c (List.mem_cons_of_mem a hc)) ]
      rfl

theorem digit_not_ws (c : Char) (h : isDigitChar c = true) : isWsChar c = false := by
  cases hw : isWsChar c with
  | false => rfl
  | true =>
      exfalso
      simp only [isWsChar, Bool.or_eq_true, decide_eq_true_eq] at hw
      rcases hw with ((((rfl | rfl) | rfl) | rfl) | rfl) | rfl <;>
        exact absurd h (by decide)

theorem parseLit_self (lit r : Chars) (s : Chars) (hs : s = lit ++ r) :
    parseLit lit s = some r := by
  subst hs
  unfold parseLit
  rw [isPrefixOf_self_append]
  rw [if_pos rfl, List.drop_left]

theorem parseRunTo_exact (isStop : Char → Bool) (a r s : Chars)
    (hs : s = a ++ r) (ha : a ≠ [])
    (hnostop : ∀ c ∈ a, isStop c = false)
    (hrstop : ∀ c, r.head? = some c → isStop c = true) :
    parseRunTo isStop s = some (a, r) := by
  subst hs
  unfold parseRunTo
  have htw : (a ++ r).takeWhile (fun c => !(isStop c)) = a :=
    takeWhile_all_append _ a r
      (fun c hc => by rw [hnostop c hc]; rfl)
      (fun c hc => by rw [hrstop c hc]; rfl)
  rw [htw]
  rw [if_neg (by simpa [List.isEmpty_iff] using ha)]
  rw [List.drop_left]

theorem parseWsRunTo_exact (isStop : Char → Bool) (w a r s : Chars)
    (hs : s = w ++ (a ++ r)) (hw : ∀ c ∈ w, isWsChar c = true)
    (ha : a ≠ [])
    (hahead : ∀ c, a.head? = some c → isWsChar c = false)
    (hnostop : ∀ c ∈ a, isStop c = false)
    (hrstop : ∀ c, r.head? = some c → isStop c = true) :
    parseWsRunTo isStop s = some (a, r) := by
  subst hs
  unfold parseWsRunTo
  dsimp only
  have hhead2 : ∀ c, (a ++ r).head? = some c → isWsChar c = false := by
    intro c hc
    cases a with
    | nil => exact absurd rfl ha
    | cons a0 t =>
        rw [List.cons_append, List.head?_cons, Option.some_inj] at hc
        exact hahead c (by rw [List.head?_cons, hc])
  have hdw : (w ++ (a ++ r)).dropWhile (fun c => isWsChar c) = a ++ r :=
    dropWhile_all_append _ w (a ++ r) hw hhead2
  have htw : (a ++ r).takeWhile (fun c => !(isStop c)) = a :=
    takeWhile_all_append _ a r
      (fun c hc => by rw [hnostop c hc]; rfl)
      (fun c hc => by rw [hrstop c hc]; rfl)
  rw [hdw, htw]
  rw [if_neg (by simpa [List.isEmpty_iff] using ha)]
  rw [List.drop_left]

theorem parseWsLit_exact (lit w r s : Chars)
    (hs : s = w ++ (lit ++ r)) (hw : ∀ c ∈ w, isWsChar c = true)
    (hlitne : lit ≠ [])
    (hlit : ∀ c, lit.head? = some c → isWsChar c = false) :
    parseWsLit lit s = some r := by
  subst hs
  unfold parseWsLit
  dsimp only
  have hhead2 : ∀ c, (lit ++ r).head? = some c → isWsChar c = false := by
    intro c hc
    cases lit with
    | nil => exact absurd rfl hlitne
    | cons l0 t =>
        rw [List.cons_append, List.head?_cons, Option.some_inj] at hc
        rw [← hc]
        exact hlit l0 rfl
  have hdw : (w ++ (lit ++ r)).dropWhile (fun c => isWsChar c) = lit ++ r :=
    dropWhile_all_append _ w (lit ++ r) hw hhead2
  rw [hdw]
  rw [isPrefixOf_self_append]
  rw [if_pos rfl, List.drop_left]

theorem parseWsDigits_exact (w d r s : Chars)
    (hs : s = w ++ (d ++ r)) (hw : ∀ c ∈ w, isWsChar c = true)
    (hd : d ≠ []) (hdall : ∀ c ∈ d, isDigitChar c = true)
    (hr : ∀ c, r.head? = some c → isDigitChar c = false) :
    parseWsDigits s = some (d, r) := by
  subst hs
  unfold parseWsDigits
  dsimp only
  have hhead2 : ∀ c, (d ++ r).head? = some c → isWsChar c = false := by
    intro c hc
    cases d with
    | nil => exact absurd rfl hd
    | cons d0 t =>
        rw [List.cons_append, List.head?_cons, Option.some_inj] at hc
        rw [← hc]
        exact digit_not_ws _ (hdall d0 (List.mem_cons_self d0 t))
  have hdw : (w ++ (d ++ r)).dropWhile (fun c => isWsChar c) = d ++ r :=
    dropWhile_all_append _ w (d ++ r) hw hhead2
  have htw : (d ++ r).takeWhile (fun c => isDigitChar c) = d :=
    takeWhile_all_append _ d r hdall hr
  rw [hdw, htw]
  rw [if_neg (by simpa [List.isEmpty_iff] using hd)]
  rw [List.drop_left]

/-- Canonical call-site tail `.RedactArea(a1, a2, renderDpi: d)` followed by
the rest of the line, as in the claim's call form. -/
def c1CallTail (a1 a2 d Y : Chars) : Chars :=
  anchorRA ++ (a1 ++ (',' :: ' ' :: (a2 ++ (',' :: ' ' :: ( "renderDpi:".toList
    ++ (' ' :: (d ++ (')' :: Y))))))))

theorem finalTail1_exact (a1 a2 d Y : Chars)
    (ha1 : a1 ≠ []) (h1c : ',' ∉ a1)
    (ha2 : a2 ≠ []) (h2w : ∀ c, a2.head? = some c → isWsChar c = false) (h2c : ',' ∉ a2)
    (hd : d ≠ []) (hdall : ∀ c ∈ d, isDigitChar c = true) :
    FixAllRedactareaFinal.finalTail1 (c1CallTail a1 a2 d Y) = some (a1, a2, d, Y) := by
  have e1 : parseLit anchorRA (c1CallTail a1 a2 d Y)
      = some (a1 ++ (',' :: ' ' :: (a2 ++ (',' :: ' ' :: ( "renderDpi:".toList
          ++ (' ' :: (d ++ (')' :: Y)))))))) :=
    parseLit_self _ _ _ rfl
  have e2 : parseRunTo (fun c => c = ',')
      (a1 ++ (',' :: ' ' :: (a2 ++ (',' :: ' ' :: ( "renderDpi:".toList
        ++ (' ' :: (d ++ (')' :: Y))))))))
      = some (a1, ',' :: ' ' :: (a2 ++ (',' :: ' ' :: ( "renderDpi:".toList
          ++ (' ' :: (d ++ (')' :: Y))))))) :=
    parseRunTo_exact _ _ _ _ rfl ha1
      (fun c hc => decide_eq_false (fun h => h1c (h ▸ hc)))
      (fun c hc => by
        rw [List.head?_cons, Option.some_inj] at hc
        rw [← hc]
        decide)
  have e3 : parseLit ( ",".toList)
      (',' :: ' ' :: (a2 ++ (',' :: ' ' :: ( "renderDpi:".toList
        ++ (' ' :: (d ++ (')' :: Y)))))))
      = some (' ' :: (a2 ++ (',' :: ' ' :: ( "renderDpi:".toList
          ++ (' ' :: (d ++ (')' :: Y))))))) :=
    parseLit_self _ _ _ rfl
  have e4 : parseWsRunTo (fun c => c = ',')
      (' ' :: (a2 ++ (',' :: ' ' :: ( "renderDpi:".toList
        ++ (' ' :: (d ++ (')' :: Y)))))))
      = some (a2, ',' :: ' ' :: ( "renderDpi:".toList
          ++ (' ' :: (d ++ (')' :: Y))))) :=
    parseWsRunTo_exact _ [' '] _ _ _ rfl
      (fun c hc => by
        rw [List.mem_singleton] at hc
        rw [hc]
        decide)
      ha2 h2w
      (fun c hc => decide_eq_false (fun h => h2c (h ▸ hc)))
      (fun c hc => by
        rw [List.head?_cons, Option.some_inj] at hc
        rw [← hc]
        decide)
  have e5 : parseLit ( ",".toList)
      (',' :: ' ' :: ( "renderDpi:".toList ++ (' ' :: (d ++ (')' :: Y)))))
      = some (' ' :: ( "renderDpi:".toList ++ (' ' :: (d ++ (')' :: Y))))) :=
    parseLit_self _ _ _ rfl
  have e6 : parseWsLit ( "renderDpi:".toList)
      (' ' :: ( "renderDpi:".toList ++ (' ' :: (d ++ (')' :: Y)))))
      = some (' ' :: (d ++ (')' :: Y))) :=
    parseWsLit_exact _ [' '] _ _ rfl
      (fun c hc => by
        rw [List.mem_singleton] at hc
        rw [hc]
        decide)
      (by decide)
      (fun c hc => by
        rw [show ( "renderDpi:".toList : Chars).head? = some 'r' from rfl,
          Option.some_inj] at hc
        rw [← hc]
        decide)
  have e7 : parseWsDigits (' ' :: (d ++ (')' :: Y))) = some (d, ')' :: Y) :=
    parseWsDigits_exact [' '] _ _ _ rfl
      (fun c hc => by
        rw [List.mem_singleton] at hc
        rw [hc]
        decide)
      hd hdall
      (fun c hc => by
        rw [List.head?_cons, Option.some_inj] at hc
        rw [← hc]
        decide)
  have e8 : parseLit ( ")".toList) (')' :: Y) = some Y :=
    parseLit_self _ _ _ rfl
  have hbind : FixAllRedactareaFinal.finalTail1 (c1CallTail a1 a2 d Y)
      = Option.bind (parseLit anchorRA (c1CallTail a1 a2 d Y)) (fun r1 =>
          Option.bind (parseRunTo (fun c => c = ',') r1) (fun p1 =>
            Option.bind (parseLit ( ",".toList) p1.2) (fun r3 =>
              Option.bind (parseWsRunTo (fun c => c = ',') r3) (fun p2 =>
                Option.bind (parseLit ( ",".toList) p2.2) (fun r5 =>
                  Option.bind (parseWsLit ( "renderDpi:".toList) r5) (fun r6 =>
                    Option.bind (parseWsDigits r6) (fun p3 =>
                      Option.bind (parseLit ( ")".toList) p3.2) (fun r8 =>
                        some (p1.1, p2.1, p3.1, r8))))))))) := rfl
  rw [hbind, e1]
  simp only [Option.some_bind]
  rw [e2]
  simp only [Option.some_bind]
  rw [e3]
  simp only [Option.some_bind]
  rw [e4]
  simp only [Option.some_bind]
  rw [e5]
  simp only [Option.some_bind]
  rw [e6]
  simp only [Option.some_bind]
  rw [e7]
  simp only [Option.some_bind]
  rw [e8]
  simp only [Option.some_bind]

theorem callsP1_exact (pv a1 a2 d Y : Chars)
    (ha1 : a1 ≠ []) (h1w : ∀ c, a1.head? = some c → isWsChar c = false)
    (h1c : ',' ∉ a1)
    (ha2 : a2 ≠ []) (h2w : ∀ c, a2.head? = some c → isWsChar c = false) (h2c : ',' ∉ a2)
    (hd : d ≠ []) (hdall : ∀ c ∈ d, isDigitChar c = true) :
    FixRedactareaCalls.callsP1 pv (c1CallTail a1 a2 d Y)
      = some ( ".RedactArea(".toList ++ a1 ++ ", ".toList ++ a2 ++ ", ".toList ++ pv
          ++ ", renderDpi: ".toList ++ d ++ ")".toList, Y) := by
  have e1 : parseLit anchorRA (c1CallTail a1 a2 d Y)
      = some (a1 ++ (',' :: ' ' :: (a2 ++ (',' :: ' ' :: ( "renderDpi:".toList
          ++ (' ' :: (d ++ (')' :: Y)))))))) :=
    parseLit_self _ _ _ rfl
  have e2 : parseWsRunTo (fun c => c = ',')
      (a1 ++ (',' :: ' ' :: (a2 ++ (',' :: ' ' :: ( "renderDpi:".toList
        ++ (' ' :: (d ++ (')' :: Y))))))))
      = some (a1, ',' :: ' ' :: (a2 ++ (',' :: ' ' :: ( "renderDpi:".toList
          ++ (' ' :: (d ++ (')' :: Y))))))) :=
    parseWsRunTo_exact _ [] _ _ _ rfl
      (fun c hc => absurd hc (List.not_mem_nil c))
      ha1 h1w
      (fun c hc => decide_eq_false (fun h => h1c (h ▸ hc)))
      (fun c hc => by
        rw [List.head?_cons, Option.some_inj] at hc
        rw [← hc]
        decide)
  have e3 : parseLit ( ",".toList)
      (',' :: ' ' :: (a2 ++ (',' :: ' ' :: ( "renderDpi:".toList
        ++ (' ' :: (d ++ (')' :: Y)))))))
      = some (' ' :: (a2 ++ (',' :: ' ' :: ( "renderDpi:".toList
          ++ (' ' :: (d ++ (')' :: Y))))))) :=
    parseLit_self _ _ _ rfl
  have e4 : parseWsRunTo (fun c => c = ',')
      (' ' :: (a2 ++ (',' :: ' ' :: ( "renderDpi:".toList
        ++ (' ' :: (d ++ (')' :: Y)))))))
      = some (a2, ',' :: ' ' :: ( "renderDpi:".toList
          ++ (' ' :: (d ++ (')' :: Y))))) :=
    parseWsRunTo_exact _ [' '] _ _ _ rfl
      (fun c hc => by
        rw [List.mem_singleton] at hc
        rw [hc]
        decide)
      ha2 h2w
      (fun c hc => decide_eq_false (fun h => h2c (h ▸ hc)))
      (fun c hc => by
        rw [List.head?_cons, Option.some_inj] at hc
        rw [← hc]
        decide)
  have e5 : parseLit ( ",".toList)
      (',' :: ' ' :: ( "renderDpi:".toList ++ (' ' :: (d ++ (')' :: Y)))))
      = some (' ' :: ( "renderDpi:".toList ++ (' ' :: (d ++ (')' :: Y))))) :=
    parseLit_self _ _ _ rfl
  have e6 : parseWsLit ( "renderDpi:".toList)
      (' ' :: ( "renderDpi:".toList ++ (' ' :: (d ++ (')' :: Y)))))
      = some (' ' :: (d ++ (')' :: Y))) :=
    parseWsLit_exact _ [' '] _ _ rfl
      (fun c hc => by
        rw [List.mem_singleton] at hc
        rw [hc]
        decide)
      (by decide)
      (fun c hc => by
        rw [show ( "renderDpi:".toList : Chars).head? = some 'r' from rfl,
          Option.some_inj] at hc
        rw [← hc]
        decide)
  have e7 : parseWsDigits (' ' :: (d ++ (')' :: Y))) = some (d, ')' :: Y) :=
    parseWsDigits_exact [' '] _ _ _ rfl
      (fun c hc => by
        rw [List.mem_singleton] at hc
        rw [hc]
        decide)
      hd hdall
      (fun c hc => by
        rw [List.head?_cons, Option.some_inj] at hc
        rw [← hc]
        decide)
  have e8 : parseWsLit ( ")".toList) (')' :: Y) = some Y :=
    parseWsLit_exact _ [] _ _ rfl
      (fun c hc => absurd hc (List.not_mem_nil c))
      (by decide)
      (fun c hc => by
        rw [show (( ")".toList : Chars)).head? = some ')' from rfl,
          Option.some_inj] at hc
        rw [← hc]
        decide)
  have hbind : FixRedactareaCalls.callsP1 pv (c1CallTail a1 a2 d Y)
      = Option.bind (parseLit anchorRA (c1CallTail a1 a2 d Y)) (fun r1 =>
          Option.bind (parseWsRunTo (fun c => c = ',') r1) (fun p1 =>
            Option.bind (parseLit ( ",".toList) p1.2) (fun r3 =>
              Option.bind (parseWsRunTo (fun c => c = ',') r3) (fun p2 =>
                Option.bind (parseLit ( ",".toList) p2.2) (fun r5 =>
                  Option.bind (parseWsLit ( "renderDpi:".toList) r5) (fun r6 =>
                    Option.bind (parseWsDigits r6) (fun p3 =>
                      Option.bind (parseWsLit ( ")".toList) p3.2) (fun r8 =>
                        some ( ".RedactArea(".toList ++ p1.1 ++ ", ".toList ++ p2.1
                          ++ ", ".toList ++ pv ++ ", renderDpi: ".toList ++ p3.1
                          ++ ")".toList, r8))))))))) := rfl
  rw [hbind, e1]
  simp only [Option.some_bind]
  rw [e2]
  simp only [Option.some_bind]
  rw [e3]
  simp only [Option.some_bind]
  rw [e4]
  simp only [Option.some_bind]
  rw [e5]
  simp only [Option.some_bind]
  rw [e6]
  simp only [Option.some_bind]
  rw [e7]
  simp only [Option.some_bind]
  rw [e8]
  simp only [Option.some_bind]

theorem occursAt_ge_length (s pat : Chars) (i : Nat) (hp : pat ≠ [])
    (hi : s.length ≤ i) : occursAt s pat i = false := by
  rw [occursAt, List.drop_eq_nil_of_le hi]
  cases pat with
  | nil => exact absurd rfl hp
  | cons p ps => rfl

theorem anchored_none_region {α : Type} (m : Chars → Option α) (pat line : Chars)
    (k : Nat) (hp : pat ≠ [])
    (hm : ∀ s, pat.isPrefixOf s = false → m s = none)
    (huniq : ∀ i, i < line.length → occursAt line pat i = true → i = k) :
    ∀ j, j ≠ k → m (line.drop j) = none := by
  intro j hj
  apply hm
  cases hpf : pat.isPrefixOf (line.drop j) with
  | false => rfl
  | true =>
      exfalso
      by_cases hjl : j < line.length
      · exact hj (huniq j hjl (by rw [occursAt, hpf]))
      · have := occursAt_ge_length line pat j hp (by omega)
        rw [occursAt, hpf] at this
        exact absurd this (by decide)

theorem drop_append_right (x s : Chars) (i : Nat) :
    (x ++ s).drop (x.length + i) = s.drop i := by
  induction x with
  | nil => simp
  | cons c x ih =>
      rw [List.cons_append, List.length_cons]
      rw [show x.length + 1 + i = (x.length + i) + 1 from by omega]
      rw [List.drop_succ_cons]
      exact ih

theorem scanCount_head_match (m : Chars → Option (Chars × Chars)) (s r rest : Chars)
    (hne : s ≠ []) (hm : m s = some (r, rest)) (hl : rest.length < s.length) :
    scanCount m s = 1 + scanCount m rest := by
  cases s with
  | nil => exact absurd rfl hne
  | cons c t =>
      exact scanCount_cons_some hm (by simpa using hl)

theorem scanSub_head_match (m : Chars → Option (Chars × Chars)) (s r rest : Chars)
    (hne : s ≠ []) (hm : m s = some (r, rest)) (hl : rest.length < s.length) :
    scanSub m s = r ++ scanSub m rest := by
  cases s with
  | nil => exact absurd rfl hne
  | cons c t =>
      exact scanSub_cons_some hm (by simpa using hl)


/-- C1 counterexample: the final fixer skips lines containing a comment
marker, so a line holding a call of the claimed form — and no occurrence of
the path variable — is left unchanged with zero fixes rather than rewritten. -/
theorem c1_counterexample :
    searchGreedy FixAllRedactareaFinal.finalTail1
        ( "// x.RedactArea(a, b, renderDpi: 5)".toList) ≠ none
    ∧ containsSub ( "// x.RedactArea(a, b, renderDpi: 5)".toList)
        ( "pdfPath".toList) = false
    ∧ FixAllRedactareaFinal.fix_line ( "pdfPath".toList)
        ( "// x.RedactArea(a, b, renderDpi: 5)".toList)
      = ( "// x.RedactArea(a, b, renderDpi: 5)".toList, 0) := by
  refine ⟨by decide, by decide, by decide⟩

/-- C1 (amended): on a line holding the canonical call
`.RedactArea(a1, a2, renderDpi: d)` at the only occurrence of `.RedactArea(`
and not already holding the path variable as an argument, the final fixer's
line transformation inserts the variable as claimed and preserves all other
text — provided the line is not a declaration (`void RedactArea`) or comment
(`//`) line; the calls fixer's first pattern performs the same rewrite as a
substitution (one match, same insertion, prefix and rest preserved), and its
guarded pattern loop commits exactly that result when the rewritten content
matches no further pattern. -/
theorem c1_structured_call_rewrite :
    (∀ pv front a1 a2 d tl : Chars,
      a1 ≠ [] → ',' ∉ a1 →
      a2 ≠ [] → (∀ c, a2.head? = some c → isWsChar c = false) → ',' ∉ a2 →
      d ≠ [] → (∀ c ∈ d, isDigitChar c = true) →
      (∀ i, i < (front ++ c1CallTail a1 a2 d tl).length →
        occursAt (front ++ c1CallTail a1 a2 d tl) anchorRA i = true →
        i = front.length) →
      containsSub (front ++ c1CallTail a1 a2 d tl)
        ( "void RedactArea".toList) = false →
      containsSub (front ++ c1CallTail a1 a2 d tl) ( "//".toList) = false →
      containsSub (front ++ c1CallTail a1 a2 d tl)
        (( ", ".toList ++ pv) ++ ",".toList) = false →
      containsSub (front ++ c1CallTail a1 a2 d tl)
        (( ", ".toList ++ pv) ++ ")".toList) = false →
      FixAllRedactareaFinal.fix_line pv (front ++ c1CallTail a1 a2 d tl)
        = (front ++ ".RedactArea(".toList ++ a1 ++ ", ".toList ++ a2 ++ ", ".toList
            ++ pv ++ ", renderDpi: ".toList ++ d ++ ")".toList ++ tl, 1))
    ∧ (∀ pv X a1 a2 d Y : Chars,
      a1 ≠ [] → (∀ c, a1.head? = some c → isWsChar c = false) → ',' ∉ a1 →
      a2 ≠ [] → (∀ c, a2.head? = some c → isWsChar c = false) → ',' ∉ a2 →
      d ≠ [] → (∀ c ∈ d, isDigitChar c = true) →
      (∀ i, i < (X ++ c1CallTail a1 a2 d Y).length →
        occursAt (X ++ c1CallTail a1 a2 d Y) anchorRA i = true → i = X.length) →
      scanCount (FixRedactareaCalls.callsP1 pv) (X ++ c1CallTail a1 a2 d Y) = 1
      ∧ scanSub (FixRedactareaCalls.callsP1 pv) (X ++ c1CallTail a1 a2 d Y)
          = X ++ (( ".RedactArea(".toList ++ a1 ++ ", ".toList ++ a2 ++ ", ".toList
              ++ pv ++ ", renderDpi: ".toList ++ d ++ ")".toList) ++ Y))
    ∧ (∀ pv content out : Chars,
      scanCount (FixRedactareaCalls.callsP1 pv) content = 1 →
      scanSub (FixRedactareaCalls.callsP1 pv) content = out →
      scanCount (FixRedactareaCalls.callsP1 pv) out = 0 →
      scanCount (FixRedactareaCalls.callsP2 pv) out = 0 →
      FixRedactareaCalls.fix_core pv content = (out, 1)) := by
  refine ⟨?_, ?_, ?_⟩
  · intro pv front a1 a2 d tl ha1 h1c ha2 h2w h2c hd hdall huniq hnv hcm hsk1 hsk2
    have hnil : FixAllRedactareaFinal.finalTail1 [] = none :=
      finalTail1_no_anchor [] (by decide)
    have hreg := anchored_none_region FixAllRedactareaFinal.finalTail1 anchorRA
      (front ++ c1CallTail a1 a2 d tl) front.length (by decide)
      (fun s h => finalTail1_no_anchor s h) huniq
    have hdropnone : ∀ i, 0 < i → i < (c1CallTail a1 a2 d tl).length →
        FixAllRedactareaFinal.finalTail1 ((c1CallTail a1 a2 d tl).drop i) = none := by
      intro i hi0 hil
      have h2 := hreg (front.length + i) (by omega)
      rw [drop_append_right] at h2
      exact h2
    have hm1 : searchGreedy FixAllRedactareaFinal.finalTail1
        (front ++ c1CallTail a1 a2 d tl) = some (front, a1, a2, d, tl) :=
      searchGreedy_last _ front _ _
        (finalTail1_exact a1 a2 d tl ha1 h1c ha2 h2w h2c hd hdall) hdropnone hnil
    have hB : containsSub (front ++ c1CallTail a1 a2 d tl)
        ( "RedactArea(".toList) = true := by
      have hline : front ++ c1CallTail a1 a2 d tl
          = (front ++ ['.']) ++ ( "RedactArea(".toList ++ (a1 ++ (',' :: ' '
            :: (a2 ++ (',' :: ' ' :: ( "renderDpi:".toList
            ++ (' ' :: (d ++ (')' :: tl))))))))) := by
        rw [c1CallTail]
        rw [show anchorRA = ['.'] ++ "RedactArea(".toList from rfl]
        simp [List.append_assoc]
      rw [hline]
      exact containsSub_occ _ _ _
    have hcond : (containsSub (front ++ c1CallTail a1 a2 d tl) ( "RedactArea(".toList)
        && !containsSub (front ++ c1CallTail a1 a2 d tl) ( "void RedactArea".toList)
        && !containsSub (front ++ c1CallTail a1 a2 d tl) ( "//".toList)) = true := by
      rw [hB, hnv, hcm]
      rfl
    have hskor : (containsSub (front ++ c1CallTail a1 a2 d tl)
        (( ", ".toList ++ pv) ++ ",".toList)
        || containsSub (front ++ c1CallTail a1 a2 d tl)
          (( ", ".toList ++ pv) ++ ")".toList)) = false := by
      rw [hsk1, hsk2]
      rfl
    simp only [FixAllRedactareaFinal.fix_line]
    rw [hcond, hskor, hm1]
    rfl
  · intro pv X a1 a2 d Y ha1 h1w h1c ha2 h2w h2c hd hdall huniqC
    have hexact := callsP1_exact pv a1 a2 d Y ha1 h1w h1c ha2 h2w h2c hd hdall
    have hreg := anchored_none_region (FixRedactareaCalls.callsP1 pv) anchorRA
      (X ++ c1CallTail a1 a2 d Y) X.length (by decide)
      (fun s h => callsP1_no_anchor pv s h) huniqC
    have hXnone : ∀ i, i < X.length →
        FixRedactareaCalls.callsP1 pv ((X.drop i) ++ c1CallTail a1 a2 d Y) = none := by
      intro i hi
      have h2 := hreg i (by omega)
      rw [List.drop_append_of_le_length (by omega)] at h2
      exact h2
    have hSdecomp : c1CallTail a1 a2 d Y
        = (anchorRA ++ a1 ++ [',', ' '] ++ a2 ++ [',', ' ']
            ++ "renderDpi:".toList ++ [' '] ++ d ++ [')']) ++ Y := by
      rw [c1CallTail]
      simp [List.append_assoc]
    have hposPRE : 0 < (anchorRA ++ a1 ++ [',', ' '] ++ a2 ++ [',', ' ']
        ++ "renderDpi:".toList ++ [' '] ++ d ++ [')']).length := by
      rw [List.length_append]
      simp
    have hcontent : X ++ c1CallTail a1 a2 d Y
        = (X ++ (anchorRA ++ a1 ++ [',', ' '] ++ a2 ++ [',', ' ']
            ++ "renderDpi:".toList ++ [' '] ++ d ++ [')'])) ++ Y := by
      rw [hSdecomp]
      exact (List.append_assoc _ _ _).symm
    have hYnone : ∀ i, i < Y.length →
        FixRedactareaCalls.callsP1 pv (Y.drop i) = none := by
      intro i hi
      have h2 := hreg ((X ++ (anchorRA ++ a1 ++ [',', ' '] ++ a2 ++ [',', ' ']
          ++ "renderDpi:".toList ++ [' '] ++ d ++ [')'])).length + i) (by
        rw [List.length_append]
        omega)
      rw [hcontent, drop_append_right] at h2
      exact h2
    have hSne : c1CallTail a1 a2 d Y ≠ [] := by
      rw [c1CallTail]
      intro hx
      have := congrArg List.length hx
      simp [anchorRA] at this
    have hlenY : Y.length < (c1CallTail a1 a2 d Y).length := by
      rw [hSdecomp, List.length_append]
      omega
    constructor
    · rw [scanCount_skip _ _ _ hXnone]
      rw [scanCount_head_match _ _ _ _ hSne hexact hlenY]
      rw [scanCount_zero _ _ hYnone]
    · rw [scanSub_skip _ _ _ hXnone]
      rw [scanSub_head_match _ _ _ _ hSne hexact hlenY]
      rw [scanSub_id _ _ hYnone]
  · intro pv content out h1 hsub h3 h4
    have e1 : FixRedactareaCalls.apply_pattern (FixRedactareaCalls.callsP1 pv) content
        = (out, 1) := by
      simp only [FixRedactareaCalls.apply_pattern]
      rw [h1, hsub, h3]
      simp
    have e2 := apply_pattern_no_match (FixRedactareaCalls.callsP2 pv) out h4
    simp only [FixRedactareaCalls.fix_core]
    rw [e1]
    simp only
    rw [e2]
    rfl

/-- C1 witness: the structured rewrite applied to concrete call-site lines. -/
theorem c1_structured_call_rewrite_witness :
    FixAllRedactareaFinal.fix_line ( "pdfPath".toList)
        ( "x".toList ++ c1CallTail ( "a".toList) ( "b".toList) ( "5".toList) ( ";".toList))
      = ( "x".toList ++ ".RedactArea(".toList ++ "a".toList ++ ", ".toList ++ "b".toList
          ++ ", ".toList ++ "pdfPath".toList ++ ", renderDpi: ".toList ++ "5".toList
          ++ ")".toList ++ ";".toList, 1)
    ∧ scanCount (FixRedactareaCalls.callsP1 ( "pdfPath".toList))
        ( "y".toList ++ c1CallTail ( "a".toList) ( "b".toList) ( "5".toList)
          ( ";".toList)) = 1
    ∧ FixRedactareaCalls.fix_core ( "pdfPath".toList)
        ( "y".toList ++ c1CallTail ( "a".toList) ( "b".toList) ( "5".toList) ( ";".toList))
      = ( "y".toList ++ (( ".RedactArea(".toList ++ "a".toList ++ ", ".toList
          ++ "b".toList ++ ", ".toList ++ "pdfPath".toList ++ ", renderDpi: ".toList
          ++ "5".toList ++ ")".toList) ++ ";".toList), 1) := by
  have h := c1_structured_call_rewrite
  have hbw : ∀ c : Char, (( "b".toList : Chars)).head? = some c → isWsChar c = false := by
    intro c hc
    have h' : some 'b' = some c := hc
    rw [Option.some_inj] at h'
    rw [← h']
    decide
  have haw : ∀ c : Char, (( "a".toList : Chars)).head? = some c → isWsChar c = false := by
    intro c hc
    have h' : some 'a' = some c := hc
    rw [Option.some_inj] at h'
    rw [← h']
    decide
  have h2 := h.2.1 ( "pdfPath".toList) ( "y".toList) ( "a".toList) ( "b".toList)
    ( "5".toList) ( ";".toList) (by decide) haw (by decide) (by decide) hbw
    (by decide) (by decide) (by decide) (by decide)
  refine ⟨?_, h2.1, ?_⟩
  · exact h.1 ( "pdfPath".toList) ( "x".toList) ( "a".toList) ( "b".toList)
      ( "5".toList) ( ";".toList) (by decide) (by decide) (by decide) hbw
      (by decide) (by decide) (by decide) (by decide) (by decide) (by decide)
      (by decide) (by decide)
  · exact h.2.2 ( "pdfPath".toList) _ _ h2.1 h2.2
      (scanCount_zero _ _ (by decide)) (scanCount_zero _ _ (by decide))
